import Mathlib

/-!
# Verification of the deno-dist execution-graph engine

A shallow embedding of the core of the `deno-dist` repository:

* `src/graph.ts` — `buildExecutionGraph`, `detectCycles`, `computeWaves`,
  `executeGraph`, `executeOperation`;
* `src/pipeline.ts` — the per-distribution folding of raw operation results
  performed by `runPipelineGraph`;
* `src/plugins/mod.ts` — `isValidPlugin`, `doLoadPlugin`, `loadPlugin`.

JavaScript `Map`s are embedded as association lists with `Map.set`
(replace-in-place or append) semantics, JavaScript `Set`s as duplicate-free
lists with insertion-order `add`, and `async` functions that can throw as
`Except`-valued functions.  Wall-clock time and the file system are external
to the core and are not modelled; plugin phase handlers are modelled by the
outcome (returned result or thrown error message) they produce when invoked
on the context the external context factory hands them.
-/

set_option maxRecDepth 4000

namespace DenoDist

/-! ## Association lists with JavaScript `Map` semantics -/

/-- Lookup in an association list (first matching key wins, like `Map.get`). -/
def alookup {α : Type} (m : List (String × α)) (k : String) : Option α :=
  match m with
  | [] => none
  | (k1, v) :: t => if k1 = k then some v else alookup t k

/-- `Map.set`: replace the value at an existing key in place, otherwise
append the new entry at the end (JavaScript `Map` preserves insertion
order). -/
def aset {α : Type} (m : List (String × α)) (k : String) (v : α) :
    List (String × α) :=
  match m with
  | [] => [(k, v)]
  | (k1, v1) :: t => if k1 = k then (k, v) :: t else (k1, v1) :: aset t k v

/-- Modify the value stored at a key, if present (models mutating the object
held in a `Map` entry). -/
def amodify {α : Type} (m : List (String × α)) (k : String) (f : α → α) :
    List (String × α) :=
  match m with
  | [] => []
  | (k1, v1) :: t =>
    if k1 = k then (k1, f v1) :: t else (k1, v1) :: amodify t k f

/-- `Map.delete`: remove the entry with the given key. -/
def aerase {α : Type} (m : List (String × α)) (k : String) :
    List (String × α) :=
  match m with
  | [] => []
  | (k1, v1) :: t => if k1 = k then t else (k1, v1) :: aerase t k

/-- The key list of an association list, in insertion order. -/
def akeys {α : Type} (m : List (String × α)) : List String :=
  m.map Prod.fst

/-- JavaScript `Set.add`: append the element if it is not already present. -/
def setAdd (l : List String) (x : String) : List String :=
  if x ∈ l then l else l ++ [x]

/-! ## Phases and the plugin data model (`src/types.ts`) -/

/-- `PhaseId` from the generated types: the five phase identifiers. -/
inductive PhaseId where
  | preprocess
  | transform
  | postprocess
  | setup
  | release
deriving DecidableEq, Repr

/-- The runtime string value of a `PhaseId` (TypeScript phase ids are plain
strings at runtime). -/
def PhaseId.toString : PhaseId → String
  | .preprocess => "preprocess"
  | .transform => "transform"
  | .postprocess => "postprocess"
  | .setup => "setup"
  | .release => "release"

/-- `BUILD_PHASE_IDS` from the generated types. -/
def BUILD_PHASE_IDS : List PhaseId :=
  [PhaseId.preprocess, PhaseId.transform, PhaseId.postprocess]

/-- `LIFECYCLE_PHASE_IDS` from the generated types. -/
def LIFECYCLE_PHASE_IDS : List PhaseId := [PhaseId.setup, PhaseId.release]

/-- `isBuildPhase(value: unknown)`: runtime string comparison.  The argument
is an `Option` because `parseOperationId` can yield `undefined` components
(JavaScript array destructuring of a too-short `split` result). -/
def isBuildPhaseStr : Option String → Bool
  | some s => s = "preprocess" ∨ s = "transform" ∨ s = "postprocess"
  | none => false

/-- A `PluginPhaseResult`: success flag plus optional error text, warnings,
affected files and duration. -/
structure PluginPhaseResult where
  success : Bool
  error : Option String := none
  warnings : Option (List String) := none
  affectedFiles : Option (List String) := none
  durationMs : Option Nat := none
deriving DecidableEq, Repr

/-- The behaviour of one plugin phase handler when the executor invokes it
on the context produced by the external context factory: it either fulfills
with a `PluginPhaseResult` or rejects with an error message. -/
inductive HandlerSpec where
  | ret (r : PluginPhaseResult)
  | throws (msg : String)
deriving DecidableEq, Repr

/-- `PluginMetadata`: identity fields plus the declared dependency list and
the `canParallelize` flag.  `canParallelize` is an optional boolean in the
source and is only ever read through JavaScript truthiness, so the absent
case is identified with `false`. -/
structure PluginMetadata where
  id : String
  name : String
  version : String
  dependencies : Option (List String) := none
  canParallelize : Bool := false
deriving DecidableEq, Repr

/-- A `Plugin`: metadata plus five optional phase handlers.  A handler is
modelled by the outcome it produces when invoked (`HandlerSpec`). -/
structure Plugin where
  metadata : PluginMetadata
  preprocess : Option HandlerSpec := none
  transform : Option HandlerSpec := none
  postprocess : Option HandlerSpec := none
  setup : Option HandlerSpec := none
  release : Option HandlerSpec := none
deriving DecidableEq, Repr

/-- `plugin[phase]`: dynamic field access used by `executeOperation`. -/
def Plugin.handler (p : Plugin) : PhaseId → Option HandlerSpec
  | .preprocess => p.preprocess
  | .transform => p.transform
  | .postprocess => p.postprocess
  | .setup => p.setup
  | .release => p.release

/-- `getPluginPhases` from `src/types.ts`: the phases for which the plugin
object carries a handler, in source push order. -/
def getPluginPhases (p : Plugin) : List PhaseId :=
  (if p.preprocess.isSome then [PhaseId.preprocess] else []) ++
  (if p.transform.isSome then [PhaseId.transform] else []) ++
  (if p.postprocess.isSome then [PhaseId.postprocess] else []) ++
  (if p.setup.isSome then [PhaseId.setup] else []) ++
  (if p.release.isSome then [PhaseId.release] else [])

/-- `InlinePluginConfig`: the per-instance configuration entry.  Only the
plugin id is relevant to the graph engine; the option bag is opaque to the
core and elided. -/
structure InlinePluginConfig where
  id : String
deriving DecidableEq, Repr

/-- `ResolvedPluginInfo` from `src/graph.ts`. -/
structure ResolvedPluginInfo where
  plugin : Plugin
  config : InlinePluginConfig
  distribution : String
deriving DecidableEq, Repr

/-! ## Operation ids (`src/graph.ts`, `operationId` / `parseOperationId`) -/

/-- `operationId`: the string `distribution:pluginId:phase`. -/
def operationId (distribution pluginId phase : String) : String :=
  distribution ++ ":" ++ pluginId ++ ":" ++ phase

/-- JavaScript `String.prototype.split` with a single-character separator,
on the character-list level. -/
def splitOnChar (sep : Char) : List Char → List (List Char)
  | [] => [[]]
  | c :: cs =>
    if c = sep then [] :: splitOnChar sep cs
    else
      match splitOnChar sep cs with
      | [] => [[c]]
      | h :: t => (c :: h) :: t

/-- `id.split(":")`. -/
def splitColon (s : String) : List String :=
  (splitOnChar ':' s.data).map String.mk

/-- The result of `parseOperationId`.  JavaScript array destructuring leaves
missing components `undefined`, modelled by `none`. -/
structure ParsedOperationId where
  distribution : Option String
  pluginId : Option String
  phase : Option String
deriving DecidableEq, Repr

/-- `parseOperationId`: split on `":"` and destructure the first three
components. -/
def parseOperationId (id : String) : ParsedOperationId :=
  match splitColon id with
  | [] => ⟨none, none, none⟩
  | [d] => ⟨some d, none, none⟩
  | [d, p] => ⟨some d, some p, none⟩
  | d :: p :: ph :: _ => ⟨some d, some p, some ph⟩

/-- JavaScript template-literal coercion: `undefined` prints as the string
`"undefined"` (used when `operationId` is re-invoked on parsed, possibly
missing, components). -/
def optStr : Option String → String
  | some s => s
  | none => "undefined"

/-- JavaScript `Array.prototype.indexOf` over strings with a possibly
`undefined` needle: `-1` when absent. -/
def jsIndexOf (l : List String) (x : Option String) : Int :=
  match x with
  | none => -1
  | some s =>
    match l.indexOf? s with
    | some i => (i : Int)
    | none => -1

/-- `getPluginPhases(p).includes(phase)` where `phase` is the (string)
third component of a parsed operation id. -/
def phasesInclude (phases : List PhaseId) (ph : Option String) : Bool :=
  match ph with
  | some s => (phases.map PhaseId.toString).contains s
  | none => false

/-- A string containing no `':'`, so that `parseOperationId` can recover it
from an operation id. -/
def ColonFree (s : String) : Prop := ':' ∉ s.data

instance (s : String) : Decidable (ColonFree s) := by
  unfold ColonFree
  infer_instance

/-! ## Graph building (`src/graph.ts`) -/

/-- `ExecutionOperation`: one schedulable unit. -/
structure ExecutionOperation where
  id : String
  plugin : Plugin
  phase : PhaseId
  distribution : String
  config : InlinePluginConfig
deriving DecidableEq, Repr

/-- Internal `GraphNode`: operation plus dependency / dependent id sets. -/
structure GraphNode where
  operation : ExecutionOperation
  dependencies : List String
  dependents : List String
  processed : Bool
deriving DecidableEq, Repr

/-- The node map built by `buildExecutionGraph`. -/
def NodeMap : Type := List (String × GraphNode)

/-- `ExecutionWave`: an index and the operations runnable in parallel. -/
structure ExecutionWave where
  index : Nat
  operations : List ExecutionOperation
deriving DecidableEq, Repr

/-- `ExecutionGraph`: waves, operation count, cycle flag, debug edge map. -/
structure ExecutionGraph where
  waves : List ExecutionWave
  totalOperations : Nat
  hasCycles : Bool
  edges : List (String × List String)
deriving DecidableEq, Repr

/-- `GraphError`: the structural error thrown by the graph builder. -/
structure GraphError where
  message : String
deriving DecidableEq, Repr

/-- `GraphBuildOptions`.  Optional fields are `Option`s because the source
distinguishes `undefined` from `false` (`options.includeSetup !== false`). -/
structure GraphBuildOptions where
  distributions : List String
  phases : Option (List PhaseId) := none
  includeSetup : Option Bool := none
  includeRelease : Option Bool := none

/-- The phase set requested by the options (`phasesToInclude` in
`buildExecutionGraph`).  A list with `Set`-membership use only. -/
def phasesToInclude (o : GraphBuildOptions) : List PhaseId :=
  match o.phases with
  | some ps => ps
  | none =>
    (if o.includeSetup ≠ some false then [PhaseId.setup] else []) ++
      BUILD_PHASE_IDS ++
      (if o.includeRelease ≠ some false then [PhaseId.release] else [])

/-- First pass of `buildExecutionGraph`: create one node per implemented,
requested phase of each resolved plugin. -/
def createNodes (plugins : List ResolvedPluginInfo)
    (options : GraphBuildOptions) : NodeMap :=
  plugins.foldl
    (fun m info =>
      (getPluginPhases info.plugin).foldl
        (fun m2 phase =>
          if (phasesToInclude options).contains phase then
            let id := operationId info.distribution info.plugin.metadata.id
              phase.toString
            aset m2 id
              { operation :=
                  { id := id, plugin := info.plugin, phase := phase,
                    distribution := info.distribution, config := info.config },
                dependencies := [], dependents := [], processed := false }
          else m2)
        m)
    []

/-- Add one dependency edge: `node.dependencies.add(toId)` together with
`otherNode.dependents.add(fromId)`. -/
def addEdge (m : NodeMap) (fromId toId : String) : NodeMap :=
  amodify
    (amodify m fromId
      (fun n => { n with dependencies := setAdd n.dependencies toId }))
    toId
    (fun n => { n with dependents := setAdd n.dependents fromId })

/-- The `phaseOrder` array of rule 1. -/
def phaseOrderStrs : List String := ["preprocess", "transform", "postprocess"]

/-- Rule 1 of the second pass: a build-phase operation depends on every
operation of the previous build phase in the same distribution. -/
def addPhaseOrderEdges (m : NodeMap) (id : String)
    (parsed : ParsedOperationId) : NodeMap :=
  if isBuildPhaseStr parsed.phase then
    if 0 < jsIndexOf phaseOrderStrs parsed.phase then
      (akeys m).foldl
        (fun acc otherId =>
          let other := parseOperationId otherId
          if other.distribution = parsed.distribution ∧
              other.phase = some (phaseOrderStrs.getD
                ((jsIndexOf phaseOrderStrs parsed.phase) - 1).toNat "") then
            addEdge acc id otherId
          else acc)
        m
    else m
  else m

/-- Rule 2: a release operation depends on every build-phase operation of
the same distribution. -/
def addReleaseEdges (m : NodeMap) (id : String)
    (parsed : ParsedOperationId) : NodeMap :=
  if parsed.phase = some "release" then
    (akeys m).foldl
      (fun acc otherId =>
        let other := parseOperationId otherId
        if other.distribution = parsed.distribution ∧
            isBuildPhaseStr other.phase then
          addEdge acc id otherId
        else acc)
      m
  else m

/-- Rule 3: plugin-declared dependencies, same distribution and phase,
silently ignored when the target operation does not exist. -/
def addDeclaredEdges (m : NodeMap) (id : String)
    (parsed : ParsedOperationId) (node : GraphNode) : NodeMap :=
  match node.operation.plugin.metadata.dependencies with
  | none => m
  | some deps =>
    deps.foldl
      (fun acc depPluginId =>
        let depId := operationId (optStr parsed.distribution) depPluginId
          (optStr parsed.phase)
        if (alookup acc depId).isSome then addEdge acc id depId else acc)
      m

/-- The `samePhasePlugins` subset of rule 4: same-distribution plugins
implementing the same phase, in configuration order. -/
def samePhasePluginsOf (plugins : List ResolvedPluginInfo)
    (parsed : ParsedOperationId) : List ResolvedPluginInfo :=
  (plugins.filter
    (fun p => some p.distribution = parsed.distribution)).filter
    (fun p => phasesInclude (getPluginPhases p.plugin) parsed.phase)

/-- Rule 4: a non-parallelizable plugin depends on its immediate
predecessor among the same-distribution plugins implementing the same
phase, in configuration order, provided that predecessor is itself
non-parallelizable. -/
def addSequentialEdges (plugins : List ResolvedPluginInfo) (m : NodeMap)
    (id : String) (parsed : ParsedOperationId) (node : GraphNode) : NodeMap :=
  if node.operation.plugin.metadata.canParallelize then m
  else
    match (samePhasePluginsOf plugins parsed).findIdx?
        (fun p => some p.plugin.metadata.id = parsed.pluginId) with
    | none => m
    | some 0 => m
    | some (myIndex + 1) =>
      match (samePhasePluginsOf plugins parsed).get? myIndex with
      | none => m
      | some prevPlugin =>
        if prevPlugin.plugin.metadata.canParallelize then m
        else
          if (alookup m (operationId (optStr parsed.distribution)
              prevPlugin.plugin.metadata.id (optStr parsed.phase))).isSome
          then
            addEdge m id (operationId (optStr parsed.distribution)
              prevPlugin.plugin.metadata.id (optStr parsed.phase))
          else m

/-- Second pass of `buildExecutionGraph` for one node. -/
def processNode (plugins : List ResolvedPluginInfo) (m : NodeMap)
    (id : String) : NodeMap :=
  match alookup m id with
  | none => m
  | some node =>
    addSequentialEdges plugins
      (addDeclaredEdges
        (addReleaseEdges
          (addPhaseOrderEdges m id (parseOperationId id))
          id (parseOperationId id))
        id (parseOperationId id) node)
      id (parseOperationId id) node

/-- Second pass of `buildExecutionGraph` over all nodes. -/
def addAllEdges (plugins : List ResolvedPluginInfo) (m0 : NodeMap) :
    NodeMap :=
  (akeys m0).foldl (fun m id => processNode plugins m id) m0

/-- The fully built node map (passes 1 and 2) for a plugin list and
options. -/
def builtNodes (plugins : List ResolvedPluginInfo)
    (options : GraphBuildOptions) : NodeMap :=
  addAllEdges plugins (createNodes plugins options)

/-- The recursive `dfs` of `detectCycles`.  The fuel argument bounds the
recursion depth; `detectCycles` passes one more than the number of nodes,
which can never be exhausted because every nested call targets a
previously unvisited node.  The source returns `true` out of the
dependency loop as soon as a back-edge is found; this early return is
encoded as a sticky found flag (once set, the remaining iterations change
nothing), which produces the same result. -/
def dfsNode (nodes : NodeMap) : Nat → List String → List String →
    String → Bool × List String × List String
  | 0, visited, recStack, _ => (true, visited, recStack)
  | fuel + 1, visited, recStack, id =>
    match alookup nodes id with
    | none => (false, setAdd visited id, setAdd recStack id)
    | some node =>
      match node.dependencies.foldl
        (fun (st : Bool × List String × List String) depId =>
          match st with
          | (true, v, rs) => (true, v, rs)
          | (false, v, rs) =>
            if depId ∈ v then
              if depId ∈ rs then (true, v, rs) else (false, v, rs)
            else dfsNode nodes fuel v rs depId)
        (false, setAdd visited id, setAdd recStack id) with
      | (true, v, rs) => (true, v, rs)
      | (false, v, rs) => (false, v, rs.erase id)

/-- `detectCycles`: DFS from every unvisited node, with a recursion-stack
check; early return modelled by a sticky found flag. -/
def detectCycles (nodes : NodeMap) : Bool :=
  let fuel := nodes.length + 1
  let final := (akeys nodes).foldl
    (fun st id =>
      match st with
      | (true, v, rs) => (true, v, rs)
      | (false, v, rs) =>
        if id ∈ v then (false, v, rs)
        else dfsNode nodes fuel v rs id)
    (false, [], [])
  final.1

/-- One step of the `computeWaves` loop: collect, in remaining order, the
operations whose tracked in-degree is zero (`nodes.get(id)!` cannot fail
on ids drawn from `remaining`; a missing node is skipped). -/
def collectWave (nodes : NodeMap) (inDeg : List (String × Int)) :
    List String → List ExecutionOperation
  | [] => []
  | id :: rest =>
    if alookup inDeg id = some 0 then
      match alookup nodes id with
      | some n => n.operation :: collectWave nodes inDeg rest
      | none => collectWave nodes inDeg rest
    else collectWave nodes inDeg rest

/-- Decrement the in-degree of every dependent of every operation in the
finished wave. -/
def decrementDependents (nodes : NodeMap) (inDeg : List (String × Int))
    (ops : List ExecutionOperation) : List (String × Int) :=
  ops.foldl
    (fun acc op =>
      match alookup nodes op.id with
      | none => acc
      | some node =>
        node.dependents.foldl
          (fun acc2 depId =>
            aset acc2 depId (((alookup acc2 depId).getD 0) - 1))
          acc)
    inDeg

/-- The `while (remaining.size > 0)` loop of `computeWaves`.  The fuel is
one more than the size of `remaining`; each iteration either errors or
strictly shrinks `remaining`, so the zero-fuel branch is unreachable (it
still reports the structural error the source would raise on a stuck
state). -/
def wavesLoop (nodes : NodeMap) : Nat → List (String × Int) →
    List String → Nat → Except GraphError (List ExecutionWave)
  | 0, _, remaining, _ =>
    if remaining.isEmpty then .ok []
    else .error ⟨"No operations available but remaining set is not empty"⟩
  | fuel + 1, inDeg, remaining, waveIndex =>
    if remaining.isEmpty then .ok []
    else
      if (collectWave nodes inDeg remaining).isEmpty then
        .error ⟨"No operations available but remaining set is not empty"⟩
      else
        match
          wavesLoop nodes fuel
            (decrementDependents nodes inDeg
              (collectWave nodes inDeg remaining))
            ((collectWave nodes inDeg remaining).foldl
              (fun rem op => rem.erase op.id) remaining)
            (waveIndex + 1) with
        | .error e => .error e
        | .ok rest =>
          .ok ({ index := waveIndex,
                 operations := collectWave nodes inDeg remaining } :: rest)

/-- `computeWaves`: modified Kahn's algorithm. -/
def computeWaves (nodes : NodeMap) :
    Except GraphError (List ExecutionWave) :=
  let inDeg := nodes.map
    (fun e => (e.1, (e.2.dependencies.length : Int)))
  let remaining := akeys nodes
  wavesLoop nodes (remaining.length + 1) inDeg remaining 0

/-- `buildExecutionGraph`: build nodes and edges, fail on a detected cycle,
then compute waves.  A thrown `GraphError` is modelled as `Except.error`;
no partial graph accompanies it. -/
def buildExecutionGraph (plugins : List ResolvedPluginInfo)
    (options : GraphBuildOptions) : Except GraphError ExecutionGraph :=
  if detectCycles (builtNodes plugins options) then
    .error ⟨"Cycle detected in plugin dependency graph"⟩
  else
    match computeWaves (builtNodes plugins options) with
    | .error e => .error e
    | .ok waves =>
      .ok { waves := waves,
            totalOperations := (builtNodes plugins options).length,
            hasCycles := false,
            edges := (builtNodes plugins options).map
              (fun e => (e.1, e.2.dependencies)) }

/-! ## Graph execution (`src/graph.ts`, `executeGraph` / `executeOperation`)

Distribution config, the context factory and the progress callback are
external collaborators: they do not influence which results are recorded,
so they are elided.  Wall-clock duration is not modelled. -/

/-- `GraphExecutionResult` (without the wall-clock duration field). -/
structure GraphExecutionResult where
  success : Bool
  results : List (String × PluginPhaseResult)
  failed : List String
deriving DecidableEq, Repr

/-- `executeOperation`: resolve the phase handler; a missing handler yields
a successful result carrying a warning; otherwise the handler is invoked
(on the context built by the external factory) and its outcome returned —
a rejection becomes `Except.error`. -/
def executeOperation (op : ExecutionOperation) :
    Except String PluginPhaseResult :=
  match op.plugin.handler op.phase with
  | none =>
    .ok { success := true,
          warnings := some ["Plugin " ++ op.plugin.metadata.id ++ " has no "
            ++ op.phase.toString ++ " handler"] }
  | some (.ret r) => .ok r
  | some (.throws msg) => .error msg

/-- The per-operation body of the wave loop in `executeGraph`: record the
result, converting a thrown error into a failure result, and append the
operation id to the failed list when unsuccessful. -/
def runOp (acc : List (String × PluginPhaseResult) × List String)
    (op : ExecutionOperation) :
    List (String × PluginPhaseResult) × List String :=
  match executeOperation op with
  | .ok r =>
    (aset acc.1 op.id r, if r.success then acc.2 else acc.2 ++ [op.id])
  | .error e =>
    (aset acc.1 op.id { success := false, error := some e },
     acc.2 ++ [op.id])

/-- `executeGraph`: waves in order, every operation of a wave settled
before the next wave starts; never throws. -/
def executeGraph (graph : ExecutionGraph) : GraphExecutionResult :=
  let st := graph.waves.foldl
    (fun acc wave => wave.operations.foldl runOp acc) ([], [])
  { success := st.2.isEmpty, results := st.1, failed := st.2 }

/-- All operations of a graph, in wave order. -/
def allOps (graph : ExecutionGraph) : List ExecutionOperation :=
  graph.waves.foldr (fun w acc => w.operations ++ acc) []

/-! ## Result folding (`src/pipeline.ts`, `runPipelineGraph`) -/

/-- `PipelineResult` for one distribution (output directory handling is
external file-system glue and is elided). -/
structure PipelineResult where
  success : Bool
  phases : List (PhaseId × PluginPhaseResult)
  totalDurationMs : Nat
  distributionName : String
deriving DecidableEq, Repr

/-- The operations of a graph for one distribution and phase, in wave
order (`graph.waves.flatMap` with the filter from `runPipelineGraph`). -/
def phaseOpsOf (graph : ExecutionGraph) (distName : String)
    (phase : PhaseId) : List ExecutionOperation :=
  graph.waves.flatMap
    (fun w => w.operations.filter
      (fun op => op.distribution = distName ∧ op.phase = phase))

/-- `r?.success ?? false`. -/
def optSuccess (r : Option PluginPhaseResult) : Bool :=
  (r.map (fun x => x.success)).getD false

/-- Aggregate one phase of one distribution from the raw per-operation
results (the body of the phase loop in `runPipelineGraph`).  Returns
`none` when the distribution has no operation in this phase (the loop
`continue`s). -/
def aggregatePhase (graph : ExecutionGraph) (gres : GraphExecutionResult)
    (distName : String) (phase : PhaseId) : Option PluginPhaseResult :=
  let phaseOps := phaseOpsOf graph distName phase
  if phaseOps.isEmpty then none
  else
    let phaseOpResults := phaseOps.map (fun op => alookup gres.results op.id)
    let phaseSuccess := phaseOpResults.all optSuccess
    let phaseWarnings := phaseOpResults.flatMap
      (fun r => (r.bind (fun x => x.warnings)).getD [])
    let phaseAffectedFiles := phaseOpResults.flatMap
      (fun r => (r.bind (fun x => x.affectedFiles)).getD [])
    let phaseDuration := phaseOpResults.foldl
      (fun sum r => sum + (r.bind (fun x => x.durationMs)).getD 0) 0
    some
      { success := phaseSuccess,
        warnings := if phaseWarnings.length > 0 then some phaseWarnings
          else none,
        affectedFiles := if phaseAffectedFiles.length > 0 then
          some phaseAffectedFiles else none,
        durationMs := some phaseDuration,
        error := (phaseOpResults.find? (fun r => !optSuccess r)).bind
          (fun r => r.bind (fun x => x.error)) }

/-- The phase list iterated by the result-folding loop:
`[...BUILD_PHASE_IDS, ...LIFECYCLE_PHASE_IDS]`. -/
def foldPhaseOrder : List PhaseId := BUILD_PHASE_IDS ++ LIFECYCLE_PHASE_IDS

/-- Fold the raw graph results into the `PipelineResult` of one
distribution. -/
def aggregateDistribution (graph : ExecutionGraph)
    (gres : GraphExecutionResult) (distName : String) : PipelineResult :=
  let st := foldPhaseOrder.foldl
    (fun (st : List (PhaseId × PluginPhaseResult) × Bool × Nat) phase =>
      match aggregatePhase graph gres distName phase with
      | none => st
      | some pr =>
        (st.1 ++ [(phase, pr)],
         (st.2.1 && pr.success),
         st.2.2 + pr.durationMs.getD 0))
    ([], true, 0)
  { success := st.2.1, phases := st.1, totalDurationMs := st.2.2,
    distributionName := distName }

/-- The per-distribution result map produced by the folding stage of
`runPipelineGraph`. -/
def foldGraphResults (graph : ExecutionGraph) (gres : GraphExecutionResult)
    (distNames : List String) : List (String × PipelineResult) :=
  distNames.map (fun d => (d, aggregateDistribution graph gres d))

/-! ## Plugin loading (`src/plugins/mod.ts`) -/

/-- A dynamic JavaScript value, as far as plugin validation observes it. -/
inductive JsVal where
  | vstr (s : String)
  | vnum (n : Int)
  | vbool (b : Bool)
  | vfunc
  | vnull
  | vundefined
  | vobj (fields : List (String × JsVal))

/-- JavaScript truthiness (`!obj`). -/
def jsTruthy : JsVal → Bool
  | .vstr s => s ≠ ""
  | .vnum n => n ≠ 0
  | .vbool b => b
  | .vfunc => true
  | .vnull => false
  | .vundefined => false
  | .vobj _ => true

/-- `typeof v === "object"` (true for objects and `null`). -/
def jsTypeofObject : JsVal → Bool
  | .vobj _ => true
  | .vnull => true
  | _ => false

/-- Property access `v[key]`, `undefined` when absent. -/
def jsGet (v : JsVal) (key : String) : JsVal :=
  match v with
  | .vobj fields => (alookup fields key).getD .vundefined
  | _ => .vundefined

/-- `key in v`. -/
def jsHas (v : JsVal) (key : String) : Bool :=
  match v with
  | .vobj fields => key ∈ akeys fields
  | _ => false

/-- `typeof v === "function"`. -/
def jsIsFunction : JsVal → Bool
  | .vfunc => true
  | _ => false

/-- `typeof v === "string"`. -/
def jsIsString : JsVal → Bool
  | .vstr _ => true
  | _ => false

/-- `validatePluginMetadata`: a truthy object whose `id` is a non-empty
string and whose `name` and `version` are strings. -/
def validatePluginMetadata (m : JsVal) : Bool :=
  if !(jsTruthy m) || !(jsTypeofObject m) then false
  else
    jsIsString (jsGet m "id") &&
    (match jsGet m "id" with
     | .vstr s => s.length > 0
     | _ => false) &&
    jsIsString (jsGet m "name") &&
    jsIsString (jsGet m "version")

/-- `isValidPlugin`: a truthy object with valid metadata whose present
`preprocess` / `transform` / `postprocess` fields are functions.  The
lifecycle fields `setup` and `release` are not inspected. -/
def isValidPlugin (obj : JsVal) : Bool :=
  if !(jsTruthy obj) || !(jsTypeofObject obj) then false
  else if !(validatePluginMetadata (jsGet obj "metadata")) then false
  else
    ["preprocess", "transform", "postprocess"].all
      (fun phase => !(jsHas obj phase) || jsIsFunction (jsGet obj phase))

/-- `BUILTIN_PLUGINS`. -/
def isBuiltinPlugin (id : String) : Bool :=
  id ∈ ["deno-to-node", "deno-to-bun", "deno-passthrough"]

/-- `PluginError`: message plus the offending plugin id. -/
structure PluginError where
  message : String
  pluginId : String
deriving DecidableEq, Repr

/-- `module.default ?? module`. -/
def moduleDefault (module : JsVal) : JsVal :=
  match jsGet module "default" with
  | .vundefined => module
  | .vnull => module
  | v => v

/-- `doLoadPlugin`, parameterised by the external module system:
`builtins` resolves the three built-in plugin modules, `importFn` is the
dynamic `import` for everything else (its failure carries the thrown
error text). -/
def doLoadPlugin (builtins : String → Option JsVal)
    (importFn : String → Except String JsVal) (id : String) :
    Except PluginError JsVal :=
  match (if isBuiltinPlugin id then builtins id else none) with
  | some builtin => .ok builtin
  | none =>
    match importFn id with
    | .error e =>
      .error { message := "Failed to load plugin \"" ++ id ++ "\": " ++ e,
               pluginId := id }
    | .ok module =>
      let plugin := moduleDefault module
      if isValidPlugin plugin then .ok plugin
      else
        .error
          { message := "Module \"" ++ id ++
              "\" does not export a valid plugin. " ++
              "Plugins must have a metadata object with id, name, and version fields.",
            pluginId := id }

/-- The loader's module-level state: the plugin registry and the
single-flight load-promise cache.  In this sequential embedding a cache
entry holds the settled outcome of the cached promise. -/
structure LoaderState where
  registry : List (String × JsVal)
  loadPromises : List (String × Except PluginError JsVal)

/-- `loadPlugin`: registry hit, then in-flight promise hit, else perform
the load (`doLoad`), caching the promise first; on success register the
plugin, on failure delete the cached promise before rethrowing. -/
def loadPlugin (st : LoaderState)
    (doLoad : String → Except PluginError JsVal) (id : String) :
    LoaderState × Except PluginError JsVal :=
  match alookup st.registry id with
  | some registered => (st, .ok registered)
  | none =>
    match alookup st.loadPromises id with
    | some existingPromise => (st, existingPromise)
    | none =>
      let loadPromise := doLoad id
      let st1 : LoaderState :=
        { st with loadPromises := aset st.loadPromises id loadPromise }
      match loadPromise with
      | .ok plugin =>
        ({ st1 with registry := aset st1.registry id plugin }, .ok plugin)
      | .error e =>
        ({ st1 with loadPromises := aerase st1.loadPromises id }, .error e)

/-! ## Derived notions used by the statements -/

/-- The result `executeGraph` records for an operation: the handler outcome,
with a rejection converted to a failure result. -/
def opResult (op : ExecutionOperation) : PluginPhaseResult :=
  match executeOperation op with
  | .ok r => r
  | .error e => { success := false, error := some e }

/-- The dependency list of an operation id in a node map. -/
def depsOf (nodes : NodeMap) (id : String) : List String :=
  match alookup nodes id with
  | some n => n.dependencies
  | none => []

/-- The dependent list of an operation id in a node map. -/
def dependentsOf (nodes : NodeMap) (id : String) : List String :=
  match alookup nodes id with
  | some n => n.dependents
  | none => []

/-- The operation stored at an id, if any. -/
def opAt (m : NodeMap) (id : String) : Option ExecutionOperation :=
  (alookup m id).map (fun n => n.operation)

/-- `a` depends on `b`: the dependency-edge relation of a node map. -/
def depEdge (nodes : NodeMap) (a b : String) : Prop :=
  b ∈ depsOf nodes a

instance (nodes : NodeMap) (a b : String) : Decidable (depEdge nodes a b) := by
  unfold depEdge
  infer_instance

/-- The dependency graph has a cycle: some id reaches itself through a
nonempty chain of dependency edges. -/
def hasDepCycle (nodes : NodeMap) : Prop :=
  ∃ x, Relation.TransGen (depEdge nodes) x x

/-- Number of dependencies of `id` still inside `rem`. -/
def countDeps (nodes : NodeMap) (rem : List String) (id : String) : Nat :=
  (depsOf nodes id).countP (fun d => d ∈ rem)

/-- The flattened id list of a wave list. -/
def waveIds (waves : List ExecutionWave) : List String :=
  waves.flatMap (fun w => w.operations.map (fun op => op.id))

/-- The index of the first wave containing an operation with this id. -/
def waveIdxOf (waves : List ExecutionWave) (id : String) : Nat :=
  waves.findIdx (fun w => w.operations.any (fun op => op.id = id))

/-- In-degree bookkeeping matches the dependencies still remaining. -/
def InDegInv (nodes : NodeMap) (inDeg : List (String × Int))
    (rem : List String) : Prop :=
  ∀ id ∈ rem, alookup inDeg id = some ((countDeps nodes rem id : Int))

/-- Well-formedness of a built node map, established for the output of
`createNodes`/`addAllEdges` and consumed by the wave-computation proofs. -/
structure WFNodes (nodes : NodeMap) : Prop where
  keys_nodup : (akeys nodes).Nodup
  op_id : ∀ id op, opAt nodes id = some op → op.id = id
  deps_sub : ∀ id, depsOf nodes id ⊆ akeys nodes
  deps_nodup : ∀ id, (depsOf nodes id).Nodup
  dependents_nodup : ∀ id, (dependentsOf nodes id).Nodup
  symm : ∀ a b, a ∈ akeys nodes → b ∈ akeys nodes →
    (b ∈ depsOf nodes a ↔ a ∈ dependentsOf nodes b)

/-- All plugin names and distribution names in a resolved-plugin list are
colon-free, so operation ids parse back to their components. -/
def ColonFreeInfos (plugins : List ResolvedPluginInfo) : Prop :=
  ∀ info ∈ plugins,
    ColonFree info.distribution ∧ ColonFree info.plugin.metadata.id

instance (plugins : List ResolvedPluginInfo) :
    Decidable (ColonFreeInfos plugins) := by
  unfold ColonFreeInfos
  infer_instance

/-! ## First-pass (`createNodes`) characterization -/

/-- What it means for a node to have been produced by the first pass. -/
def NodeFromPlugins (plugins : List ResolvedPluginInfo)
    (options : GraphBuildOptions) (id : String) (n : GraphNode) : Prop :=
  n.dependencies = [] ∧ n.dependents = [] ∧
  ∃ info ∈ plugins, ∃ phase, phase ∈ getPluginPhases info.plugin ∧
    (phasesToInclude options).contains phase = true ∧
    id = operationId info.distribution info.plugin.metadata.id
      phase.toString ∧
    n.operation = { id := id, plugin := info.plugin, phase := phase,
                    distribution := info.distribution,
                    config := info.config }

/-! ## Second-pass invariant preservation -/

/-- The parts of the node map that the edge pass never changes. -/
def SameShape (m0 m : NodeMap) : Prop :=
  akeys m = akeys m0 ∧ ∀ x, opAt m x = opAt m0 x

/-- Invariant maintained while the second pass inserts edges into the
first-pass node map `m0`. -/
def EdgesWF (m0 m : NodeMap) : Prop :=
  SameShape m0 m ∧
  (∀ x, depsOf m x ⊆ akeys m0) ∧
  (∀ x, (depsOf m x).Nodup) ∧
  (∀ x, (dependentsOf m x).Nodup) ∧
  (∀ a b, a ∈ akeys m0 → b ∈ akeys m0 →
    (b ∈ depsOf m a ↔ a ∈ dependentsOf m b))

/-! ## Concrete fixtures used by witnesses -/

/-- A plugin whose transform handler rejects. -/
def throwingPlugin : Plugin :=
  { metadata := { id := "a", name := "A", version := "1" },
    transform := some (.throws "boom") }

/-- A plugin whose transform handler succeeds. -/
def okPlugin : Plugin :=
  { metadata := { id := "b", name := "B", version := "1" },
    transform := some (.ret { success := true, durationMs := some 5 }) }

/-- A plugin with no transform handler at all. -/
def handlerlessPlugin : Plugin :=
  { metadata := { id := "c", name := "C", version := "1" } }

/-- A two-wave graph mixing a rejecting handler, a succeeding handler and a
missing handler (as `buildExecutionGraph` never schedules an operation for
a phase the plugin does not implement, the missing-handler case is reached
through graphs assembled elsewhere, e.g. `mergeGraphs`). -/
def mixedGraph : ExecutionGraph :=
  { waves :=
      [ { index := 0,
          operations :=
            [ { id := "n:a:transform", plugin := throwingPlugin,
                phase := .transform, distribution := "n",
                config := { id := "a" } } ] },
        { index := 1,
          operations :=
            [ { id := "n:b:transform", plugin := okPlugin,
                phase := .transform, distribution := "n",
                config := { id := "b" } },
              { id := "n:c:transform", plugin := handlerlessPlugin,
                phase := .transform, distribution := "n",
                config := { id := "c" } } ] } ],
    totalOperations := 3, hasCycles := false, edges := [] }

/-- A one-operation graph whose plugin lacks the scheduled handler. -/
def missingHandlerGraph : ExecutionGraph :=
  { waves :=
      [ { index := 0,
          operations :=
            [ { id := "m:c:transform", plugin := handlerlessPlugin,
                phase := .transform, distribution := "m",
                config := { id := "c" } } ] } ],
    totalOperations := 1, hasCycles := false, edges := [] }

/-- A module export failing the claimed validation rules (empty `name`,
non-callable `setup` field) that the loader nevertheless accepts. -/
def invalidNamePlugin : JsVal :=
  .vobj
    [("metadata",
      .vobj [("id", .vstr "p"), ("name", .vstr ""), ("version", .vstr "1")]),
     ("setup", .vstr "not-callable")]

/-- A module export without any metadata, rejected by the loader. -/
def noMetadataModule : JsVal := .vobj [("transform", .vfunc)]

/-- A plugin implementing preprocess and transform, for the wave-partition
witness. -/
def twoPhasePlugin : Plugin :=
  { metadata := { id := "a", name := "A", version := "1" },
    preprocess := some (.ret { success := true }),
    transform := some (.ret { success := true }) }

/-- A one-plugin build input. -/
def partitionPlugins : List ResolvedPluginInfo :=
  [ { plugin := twoPhasePlugin, config := { id := "a" },
      distribution := "node" } ]

/-- Default build options over the `node` distribution. -/
def nodeOpts : GraphBuildOptions := { distributions := ["node"] }

/-- The graph `buildExecutionGraph` produces for `partitionPlugins`. -/
def partitionGraph : ExecutionGraph :=
  { waves :=
      [ { index := 0,
          operations :=
            [ { id := "node:a:preprocess", plugin := twoPhasePlugin,
                phase := .preprocess, distribution := "node",
                config := { id := "a" } } ] },
        { index := 1,
          operations :=
            [ { id := "node:a:transform", plugin := twoPhasePlugin,
                phase := .transform, distribution := "node",
                config := { id := "a" } } ] } ],
    totalOperations := 2, hasCycles := false,
    edges := [("node:a:preprocess", []),
              ("node:a:transform", ["node:a:preprocess"])] }

/-- Two plugins declaring a mutual dependency in the same phase and
distribution. -/
def mutualDepPlugins : List ResolvedPluginInfo :=
  [ { plugin :=
        { metadata := { id := "b", name := "B", version := "1",
                        dependencies := some ["c"] },
          transform := some (.ret { success := true }) },
      config := { id := "b" }, distribution := "node" },
    { plugin :=
        { metadata := { id := "c", name := "C", version := "1",
                        dependencies := some ["b"] },
          transform := some (.ret { success := true }) },
      config := { id := "c" }, distribution := "node" } ]

/-- A plugin implementing transform and release, for the release-edge
witness. -/
def releasePlugin : Plugin :=
  { metadata := { id := "r", name := "R", version := "1" },
    transform := some (.ret { success := true }),
    release := some (.ret { success := true }) }

/-- A one-plugin build input containing a release phase. -/
def releasePlugins : List ResolvedPluginInfo :=
  [ { plugin := releasePlugin, config := { id := "r" },
      distribution := "node" } ]

/-- The graph `buildExecutionGraph` produces for `releasePlugins`. -/
def releaseGraph : ExecutionGraph :=
  { waves :=
      [ { index := 0,
          operations :=
            [ { id := "node:r:transform", plugin := releasePlugin,
                phase := .transform, distribution := "node",
                config := { id := "r" } } ] },
        { index := 1,
          operations :=
            [ { id := "node:r:release", plugin := releasePlugin,
                phase := .release, distribution := "node",
                config := { id := "r" } } ] } ],
    totalOperations := 2, hasCycles := false,
    edges := [("node:r:transform", []),
              ("node:r:release", ["node:r:transform"])] }

/-- A same-phase plugin with a configurable parallelization flag, for the
chaining witness. -/
def chainPlugin (pid : String) (par : Bool) : Plugin :=
  { metadata := { id := pid, name := "P", version := "1",
                  canParallelize := par },
    transform := some (.ret { success := true }) }

/-- Four same-phase plugins: non-parallelizable a, b and d with a
parallelizable c between b and d. -/
def chainPlugins : List ResolvedPluginInfo :=
  [ { plugin := chainPlugin "a" false, config := { id := "a" },
      distribution := "node" },
    { plugin := chainPlugin "b" false, config := { id := "b" },
      distribution := "node" },
    { plugin := chainPlugin "c" true, config := { id := "c" },
      distribution := "node" },
    { plugin := chainPlugin "d" false, config := { id := "d" },
      distribution := "node" } ]

/-- The graph `buildExecutionGraph` produces for `chainPlugins`. -/
def chainGraph : ExecutionGraph :=
  { waves :=
      [ { index := 0,
          operations :=
            [ { id := "node:a:transform", plugin := chainPlugin "a" false,
                phase := .transform, distribution := "node",
                config := { id := "a" } },
              { id := "node:c:transform", plugin := chainPlugin "c" true,
                phase := .transform, distribution := "node",
                config := { id := "c" } },
              { id := "node:d:transform", plugin := chainPlugin "d" false,
                phase := .transform, distribution := "node",
                config := { id := "d" } } ] },
        { index := 1,
          operations :=
            [ { id := "node:b:transform", plugin := chainPlugin "b" false,
                phase := .transform, distribution := "node",
                config := { id := "b" } } ] } ],
    totalOperations := 4, hasCycles := false,
    edges := [("node:a:transform", []),
              ("node:b:transform", ["node:a:transform"]),
              ("node:c:transform", []),
              ("node:d:transform", [])] }

/-! # Theorems -/

theorem mem_akeys_cons {α : Type} (k k1 : String) (v1 : α)
    (t : List (String × α)) :
    k ∈ akeys ((k1, v1) :: t) ↔ k1 = k ∨ k ∈ akeys t := by
  simp [akeys, eq_comm]

theorem alookup_eq_none {α : Type} (m : List (String × α)) (k : String) :
    alookup m k = none ↔ k ∉ akeys m := by
  induction m with
  | nil => simp [alookup, akeys]
  | cons h t ih =>
    obtain ⟨k1, v⟩ := h
    rw [mem_akeys_cons]
    by_cases hk : k1 = k <;> simp [alookup, hk, ih]

theorem alookup_isSome {α : Type} (m : List (String × α)) (k : String) :
    (alookup m k).isSome ↔ k ∈ akeys m := by
  rw [Option.isSome_iff_ne_none, ne_eq, alookup_eq_none, not_not]

theorem alookup_mem {α : Type} {m : List (String × α)} {k : String} {v : α}
    (h : alookup m k = some v) : (k, v) ∈ m := by
  induction m with
  | nil => simp [alookup] at h
  | cons hd t ih =>
    obtain ⟨k1, v1⟩ := hd
    by_cases hk : k1 = k
    · simp [alookup, hk] at h
      simp [hk, h]
    · simp [alookup, hk] at h
      exact List.mem_cons_of_mem _ (ih h)

theorem mem_alookup_of_nodup {α : Type} {m : List (String × α)}
    {k : String} {v : α} (hnd : (akeys m).Nodup) (h : (k, v) ∈ m) :
    alookup m k = some v := by
  induction m with
  | nil => simp at h
  | cons hd t ih =>
    obtain ⟨k1, v1⟩ := hd
    simp only [akeys, List.map_cons, List.nodup_cons] at hnd
    rcases List.mem_cons.mp h with heq | hmem
    · cases heq
      simp [alookup]
    · have hk : k1 ≠ k := by
        intro hk1
        exact hnd.1 (hk1 ▸ (List.mem_map.mpr ⟨(k, v), hmem, rfl⟩))
      simp [alookup, hk]
      exact ih hnd.2 hmem

theorem akeys_aset_mem {α : Type} (m : List (String × α)) (k : String)
    (v : α) (h : k ∈ akeys m) : akeys (aset m k v) = akeys m := by
  induction m with
  | nil => simp [akeys] at h
  | cons hd t ih =>
    obtain ⟨k1, v1⟩ := hd
    rw [mem_akeys_cons] at h
    by_cases hk : k1 = k
    · simp [aset, hk, akeys]
    · rcases h with h | h
      · exact absurd h hk
      · simp [aset, hk, akeys]
        exact ih h

theorem akeys_aset_not_mem {α : Type} (m : List (String × α)) (k : String)
    (v : α) (h : k ∉ akeys m) : akeys (aset m k v) = akeys m ++ [k] := by
  induction m with
  | nil => simp [aset, akeys]
  | cons hd t ih =>
    obtain ⟨k1, v1⟩ := hd
    rw [mem_akeys_cons] at h
    push_neg at h
    simp [aset, h.1, akeys]
    exact ih h.2

theorem alookup_aset_self {α : Type} (m : List (String × α)) (k : String)
    (v : α) : alookup (aset m k v) k = some v := by
  induction m with
  | nil => simp [aset, alookup]
  | cons hd t ih =>
    obtain ⟨k1, v1⟩ := hd
    by_cases hk : k1 = k <;> simp [aset, hk, alookup, ih]

theorem alookup_aset_ne {α : Type} (m : List (String × α)) (k k2 : String)
    (v : α) (h : k ≠ k2) : alookup (aset m k v) k2 = alookup m k2 := by
  induction m with
  | nil => simp [aset, alookup, h]
  | cons hd t ih =>
    obtain ⟨k1, v1⟩ := hd
    by_cases hk : k1 = k
    · subst hk
      simp [aset, alookup, h]
    · simp [aset, hk, alookup, ih]

theorem akeys_amodify {α : Type} (m : List (String × α)) (k : String)
    (f : α → α) : akeys (amodify m k f) = akeys m := by
  induction m with
  | nil => simp [amodify]
  | cons hd t ih =>
    obtain ⟨k1, v1⟩ := hd
    by_cases hk : k1 = k <;> simp [amodify, hk, akeys] <;>
      simpa [akeys] using ih

theorem alookup_amodify_self {α : Type} (m : List (String × α)) (k : String)
    (f : α → α) : alookup (amodify m k f) k = (alookup m k).map f := by
  induction m with
  | nil => simp [amodify, alookup]
  | cons hd t ih =>
    obtain ⟨k1, v1⟩ := hd
    by_cases hk : k1 = k <;> simp [amodify, hk, alookup, ih]

theorem alookup_amodify_ne {α : Type} (m : List (String × α)) (k k2 : String)
    (f : α → α) (h : k ≠ k2) :
    alookup (amodify m k f) k2 = alookup m k2 := by
  induction m with
  | nil => simp [amodify]
  | cons hd t ih =>
    obtain ⟨k1, v1⟩ := hd
    by_cases hk : k1 = k
    · subst hk
      simp [amodify, alookup, h]
    · simp [amodify, hk, alookup, ih]

theorem aerase_aset_of_not_mem {α : Type} (m : List (String × α))
    (k : String) (v : α) (h : k ∉ akeys m) : aerase (aset m k v) k = m := by
  induction m with
  | nil => simp [aset, aerase]
  | cons hd t ih =>
    obtain ⟨k1, v1⟩ := hd
    rw [mem_akeys_cons] at h
    push_neg at h
    simp [aset, h.1, aerase, ih h.2]

theorem setAdd_subset (l : List String) (x : String) :
    l ⊆ setAdd l x := by
  intro a ha
  unfold setAdd
  split <;> simp [ha]

theorem mem_setAdd_self (l : List String) (x : String) : x ∈ setAdd l x := by
  unfold setAdd
  split <;> simp_all

theorem mem_setAdd_iff (l : List String) (x a : String) :
    a ∈ setAdd l x ↔ a ∈ l ∨ a = x := by
  unfold setAdd
  split <;> rename_i h
  · constructor
    · exact Or.inl
    · rintro (h2 | rfl) <;> assumption
  · simp

theorem setAdd_nodup {l : List String} (h : l.Nodup) (x : String) :
    (setAdd l x).Nodup := by
  unfold setAdd
  split
  · exact h
  · rename_i hx
    simpa [List.nodup_append, h] using hx

theorem splitOnChar_no_sep {sep : Char} {l : List Char} (h : sep ∉ l) :
    splitOnChar sep l = [l] := by
  induction l with
  | nil => rfl
  | cons c cs ih =>
    simp at h
    push_neg at h
    rw [splitOnChar, if_neg (fun hc => h.1 hc.symm), ih h.2]

theorem splitOnChar_append {sep : Char} {l : List Char} (r : List Char)
    (h : sep ∉ l) :
    splitOnChar sep (l ++ sep :: r) = l :: splitOnChar sep r := by
  induction l with
  | nil => simp [splitOnChar]
  | cons c cs ih =>
    simp at h
    push_neg at h
    rw [List.cons_append, splitOnChar, if_neg (fun hc => h.1 hc.symm),
      ih h.2]

theorem data_operationId (d p ph : String) :
    (operationId d p ph).data = d.data ++ ':' :: (p.data ++ ':' :: ph.data) := by
  simp [operationId, String.data_append]

/-- Round trip: operation ids built from colon-free components parse back to
exactly those components. -/
theorem parseOperationId_operationId {d p ph : String}
    (hd : ColonFree d) (hp : ColonFree p) (hph : ColonFree ph) :
    parseOperationId (operationId d p ph) = ⟨some d, some p, some ph⟩ := by
  unfold parseOperationId splitColon
  rw [data_operationId, splitOnChar_append _ hd, splitOnChar_append _ hp,
    splitOnChar_no_sep hph]
  rfl

/-- Every `PhaseId` string is colon-free. -/
theorem colonFree_phase (ph : PhaseId) : ColonFree ph.toString := by
  cases ph <;> decide

/-! ## Generic fold lemmas -/

theorem foldl_preserve_mem {α β : Type} (P : α → Prop) (l : List β)
    (step : α → β → α) (h : ∀ a b, b ∈ l → P a → P (step a b)) :
    ∀ a, P a → P (l.foldl step a) := by
  induction l with
  | nil => exact fun a ha => ha
  | cons hd t ih =>
    intro a ha
    exact ih (fun a2 b hb => h a2 b (List.mem_cons_of_mem _ hb)) _
      (h a hd (List.mem_cons_self _ _) ha)

theorem foldl_trigger {α β : Type} (P Q : α → Prop) (l : List β)
    (step : α → β → α)
    (hP : ∀ a b, b ∈ l → P a → P (step a b))
    (hQ : ∀ a b, b ∈ l → Q a → Q (step a b))
    (x : β) (hx : ∀ a, P a → Q (step a x)) :
    ∀ a, P a → x ∈ l → Q (l.foldl step a) := by
  induction l with
  | nil => intro a _ hmem; simp at hmem
  | cons hd t ih =>
    intro a hPa hmem
    rcases List.mem_cons.mp hmem with rfl | hmem2
    · exact foldl_preserve_mem Q t step
        (fun a2 b hb => hQ a2 b (List.mem_cons_of_mem _ hb)) _
        (hx a hPa)
    · exact ih (fun a2 b hb => hP a2 b (List.mem_cons_of_mem _ hb))
        (fun a2 b hb => hQ a2 b (List.mem_cons_of_mem _ hb)) _
        (hP a hd (List.mem_cons_self _ _) hPa) hmem2

theorem foldl_cases {α β : Type} (P Q : α → Prop) (C : β → Prop)
    (l : List β) (step : α → β → α)
    (hP : ∀ a b, b ∈ l → P a → P (step a b))
    (hUB : ∀ a b, b ∈ l → P a → Q (step a b) → Q a ∨ C b) :
    ∀ a, P a → Q (l.foldl step a) → Q a ∨ ∃ b ∈ l, C b := by
  induction l with
  | nil => exact fun a _ hq => Or.inl hq
  | cons hd t ih =>
    intro a hPa hq
    rcases ih (fun a2 b hb => hP a2 b (List.mem_cons_of_mem _ hb))
        (fun a2 b hb => hUB a2 b (List.mem_cons_of_mem _ hb))
        _ (hP a hd (List.mem_cons_self _ _) hPa) hq with h | ⟨b, hb, hC⟩
    · rcases hUB a hd (List.mem_cons_self _ _) hPa h with h2 | h2
      · exact Or.inl h2
      · exact Or.inr ⟨hd, List.mem_cons_self _ _, h2⟩
    · exact Or.inr ⟨b, List.mem_cons_of_mem _ hb, hC⟩

/-! ## Counting lemmas -/

theorem countP_split {α : Type} (l : List α) (p q r : α → Bool)
    (h : ∀ a ∈ l, p a = (q a || r a))
    (hx : ∀ a ∈ l, ¬(q a = true ∧ r a = true)) :
    l.countP p = l.countP q + l.countP r := by
  induction l with
  | nil => simp
  | cons hd t ih =>
    rw [List.countP_cons, List.countP_cons, List.countP_cons,
      ih (fun a ha => h a (List.mem_cons_of_mem _ ha))
        (fun a ha => hx a (List.mem_cons_of_mem _ ha)),
      h hd (List.mem_cons_self _ _)]
    have := hx hd (List.mem_cons_self _ _)
    cases hq : q hd <;> cases hr : r hd <;> simp [hq, hr] at this ⊢ <;>
      omega

theorem countP_mem_comm {l1 l2 : List String} (h1 : l1.Nodup)
    (h2 : l2.Nodup) :
    l1.countP (fun a => decide (a ∈ l2)) =
      l2.countP (fun a => decide (a ∈ l1)) := by
  rw [List.countP_eq_length_filter, List.countP_eq_length_filter]
  have e1 : (l1.filter (fun a => decide (a ∈ l2))).toFinset =
      l1.toFinset ∩ l2.toFinset := by
    ext a
    simp [List.mem_toFinset, List.mem_filter]
  have e2 : (l2.filter (fun a => decide (a ∈ l1))).toFinset =
      l2.toFinset ∩ l1.toFinset := by
    ext a
    simp [List.mem_toFinset, List.mem_filter]
  rw [← List.toFinset_card_of_nodup (h1.filter _),
    ← List.toFinset_card_of_nodup (h2.filter _), e1, e2,
    Finset.inter_comm]

theorem countP_eq_length_of_all {α : Type} (l : List α) (p : α → Bool)
    (h : ∀ a ∈ l, p a = true) : l.countP p = l.length := by
  induction l with
  | nil => simp
  | cons hd t ih =>
    rw [List.countP_cons, ih (fun a ha => h a (List.mem_cons_of_mem _ ha)),
      h hd (List.mem_cons_self _ _)]
    simp [List.length_cons]

theorem length_filter_lt {α : Type} (l : List α) (p : α → Bool) (x : α)
    (hx : x ∈ l) (hpx : p x = false) : (l.filter p).length < l.length := by
  induction l with
  | nil => simp at hx
  | cons hd t ih =>
    rcases List.mem_cons.mp hx with rfl | hmem
    · rw [List.filter_cons, hpx]
      simp only [List.length_cons]
      exact Nat.lt_succ_of_le (List.length_filter_le _ _)
    · rw [List.filter_cons]
      cases hp : p hd
      · simp only [List.length_cons]
        exact Nat.lt_succ_of_lt (ih hmem)
      · simp only [List.length_cons]
        exact Nat.succ_lt_succ (ih hmem)

theorem foldl_erase_eq_filter (l rem : List String) (h : rem.Nodup) :
    l.foldl (fun r x => r.erase x) rem =
      rem.filter (fun a => decide (a ∉ l)) := by
  induction l generalizing rem with
  | nil =>
    rw [List.foldl_nil]
    exact (List.filter_eq_self.mpr (fun a _ => by simp)).symm
  | cons x t ih =>
    rw [List.foldl_cons, ih _ (h.erase x), h.erase_eq_filter,
      List.filter_filter]
    refine List.filter_congr (fun a _ => ?_)
    by_cases hax : a = x <;> by_cases hat : a ∈ t <;> simp [hax, hat]

/-! ## Wave-computation lemmas -/

theorem dec_fold_lookup (L : List String) :
    ∀ (acc : List (String × Int)) (k : String), L.Nodup →
    alookup
        (L.foldl (fun a d => aset a d (((alookup a d).getD 0) - 1)) acc)
        k =
      if k ∈ L then some (((alookup acc k).getD 0) - 1)
      else alookup acc k := by
  induction L with
  | nil => intro acc k _; simp
  | cons d t ih =>
    intro acc k hL
    rw [List.nodup_cons] at hL
    rw [List.foldl_cons, ih _ _ hL.2]
    by_cases hkd : k = d
    · subst hkd
      rw [if_neg hL.1, if_pos (List.mem_cons_self _ _), alookup_aset_self]
    · rw [alookup_aset_ne _ _ _ _ (fun h => hkd h.symm)]
      by_cases hkt : k ∈ t
      · rw [if_pos hkt, if_pos (List.mem_cons_of_mem _ hkt)]
      · rw [if_neg hkt,
          if_neg (fun h => (List.mem_cons.mp h).elim hkd hkt)]

theorem decrementDependents_lookup (nodes : NodeMap)
    (hdn : ∀ x, (dependentsOf nodes x).Nodup) :
    ∀ (ops : List ExecutionOperation) (inDeg : List (String × Int))
      (k : String) (v : Int), alookup inDeg k = some v →
    alookup (decrementDependents nodes inDeg ops) k =
      some (v -
        (ops.countP
          (fun op => decide (k ∈ dependentsOf nodes op.id)) : Int)) := by
  intro ops
  induction ops with
  | nil => intro inDeg k v hk; simpa [decrementDependents] using hk
  | cons op t ih =>
    intro inDeg k v hk
    unfold decrementDependents at ih ⊢
    rw [List.foldl_cons, List.countP_cons]
    cases hnd : alookup nodes op.id with
    | none =>
      have hdep : dependentsOf nodes op.id = [] := by
        unfold dependentsOf
        rw [hnd]
      rw [ih _ _ _ hk]
      simp [hdep]
    | some node =>
      have hdep : dependentsOf nodes op.id = node.dependents := by
        unfold dependentsOf
        rw [hnd]
      have hstep := dec_fold_lookup node.dependents inDeg k
        (hdep ▸ hdn op.id)
      by_cases hmem : k ∈ node.dependents
      · have hp : decide (k ∈ dependentsOf nodes op.id) = true := by
          rw [hdep]; exact decide_eq_true hmem
        rw [if_pos hmem, hk] at hstep
        simp only [Option.getD_some] at hstep
        rw [ih _ _ _ hstep, hp]
        rw [Option.some.injEq]
        simp only [if_true]
        push_cast
        ring
      · have hp : decide (k ∈ dependentsOf nodes op.id) = false := by
          rw [hdep]; exact decide_eq_false hmem
        rw [if_neg hmem, hk] at hstep
        rw [ih _ _ _ hstep, hp]
        rw [Option.some.injEq]
        simp only [Bool.false_eq_true, if_false]
        push_cast
        ring

theorem collectWave_map_id (nodes : NodeMap) (inDeg : List (String × Int))
    (rem0 : List String) (hinv : InDegInv nodes inDeg rem0)
    (hsub : ∀ id ∈ rem0, id ∈ akeys nodes)
    (hop_id : ∀ id op, opAt nodes id = some op → op.id = id) :
    ∀ (l : List String), (∀ id ∈ l, id ∈ rem0) →
    (collectWave nodes inDeg l).map (fun op => op.id) =
      l.filter (fun id => decide (countDeps nodes rem0 id = 0)) := by
  intro l
  induction l with
  | nil => intro _; rfl
  | cons hd t ih =>
    intro hl
    have hhd : hd ∈ rem0 := hl hd (List.mem_cons_self _ _)
    have hdeg := hinv hd hhd
    have iht := ih (fun id hid2 => hl id (List.mem_cons_of_mem _ hid2))
    by_cases hc : countDeps nodes rem0 hd = 0
    · have hcond : alookup inDeg hd = some 0 := by
        rw [hdeg, hc]
        rfl
      obtain ⟨n, hn⟩ : ∃ n, alookup nodes hd = some n := by
        have := (alookup_isSome nodes hd).mpr (hsub hd hhd)
        cases h2 : alookup nodes hd
        · rw [h2] at this; simp at this
        · exact ⟨_, rfl⟩
      have hid : n.operation.id = hd :=
        hop_id hd n.operation (by unfold opAt; rw [hn]; rfl)
      rw [collectWave, if_pos hcond, hn, List.filter_cons,
        decide_eq_true hc]
      simp only [List.map_cons, hid, if_true]
      rw [iht]
    · have hcond : ¬(alookup inDeg hd = some 0) := by
        rw [hdeg]
        intro h2
        rw [Option.some.injEq] at h2
        exact hc (by exact_mod_cast h2)
      rw [collectWave, if_neg hcond, List.filter_cons, decide_eq_false hc]
      simp only [Bool.false_eq_true, if_false]
      exact iht

theorem collectWave_ops (nodes : NodeMap) (inDeg : List (String × Int))
    (hop_id : ∀ id op, opAt nodes id = some op → op.id = id) :
    ∀ (l : List String), (∀ id ∈ l, id ∈ akeys nodes) →
    ∀ op ∈ collectWave nodes inDeg l,
      ∃ n, alookup nodes op.id = some n ∧ n.operation = op := by
  intro l
  induction l with
  | nil => intro _ op hop; simp [collectWave] at hop
  | cons hd t ih =>
    intro hl op hop
    by_cases hcond : alookup inDeg hd = some 0
    · obtain ⟨n, hn⟩ : ∃ n, alookup nodes hd = some n := by
        have := (alookup_isSome nodes hd).mpr
          (hl hd (List.mem_cons_self _ _))
        cases h2 : alookup nodes hd
        · rw [h2] at this; simp at this
        · exact ⟨_, rfl⟩
      rw [collectWave, if_pos hcond, hn] at hop
      rcases List.mem_cons.mp hop with rfl | hmem
      · have hid : n.operation.id = hd :=
          hop_id hd n.operation (by unfold opAt; rw [hn]; rfl)
        exact ⟨n, by rw [hid, hn], rfl⟩
      · exact ih (fun id hid2 => hl id (List.mem_cons_of_mem _ hid2))
          op hmem
    · rw [collectWave, if_neg hcond] at hop
      exact ih (fun id hid2 => hl id (List.mem_cons_of_mem _ hid2)) op hop

theorem waveIds_cons (w : ExecutionWave) (rest : List ExecutionWave) :
    waveIds (w :: rest) = w.operations.map (fun op => op.id) ++
      waveIds rest := by
  simp [waveIds]

theorem any_id_iff (W : List ExecutionOperation) (id : String) :
    (W.any (fun op => decide (op.id = id))) = true ↔
      id ∈ W.map (fun op => op.id) := by
  rw [List.any_eq_true, List.mem_map]
  constructor
  · rintro ⟨op, hop, hd⟩
    exact ⟨op, hop, of_decide_eq_true hd⟩
  · rintro ⟨op, hop, hd⟩
    exact ⟨op, hop, decide_eq_true hd⟩

theorem waveIdxOf_cons_mem (w : ExecutionWave) (rest : List ExecutionWave)
    (id : String) (h : id ∈ w.operations.map (fun op => op.id)) :
    waveIdxOf (w :: rest) id = 0 := by
  unfold waveIdxOf
  rw [List.findIdx_cons, (any_id_iff _ _).mpr h]
  rfl

theorem waveIdxOf_cons_not_mem (w : ExecutionWave)
    (rest : List ExecutionWave) (id : String)
    (h : id ∉ w.operations.map (fun op => op.id)) :
    waveIdxOf (w :: rest) id = waveIdxOf rest id + 1 := by
  unfold waveIdxOf
  rw [List.findIdx_cons]
  have : (w.operations.any (fun op => decide (op.id = id))) = false := by
    cases hb : w.operations.any (fun op => decide (op.id = id))
    · rfl
    · exact absurd ((any_id_iff _ _).mp hb) h
  rw [this]
  rfl

theorem alookup_map_pair {α β : Type} (m : List (String × α))
    (g : String → α → β) (k : String) :
    alookup (m.map (fun e => (e.1, g e.1 e.2))) k =
      (alookup m k).map (fun v => g k v) := by
  induction m with
  | nil => rfl
  | cons hd t ih =>
    obtain ⟨k1, v1⟩ := hd
    by_cases hk : k1 = k
    · subst hk
      simp [alookup]
    · simp [alookup, hk, ih]

/-- The main invariant argument for `computeWaves`: whenever the loop
returns successfully, the produced waves partition the remaining ids, the
operations are exactly the stored node operations, dependency edges point
to strictly earlier waves, and wave indices count up from the entry
index. -/
theorem wavesLoop_spec (nodes : NodeMap) (hwf : WFNodes nodes) :
    ∀ (fuel : Nat) (inDeg : List (String × Int)) (rem : List String)
      (wi : Nat) (waves : List ExecutionWave),
      rem.length < fuel →
      (∀ id ∈ rem, id ∈ akeys nodes) →
      rem.Nodup →
      InDegInv nodes inDeg rem →
      wavesLoop nodes fuel inDeg rem wi = .ok waves →
      (waveIds waves).Nodup ∧
      (∀ a, a ∈ waveIds waves ↔ a ∈ rem) ∧
      (∀ w ∈ waves, ∀ op ∈ w.operations,
        ∃ n, alookup nodes op.id = some n ∧ n.operation = op) ∧
      (∀ a b, a ∈ rem → b ∈ depsOf nodes a → b ∈ rem →
        waveIdxOf waves b < waveIdxOf waves a) ∧
      (∀ k, k < waves.length → (waves.getD k ⟨0, []⟩).index = wi + k) := by
  intro fuel
  induction fuel with
  | zero =>
    intro inDeg rem wi waves hfuel
    exact absurd hfuel (Nat.not_lt_zero _)
  | succ fuel ih =>
    intro inDeg rem wi waves hfuel hsub hnd hinv hok
    rw [wavesLoop] at hok
    by_cases hempty : rem.isEmpty
    · rw [if_pos hempty] at hok
      have hrem : rem = [] := List.isEmpty_iff.mp hempty
      have hwaves : waves = [] := by
        cases hok
        rfl
      subst hwaves
      subst hrem
      refine ⟨List.nodup_nil, ?_, ?_, ?_, ?_⟩
      · intro a
        simp [waveIds]
      · intro w hw
        simp at hw
      · intro a b ha
        simp at ha
      · intro k hk
        simp at hk
    · rw [if_neg hempty] at hok
      by_cases hWe : (collectWave nodes inDeg rem).isEmpty
      · rw [if_pos hWe] at hok
        cases hok
      · rw [if_neg hWe] at hok
        cases hrec : wavesLoop nodes fuel
            (decrementDependents nodes inDeg (collectWave nodes inDeg rem))
            ((collectWave nodes inDeg rem).foldl
              (fun r op => r.erase op.id) rem)
            (wi + 1) with
        | error e =>
          rw [hrec] at hok
          cases hok
        | ok rest =>
          rw [hrec] at hok
          have hwaves : waves =
              ⟨wi, collectWave nodes inDeg rem⟩ :: rest := by
            cases hok
            rfl
          subst hwaves
          -- abbreviations
          have hWids : (collectWave nodes inDeg rem).map
              (fun op => op.id) =
              rem.filter
                (fun id => decide (countDeps nodes rem id = 0)) :=
            collectWave_map_id nodes inDeg rem hinv hsub hwf.op_id rem
              (fun id h => h)
          have hWsub : ∀ x ∈ (collectWave nodes inDeg rem).map
              (fun op => op.id), x ∈ rem := by
            intro x hx
            rw [hWids] at hx
            exact (List.mem_filter.mp hx).1
          have hWzero : ∀ x ∈ (collectWave nodes inDeg rem).map
              (fun op => op.id), countDeps nodes rem x = 0 := by
            intro x hx
            rw [hWids] at hx
            exact of_decide_eq_true (List.mem_filter.mp hx).2
          have hWids_nodup : ((collectWave nodes inDeg rem).map
              (fun op => op.id)).Nodup := by
            rw [hWids]
            exact hnd.filter _
          have hrem1_eq : (collectWave nodes inDeg rem).foldl
              (fun r op => r.erase op.id) rem =
              rem.filter (fun a => decide
                (a ∉ (collectWave nodes inDeg rem).map
                  (fun op => op.id))) := by
            have hfm : ∀ (W : List ExecutionOperation) (r : List String),
                W.foldl (fun r2 op => r2.erase op.id) r =
                  (W.map (fun op => op.id)).foldl
                    (fun r2 x => r2.erase x) r := by
              intro W
              induction W with
              | nil => intro r; rfl
              | cons hd t ih2 => intro r; rw [List.foldl_cons,
                  List.map_cons, List.foldl_cons, ih2]
            rw [hfm]
            exact foldl_erase_eq_filter _ rem hnd
          have hrem1_sub : ∀ x, x ∈ (collectWave nodes inDeg rem).foldl
              (fun r op => r.erase op.id) rem → x ∈ rem := by
            intro x hx
            rw [hrem1_eq] at hx
            exact (List.mem_filter.mp hx).1
          have hrem1_not_W : ∀ x, x ∈ (collectWave nodes inDeg rem).foldl
              (fun r op => r.erase op.id) rem →
              x ∉ (collectWave nodes inDeg rem).map (fun op => op.id) := by
            intro x hx
            rw [hrem1_eq] at hx
            exact of_decide_eq_true (List.mem_filter.mp hx).2
          have hmem_rem1 : ∀ x, x ∈ rem →
              x ∉ (collectWave nodes inDeg rem).map (fun op => op.id) →
              x ∈ (collectWave nodes inDeg rem).foldl
                (fun r op => r.erase op.id) rem := by
            intro x hx hnx
            rw [hrem1_eq]
            exact List.mem_filter.mpr ⟨hx, decide_eq_true hnx⟩
          have hmem_W : ∀ x, x ∈ rem → countDeps nodes rem x = 0 →
              x ∈ (collectWave nodes inDeg rem).map (fun op => op.id) := by
            intro x hx hc
            rw [hWids]
            exact List.mem_filter.mpr ⟨hx, decide_eq_true hc⟩
          have hrem1_nodup : ((collectWave nodes inDeg rem).foldl
              (fun r op => r.erase op.id) rem).Nodup := by
            rw [hrem1_eq]
            exact hnd.filter _
          have hWne : (collectWave nodes inDeg rem) ≠ [] := by
            intro h
            rw [h] at hWe
            exact hWe rfl
          have hlen : ((collectWave nodes inDeg rem).foldl
              (fun r op => r.erase op.id) rem).length < rem.length := by
            rw [hrem1_eq]
            obtain ⟨op, hop⟩ := List.exists_mem_of_ne_nil _ hWne
            have hx : op.id ∈ (collectWave nodes inDeg rem).map
                (fun o => o.id) := List.mem_map.mpr ⟨op, hop, rfl⟩
            exact length_filter_lt rem _ op.id (hWsub _ hx)
              (decide_eq_false (not_not_intro hx))
          have hinv1 : InDegInv nodes
              (decrementDependents nodes inDeg
                (collectWave nodes inDeg rem))
              ((collectWave nodes inDeg rem).foldl
                (fun r op => r.erase op.id) rem) := by
            intro id hid
            have hidrem : id ∈ rem := hrem1_sub id hid
            have hidkeys : id ∈ akeys nodes := hsub id hidrem
            have hbase := hinv id hidrem
            have hdec := decrementDependents_lookup nodes
              hwf.dependents_nodup (collectWave nodes inDeg rem) inDeg id
              _ hbase
            rw [hdec]
            have hcount1 : (collectWave nodes inDeg rem).countP
                (fun op => decide (id ∈ dependentsOf nodes op.id)) =
                ((collectWave nodes inDeg rem).map
                  (fun op => op.id)).countP
                  (fun w => decide (id ∈ dependentsOf nodes w)) := by
              rw [List.countP_map]
              rfl
            have hcount2 : ((collectWave nodes inDeg rem).map
                (fun op => op.id)).countP
                (fun w => decide (id ∈ dependentsOf nodes w)) =
                ((collectWave nodes inDeg rem).map
                  (fun op => op.id)).countP
                  (fun w => decide (w ∈ depsOf nodes id)) := by
              apply List.countP_congr
              intro w hw
              simp only [decide_eq_true_eq]
              exact (hwf.symm id w hidkeys (hsub w (hWsub w hw))).symm
            have hcount3 : ((collectWave nodes inDeg rem).map
                (fun op => op.id)).countP
                (fun w => decide (w ∈ depsOf nodes id)) =
                (depsOf nodes id).countP
                  (fun w => decide (w ∈ (collectWave nodes inDeg rem).map
                    (fun op => op.id))) :=
              countP_mem_comm hWids_nodup (hwf.deps_nodup id)
            have hsplit : countDeps nodes rem id =
                countDeps nodes
                  ((collectWave nodes inDeg rem).foldl
                    (fun r op => r.erase op.id) rem) id +
                (depsOf nodes id).countP
                  (fun w => decide (w ∈ (collectWave nodes inDeg rem).map
                    (fun op => op.id))) := by
              unfold countDeps
              apply countP_split
              · intro d _
                have hiff : d ∈ rem ↔
                    (d ∈ (collectWave nodes inDeg rem).foldl
                        (fun r op => r.erase op.id) rem ∨
                      d ∈ (collectWave nodes inDeg rem).map
                        (fun op => op.id)) := by
                  constructor
                  · intro hd
                    by_cases hdW : d ∈ (collectWave nodes inDeg rem).map
                        (fun op => op.id)
                    · exact Or.inr hdW
                    · exact Or.inl (hmem_rem1 d hd hdW)
                  · rintro (hd | hd)
                    · exact hrem1_sub d hd
                    · exact hWsub d hd
                by_cases h1 : d ∈ (collectWave nodes inDeg rem).foldl
                    (fun r op => r.erase op.id) rem <;>
                  by_cases h2 : d ∈ (collectWave nodes inDeg rem).map
                    (fun op => op.id) <;>
                  simp [h1, h2, hiff]
              · intro d _
                rintro ⟨hd1, hd2⟩
                exact hrem1_not_W d (of_decide_eq_true hd1)
                  (of_decide_eq_true hd2)
            rw [hcount1, hcount2, hcount3, hsplit]
            rw [Option.some.injEq]
            push_cast
            ring
          have hrest := ih
            (decrementDependents nodes inDeg (collectWave nodes inDeg rem))
            ((collectWave nodes inDeg rem).foldl
              (fun r op => r.erase op.id) rem)
            (wi + 1) rest (by omega)
            (fun id h => hsub id (hrem1_sub id h)) hrem1_nodup hinv1 hrec
          obtain ⟨hr1, hr2, hr3, hr4, hr5⟩ := hrest
          refine ⟨?_, ?_, ?_, ?_, ?_⟩
          · rw [waveIds_cons]
            rw [List.nodup_append]
            refine ⟨hWids_nodup, hr1, ?_⟩
            intro x hx hx2
            have := (hr2 x).mp hx2
            exact hrem1_not_W x this hx
          · intro a
            rw [waveIds_cons, List.mem_append, hr2 a]
            constructor
            · rintro (ha | ha)
              · exact hWsub a ha
              · exact hrem1_sub a ha
            · intro ha
              by_cases hc : countDeps nodes rem a = 0
              · exact Or.inl (hmem_W a ha hc)
              · refine Or.inr (hmem_rem1 a ha ?_)
                intro hmem
                exact hc (hWzero a hmem)
          · intro w hw op hop
            rcases List.mem_cons.mp hw with rfl | hmem
            · exact collectWave_ops nodes inDeg hwf.op_id rem hsub op hop
            · exact hr3 w hmem op hop
          · intro a b ha hedge hb
            have haW : a ∉ (collectWave nodes inDeg rem).map
                (fun op => op.id) := by
              intro hmem
              have hz := hWzero a hmem
              unfold countDeps at hz
              have := List.countP_eq_zero.mp hz b hedge
              exact this (decide_eq_true hb)
            rw [waveIdxOf_cons_not_mem
              ⟨wi, collectWave nodes inDeg rem⟩ rest a haW]
            by_cases hbW : b ∈ (collectWave nodes inDeg rem).map
                (fun op => op.id)
            · rw [waveIdxOf_cons_mem
                ⟨wi, collectWave nodes inDeg rem⟩ rest b hbW]
              exact Nat.succ_pos _
            · rw [waveIdxOf_cons_not_mem
                ⟨wi, collectWave nodes inDeg rem⟩ rest b hbW]
              exact Nat.succ_lt_succ
                (hr4 a b (hmem_rem1 a ha haW) hedge (hmem_rem1 b hb hbW))
          · intro k hk
            cases k with
            | zero => rfl
            | succ k2 =>
              simp only [List.getD_cons_succ]
              rw [hr5 k2 (by simpa using hk)]
              omega

/-- `computeWaves` on a well-formed node map: the wave structure is a
topological layering of the node keys. -/
theorem computeWaves_spec (nodes : NodeMap) (hwf : WFNodes nodes)
    (waves : List ExecutionWave) (hok : computeWaves nodes = .ok waves) :
    (waveIds waves).Nodup ∧
    (∀ a, a ∈ waveIds waves ↔ a ∈ akeys nodes) ∧
    (∀ w ∈ waves, ∀ op ∈ w.operations,
      ∃ n, alookup nodes op.id = some n ∧ n.operation = op) ∧
    (∀ a b, a ∈ akeys nodes → b ∈ depsOf nodes a → b ∈ akeys nodes →
      waveIdxOf waves b < waveIdxOf waves a) ∧
    (∀ k, k < waves.length → (waves.getD k ⟨0, []⟩).index = k) := by
  unfold computeWaves at hok
  have hinv0 : InDegInv nodes
      (nodes.map (fun e => (e.1, (e.2.dependencies.length : Int))))
      (akeys nodes) := by
    intro id hid
    obtain ⟨n, hn⟩ : ∃ n, alookup nodes id = some n := by
      have := (alookup_isSome nodes id).mpr hid
      cases h2 : alookup nodes id
      · rw [h2] at this; simp at this
      · exact ⟨_, rfl⟩
    have hc : countDeps nodes (akeys nodes) id = n.dependencies.length := by
      unfold countDeps depsOf
      rw [hn]
      exact countP_eq_length_of_all _ _
        (fun d hd => decide_eq_true (hwf.deps_sub id (by
          unfold depsOf
          rw [hn]
          exact hd)))
    rw [alookup_map_pair nodes
      (fun _ v => ((v.dependencies.length : Int))) id, hn, hc]
    rfl
  have hmain := wavesLoop_spec nodes hwf ((akeys nodes).length + 1)
    (nodes.map (fun e => (e.1, (e.2.dependencies.length : Int))))
    (akeys nodes) 0 waves (Nat.lt_succ_self _) (fun id h => h)
    hwf.keys_nodup hinv0 hok
  obtain ⟨h1, h2, h3, h4, h5⟩ := hmain
  exact ⟨h1, h2, h3, h4, fun k hk => by rw [h5 k hk]; omega⟩

/-- Unfolding of a successful `buildExecutionGraph`. -/
theorem buildExecutionGraph_ok (plugins : List ResolvedPluginInfo)
    (options : GraphBuildOptions) (g : ExecutionGraph)
    (hok : buildExecutionGraph plugins options = .ok g) :
    computeWaves (builtNodes plugins options) = .ok g.waves ∧
    g.edges = (builtNodes plugins options).map
      (fun e => (e.1, e.2.dependencies)) ∧
    g.hasCycles = false ∧
    g.totalOperations = (builtNodes plugins options).length := by
  unfold buildExecutionGraph at hok
  by_cases hdc : detectCycles (builtNodes plugins options) = true
  · rw [if_pos hdc] at hok
    cases hok
  · rw [if_neg hdc] at hok
    cases hcw : computeWaves (builtNodes plugins options) with
    | error e =>
      rw [hcw] at hok
      cases hok
    | ok waves =>
      rw [hcw] at hok
      cases hok
      exact ⟨rfl, rfl, rfl, rfl⟩

/-! ## Edge-insertion lemmas -/

theorem amodify_not_mem {α : Type} (m : List (String × α)) (k : String)
    (f : α → α) (h : k ∉ akeys m) : amodify m k f = m := by
  induction m with
  | nil => rfl
  | cons hd t ih =>
    obtain ⟨k1, v1⟩ := hd
    rw [mem_akeys_cons] at h
    push_neg at h
    simp [amodify, h.1, ih h.2]

theorem akeys_addEdge (m : NodeMap) (a b : String) :
    akeys (addEdge m a b) = akeys m := by
  unfold addEdge
  rw [akeys_amodify, akeys_amodify]

theorem opAt_amodify (m : NodeMap) (k : String) (f : GraphNode → GraphNode)
    (x : String) (hf : ∀ n, (f n).operation = n.operation) :
    opAt (amodify m k f) x = opAt m x := by
  unfold opAt
  by_cases hk : k = x
  · subst hk
    rw [alookup_amodify_self]
    cases h2 : alookup m k <;> simp [hf]
  · rw [alookup_amodify_ne _ _ _ _ hk]

theorem opAt_addEdge (m : NodeMap) (a b x : String) :
    opAt (addEdge m a b) x = opAt m x := by
  unfold addEdge
  rw [opAt_amodify _ b
      (fun n => { n with dependents := setAdd n.dependents a }) x
      (fun n => rfl),
    opAt_amodify m a
      (fun n => { n with dependencies := setAdd n.dependencies b }) x
      (fun n => rfl)]

theorem depsOf_addEdge_self (m : NodeMap) (a b : String)
    (ha : a ∈ akeys m) :
    depsOf (addEdge m a b) a = setAdd (depsOf m a) b := by
  obtain ⟨n, hn⟩ : ∃ n, alookup m a = some n := by
    have := (alookup_isSome m a).mpr ha
    cases h2 : alookup m a
    · rw [h2] at this; simp at this
    · exact ⟨_, rfl⟩
  unfold depsOf addEdge
  by_cases hba : b = a
  · subst hba
    rw [alookup_amodify_self, alookup_amodify_self, hn]
    rfl
  · rw [alookup_amodify_ne _ _ _ _ hba, alookup_amodify_self, hn]
    rfl

theorem depsOf_addEdge_ne (m : NodeMap) (a b x : String) (hx : x ≠ a) :
    depsOf (addEdge m a b) x = depsOf m x := by
  unfold depsOf addEdge
  by_cases hbx : b = x
  · subst hbx
    rw [alookup_amodify_self, alookup_amodify_ne _ _ _ _
      (fun h => hx h.symm)]
    cases h3 : alookup m b <;> rfl
  · rw [alookup_amodify_ne _ _ _ _ hbx, alookup_amodify_ne _ _ _ _
      (fun h => hx h.symm)]

theorem dependentsOf_addEdge_self (m : NodeMap) (a b : String)
    (hb : b ∈ akeys m) :
    dependentsOf (addEdge m a b) b = setAdd (dependentsOf m b) a := by
  obtain ⟨n, hn⟩ : ∃ n, alookup m b = some n := by
    have := (alookup_isSome m b).mpr hb
    cases h2 : alookup m b
    · rw [h2] at this; simp at this
    · exact ⟨_, rfl⟩
  unfold dependentsOf addEdge
  rw [alookup_amodify_self]
  by_cases hab : a = b
  · subst hab
    rw [alookup_amodify_self, hn]
    rfl
  · rw [alookup_amodify_ne _ _ _ _ hab, hn]
    rfl

theorem dependentsOf_addEdge_ne (m : NodeMap) (a b x : String)
    (hx : x ≠ b) :
    dependentsOf (addEdge m a b) x = dependentsOf m x := by
  unfold dependentsOf addEdge
  rw [alookup_amodify_ne _ _ _ _ (fun h => hx h.symm)]
  by_cases hax : a = x
  · subst hax
    rw [alookup_amodify_self]
    cases h3 : alookup m a <;> rfl
  · rw [alookup_amodify_ne _ _ _ _ hax]

theorem depsOf_addEdge_mono (m : NodeMap) (a b x x2 : String)
    (h : x2 ∈ depsOf m x) : x2 ∈ depsOf (addEdge m a b) x := by
  by_cases hxa : x = a
  · subst hxa
    by_cases hmem : x ∈ akeys m
    · rw [depsOf_addEdge_self m x b hmem]
      exact setAdd_subset _ _ h
    · have : depsOf m x = [] := by
        unfold depsOf
        rw [(alookup_eq_none m x).mpr hmem]
      rw [this] at h
      simp at h
  · rw [depsOf_addEdge_ne m a b x hxa]
    exact h

theorem depsOf_addEdge_UB (m : NodeMap) (a b x x2 : String)
    (h : x2 ∈ depsOf (addEdge m a b) x) :
    x2 ∈ depsOf m x ∨ (x = a ∧ x2 = b) := by
  by_cases hxa : x = a
  · subst hxa
    by_cases hmem : x ∈ akeys m
    · rw [depsOf_addEdge_self m x b hmem] at h
      rcases (mem_setAdd_iff _ _ _).mp h with h2 | h2
      · exact Or.inl h2
      · exact Or.inr ⟨rfl, h2⟩
    · have he : addEdge m x b = amodify m b
          (fun n => { n with dependents := setAdd n.dependents x }) := by
        unfold addEdge
        rw [amodify_not_mem m x _ hmem]
      rw [he] at h
      unfold depsOf at h
      by_cases hbx : b = x
      · subst hbx
        rw [alookup_amodify_self] at h
        rw [(alookup_eq_none m b).mpr hmem] at h
        simp at h
      · rw [alookup_amodify_ne _ _ _ _ hbx] at h
        rw [(alookup_eq_none m _).mpr hmem] at h
        simp at h
  · rw [depsOf_addEdge_ne m a b x hxa] at h
    exact Or.inl h

theorem createNodes_lookup (plugins : List ResolvedPluginInfo)
    (options : GraphBuildOptions) :
    ∀ id n, alookup (createNodes plugins options) id = some n →
      NodeFromPlugins plugins options id n := by
  unfold createNodes
  have hstep : ∀ (info : ResolvedPluginInfo), info ∈ plugins →
      ∀ (m : NodeMap),
      (∀ id n, alookup m id = some n → NodeFromPlugins plugins options id n) →
      ∀ id n, alookup ((getPluginPhases info.plugin).foldl
          (fun m2 phase =>
            if (phasesToInclude options).contains phase then
              aset m2 (operationId info.distribution info.plugin.metadata.id
                phase.toString)
                { operation :=
                    { id := operationId info.distribution
                        info.plugin.metadata.id phase.toString,
                      plugin := info.plugin, phase := phase,
                      distribution := info.distribution,
                      config := info.config },
                  dependencies := [], dependents := [], processed := false }
            else m2) m) id = some n →
        NodeFromPlugins plugins options id n := by
    intro info hinfo m hm
    refine foldl_preserve_mem
      (fun m2 => ∀ id n, alookup m2 id = some n →
        NodeFromPlugins plugins options id n)
      (getPluginPhases info.plugin) _ ?_ m hm
    intro m2 phase hphase hm2 id n hlook
    by_cases hinc : (phasesToInclude options).contains phase = true
    · rw [if_pos hinc] at hlook
      by_cases hid : operationId info.distribution info.plugin.metadata.id
          phase.toString = id
      · subst hid
        rw [alookup_aset_self] at hlook
        cases hlook
        exact ⟨rfl, rfl, info, hinfo, phase, hphase, hinc, rfl, rfl⟩
      · rw [alookup_aset_ne _ _ _ _ hid] at hlook
        exact hm2 id n hlook
    · rw [if_neg hinc] at hlook
      exact hm2 id n hlook
  refine foldl_preserve_mem
    (fun m2 => ∀ id n, alookup m2 id = some n →
      NodeFromPlugins plugins options id n) plugins _ ?_ []
    (fun id n h => by simp [alookup] at h)
  intro m info hinfo hm
  exact hstep info hinfo m hm

theorem akeys_aset_nodup {α : Type} (m : List (String × α)) (k : String)
    (v : α) (h : (akeys m).Nodup) : (akeys (aset m k v)).Nodup := by
  by_cases hk : k ∈ akeys m
  · rw [akeys_aset_mem _ _ _ hk]
    exact h
  · rw [akeys_aset_not_mem _ _ _ hk]
    simpa [List.nodup_append, h] using hk

theorem createNodes_keys_nodup (plugins : List ResolvedPluginInfo)
    (options : GraphBuildOptions) :
    (akeys (createNodes plugins options)).Nodup := by
  unfold createNodes
  refine foldl_preserve_mem (fun m2 => (akeys m2).Nodup) plugins _ ?_ []
    List.nodup_nil
  intro m info _ hm
  refine foldl_preserve_mem (fun m2 => (akeys m2).Nodup)
    (getPluginPhases info.plugin) _ ?_ m hm
  intro m2 phase _ hm2
  by_cases hinc : (phasesToInclude options).contains phase = true
  · rw [if_pos hinc]
    exact akeys_aset_nodup _ _ _ hm2
  · rw [if_neg hinc]
    exact hm2

theorem mem_akeys_aset_of_mem {α : Type} (m : List (String × α))
    (k k2 : String) (v : α) (h : k ∈ akeys m) :
    k ∈ akeys (aset m k2 v) := by
  by_cases hk : k2 ∈ akeys m
  · rw [akeys_aset_mem _ _ _ hk]
    exact h
  · rw [akeys_aset_not_mem _ _ _ hk]
    exact List.mem_append_left _ h

theorem createNodes_key_mem (plugins : List ResolvedPluginInfo)
    (options : GraphBuildOptions) (info : ResolvedPluginInfo)
    (phase : PhaseId) (hinfo : info ∈ plugins)
    (hph : phase ∈ getPluginPhases info.plugin)
    (hinc : (phasesToInclude options).contains phase = true) :
    operationId info.distribution info.plugin.metadata.id phase.toString ∈
      akeys (createNodes plugins options) := by
  unfold createNodes
  refine foldl_trigger (fun _ => True)
    (fun m2 => operationId info.distribution info.plugin.metadata.id
      phase.toString ∈ akeys m2) plugins _ (fun _ _ _ _ => trivial)
    ?_ info ?_ [] trivial hinfo
  · intro m info2 _ hmem
    refine foldl_preserve_mem
      (fun m2 => operationId info.distribution info.plugin.metadata.id
        phase.toString ∈ akeys m2)
      (getPluginPhases info2.plugin) _ ?_ m hmem
    intro m2 phase2 _ hmem2
    by_cases hinc2 : (phasesToInclude options).contains phase2 = true
    · rw [if_pos hinc2]
      exact mem_akeys_aset_of_mem _ _ _ _ hmem2
    · rw [if_neg hinc2]
      exact hmem2
  · intro m _
    refine foldl_trigger (fun _ => True)
      (fun m2 => operationId info.distribution info.plugin.metadata.id
        phase.toString ∈ akeys m2) (getPluginPhases info.plugin) _
      (fun _ _ _ _ => trivial) ?_ phase ?_ m trivial hph
    · intro m2 phase2 _ hmem2
      by_cases hinc2 : (phasesToInclude options).contains phase2 = true
      · rw [if_pos hinc2]
        exact mem_akeys_aset_of_mem _ _ _ _ hmem2
      · rw [if_neg hinc2]
        exact hmem2
    · intro m2 _
      rw [if_pos hinc]
      have := alookup_aset_self m2
        (operationId info.distribution info.plugin.metadata.id
          phase.toString)
        { operation :=
            { id := operationId info.distribution info.plugin.metadata.id
                phase.toString,
              plugin := info.plugin, phase := phase,
              distribution := info.distribution, config := info.config },
          dependencies := [], dependents := [], processed := false }
      exact (alookup_isSome _ _).mp (by rw [this]; rfl)

theorem createNodes_depsOf_nil (plugins : List ResolvedPluginInfo)
    (options : GraphBuildOptions) (x : String) :
    depsOf (createNodes plugins options) x = [] := by
  unfold depsOf
  cases hl : alookup (createNodes plugins options) x with
  | none => rfl
  | some n => exact (createNodes_lookup plugins options x n hl).1

theorem createNodes_dependentsOf_nil (plugins : List ResolvedPluginInfo)
    (options : GraphBuildOptions) (x : String) :
    dependentsOf (createNodes plugins options) x = [] := by
  unfold dependentsOf
  cases hl : alookup (createNodes plugins options) x with
  | none => rfl
  | some n => exact (createNodes_lookup plugins options x n hl).2.1

theorem addEdge_preserves (m0 m : NodeMap) (a b : String)
    (h : EdgesWF m0 m) (ha : a ∈ akeys m0) (hb : b ∈ akeys m0) :
    EdgesWF m0 (addEdge m a b) := by
  obtain ⟨⟨hkeys, hops⟩, hsub, hdn, hpn, hsym⟩ := h
  have ham : a ∈ akeys m := by rw [hkeys]; exact ha
  have hbm : b ∈ akeys m := by rw [hkeys]; exact hb
  refine ⟨⟨by rw [akeys_addEdge]; exact hkeys,
    fun x => by rw [opAt_addEdge]; exact hops x⟩, ?_, ?_, ?_, ?_⟩
  · intro x
    by_cases hxa : x = a
    · subst hxa
      rw [depsOf_addEdge_self m x b ham]
      intro d hd
      rcases (mem_setAdd_iff _ _ _).mp hd with h2 | h2
      · exact hsub x h2
      · subst h2
        exact hb
    · rw [depsOf_addEdge_ne m a b x hxa]
      exact hsub x
  · intro x
    by_cases hxa : x = a
    · subst hxa
      rw [depsOf_addEdge_self m x b ham]
      exact setAdd_nodup (hdn x) b
    · rw [depsOf_addEdge_ne m a b x hxa]
      exact hdn x
  · intro x
    by_cases hxb : x = b
    · subst hxb
      rw [dependentsOf_addEdge_self m a x hbm]
      exact setAdd_nodup (hpn x) a
    · rw [dependentsOf_addEdge_ne m a b x hxb]
      exact hpn x
  · intro x y hx hy
    by_cases hxa : x = a <;> by_cases hyb : y = b
    · subst hxa
      subst hyb
      rw [depsOf_addEdge_self m x y ham,
        dependentsOf_addEdge_self m x y hbm]
      constructor
      · intro _
        exact mem_setAdd_self _ _
      · intro _
        exact mem_setAdd_self _ _
    · subst hxa
      rw [depsOf_addEdge_self m x b ham,
        dependentsOf_addEdge_ne m x b y hyb]
      rw [mem_setAdd_iff]
      constructor
      · rintro (h2 | h2)
        · exact (hsym x y hx hy).mp h2
        · exact absurd h2 hyb
      · intro h2
        exact Or.inl ((hsym x y hx hy).mpr h2)
    · subst hyb
      rw [depsOf_addEdge_ne m a y x hxa,
        dependentsOf_addEdge_self m a y hbm]
      rw [mem_setAdd_iff]
      constructor
      · intro h2
        exact Or.inl ((hsym x y hx hy).mp h2)
      · rintro (h2 | h2)
        · exact (hsym x y hx hy).mpr h2
        · exact absurd h2 hxa
    · rw [depsOf_addEdge_ne m a b x hxa,
        dependentsOf_addEdge_ne m a b y hyb]
      exact hsym x y hx hy

theorem addPhaseOrderEdges_preserves (m0 m : NodeMap) (id : String)
    (parsed : ParsedOperationId) (hid : id ∈ akeys m0)
    (h : EdgesWF m0 m) : EdgesWF m0 (addPhaseOrderEdges m id parsed) := by
  unfold addPhaseOrderEdges
  by_cases h1 : isBuildPhaseStr parsed.phase = true
  · rw [if_pos h1]
    by_cases h2 : 0 < jsIndexOf phaseOrderStrs parsed.phase
    · rw [if_pos h2]
      refine foldl_preserve_mem (EdgesWF m0) (akeys m) _ ?_ m h
      intro acc x hx hacc
      show EdgesWF m0
        (if (parseOperationId x).distribution = parsed.distribution ∧
            (parseOperationId x).phase = some (phaseOrderStrs.getD
              ((jsIndexOf phaseOrderStrs parsed.phase) - 1).toNat "") then
          addEdge acc id x
        else acc)
      by_cases hc : (parseOperationId x).distribution =
          parsed.distribution ∧
          (parseOperationId x).phase = some (phaseOrderStrs.getD
            ((jsIndexOf phaseOrderStrs parsed.phase) - 1).toNat "")
      · rw [if_pos hc]
        refine addEdge_preserves m0 acc id x hacc hid ?_
        rw [← h.1.1]
        exact hx
      · rw [if_neg hc]
        exact hacc
    · rw [if_neg h2]
      exact h
  · rw [if_neg h1]
    exact h

theorem addReleaseEdges_preserves (m0 m : NodeMap) (id : String)
    (parsed : ParsedOperationId) (hid : id ∈ akeys m0)
    (h : EdgesWF m0 m) : EdgesWF m0 (addReleaseEdges m id parsed) := by
  unfold addReleaseEdges
  by_cases h1 : parsed.phase = some "release"
  · rw [if_pos h1]
    refine foldl_preserve_mem (EdgesWF m0) (akeys m) _ ?_ m h
    intro acc x hx hacc
    show EdgesWF m0
      (if (parseOperationId x).distribution = parsed.distribution ∧
          isBuildPhaseStr (parseOperationId x).phase = true then
        addEdge acc id x
      else acc)
    by_cases hc : (parseOperationId x).distribution = parsed.distribution ∧
        isBuildPhaseStr (parseOperationId x).phase = true
    · rw [if_pos hc]
      refine addEdge_preserves m0 acc id x hacc hid ?_
      rw [← h.1.1]
      exact hx
    · rw [if_neg hc]
      exact hacc
  · rw [if_neg h1]
    exact h

theorem addDeclaredEdges_preserves (m0 m : NodeMap) (id : String)
    (parsed : ParsedOperationId) (node : GraphNode)
    (hid : id ∈ akeys m0) (h : EdgesWF m0 m) :
    EdgesWF m0 (addDeclaredEdges m id parsed node) := by
  unfold addDeclaredEdges
  cases hdeps : node.operation.plugin.metadata.dependencies with
  | none => exact h
  | some deps =>
    refine foldl_preserve_mem (EdgesWF m0) deps _ ?_ m h
    intro acc dp _ hacc
    show EdgesWF m0
      (if (alookup acc (operationId (optStr parsed.distribution) dp
          (optStr parsed.phase))).isSome = true then
        addEdge acc id (operationId (optStr parsed.distribution) dp
          (optStr parsed.phase))
      else acc)
    by_cases hg : (alookup acc (operationId (optStr parsed.distribution)
        dp (optStr parsed.phase))).isSome = true
    · rw [if_pos hg]
      refine addEdge_preserves m0 acc id _ hacc hid ?_
      rw [← hacc.1.1]
      exact (alookup_isSome _ _).mp hg
    · rw [if_neg hg]
      exact hacc

theorem addSequentialEdges_preserves (plugins : List ResolvedPluginInfo)
    (m0 m : NodeMap) (id : String) (parsed : ParsedOperationId)
    (node : GraphNode) (hid : id ∈ akeys m0) (h : EdgesWF m0 m) :
    EdgesWF m0 (addSequentialEdges plugins m id parsed node) := by
  unfold addSequentialEdges
  by_cases hpar : node.operation.plugin.metadata.canParallelize = true
  · rw [if_pos hpar]
    exact h
  · rw [if_neg hpar]
    cases hfi : (samePhasePluginsOf plugins parsed).findIdx?
        (fun p => some p.plugin.metadata.id = parsed.pluginId) with
    | none => exact h
    | some j =>
      cases j with
      | zero => exact h
      | succ myIndex =>
        show EdgesWF m0
          (match (samePhasePluginsOf plugins parsed).get? myIndex with
          | none => m
          | some prevPlugin =>
            if prevPlugin.plugin.metadata.canParallelize = true then m
            else
              if (alookup m (operationId (optStr parsed.distribution)
                  prevPlugin.plugin.metadata.id
                  (optStr parsed.phase))).isSome = true then
                addEdge m id (operationId (optStr parsed.distribution)
                  prevPlugin.plugin.metadata.id (optStr parsed.phase))
              else m)
        cases hget : (samePhasePluginsOf plugins parsed).get? myIndex with
        | none => exact h
        | some prevPlugin =>
          show EdgesWF m0
            (if prevPlugin.plugin.metadata.canParallelize = true then m
            else
              if (alookup m (operationId (optStr parsed.distribution)
                  prevPlugin.plugin.metadata.id
                  (optStr parsed.phase))).isSome = true then
                addEdge m id (operationId (optStr parsed.distribution)
                  prevPlugin.plugin.metadata.id (optStr parsed.phase))
              else m)
          by_cases hpp : prevPlugin.plugin.metadata.canParallelize = true
          · rw [if_pos hpp]
            exact h
          · rw [if_neg hpp]
            by_cases hg : (alookup m (operationId
                (optStr parsed.distribution) prevPlugin.plugin.metadata.id
                (optStr parsed.phase))).isSome = true
            · rw [if_pos hg]
              refine addEdge_preserves m0 m id _ h hid ?_
              rw [← h.1.1]
              exact (alookup_isSome _ _).mp hg
            · rw [if_neg hg]
              exact h

theorem processNode_preserves (plugins : List ResolvedPluginInfo)
    (m0 : NodeMap) (m : NodeMap) (id : String) (h : EdgesWF m0 m) :
    EdgesWF m0 (processNode plugins m id) := by
  unfold processNode
  cases hl : alookup m id with
  | none => exact h
  | some node =>
    have hid : id ∈ akeys m0 := by
      rw [← h.1.1]
      exact (alookup_isSome m id).mp (by rw [hl]; rfl)
    refine addSequentialEdges_preserves plugins m0 _ id _ node hid ?_
    refine addDeclaredEdges_preserves m0 _ id _ node hid ?_
    refine addReleaseEdges_preserves m0 _ id _ hid ?_
    exact addPhaseOrderEdges_preserves m0 m id _ hid h

theorem builtNodes_EdgesWF (plugins : List ResolvedPluginInfo)
    (options : GraphBuildOptions) :
    EdgesWF (createNodes plugins options) (builtNodes plugins options) := by
  unfold builtNodes addAllEdges
  refine foldl_preserve_mem (EdgesWF (createNodes plugins options))
    (akeys (createNodes plugins options)) _ ?_ _ ?_
  · intro m id _ h
    exact processNode_preserves plugins _ m id h
  · refine ⟨⟨rfl, fun x => rfl⟩, ?_, ?_, ?_, ?_⟩
    · intro x
      rw [createNodes_depsOf_nil]
      exact fun d hd => absurd hd (List.not_mem_nil d)
    · intro x
      rw [createNodes_depsOf_nil]
      exact List.nodup_nil
    · intro x
      rw [createNodes_dependentsOf_nil]
      exact List.nodup_nil
    · intro a b _ _
      rw [createNodes_depsOf_nil, createNodes_dependentsOf_nil]
      simp

theorem builtNodes_WF (plugins : List ResolvedPluginInfo)
    (options : GraphBuildOptions) : WFNodes (builtNodes plugins options) := by
  obtain ⟨⟨hkeys, hops⟩, hsub, hdn, hpn, hsym⟩ :=
    builtNodes_EdgesWF plugins options
  refine ⟨?_, ?_, ?_, hdn, hpn, ?_⟩
  · rw [hkeys]
    exact createNodes_keys_nodup plugins options
  · intro id op hop
    rw [hops id] at hop
    unfold opAt at hop
    cases hl : alookup (createNodes plugins options) id with
    | none =>
      rw [hl] at hop
      cases hop
    | some n =>
      rw [hl] at hop
      have hop2 : n.operation = op := by simpa using hop
      obtain ⟨_, _, info, _, phase, _, _, hideq, hopeq⟩ :=
        createNodes_lookup plugins options id n hl
      rw [← hop2, hopeq]
  · intro id
    rw [hkeys]
    exact hsub id
  · intro a b ha hb
    rw [hkeys] at ha hb
    exact hsym a b ha hb

theorem map_fst_pair {α β : Type} (l : List (String × α))
    (f : String × α → β) :
    (l.map (fun e => (e.1, f e))).map Prod.fst = akeys l := by
  rw [List.map_map]
  rfl

theorem depEdge_mem_keys {nodes : NodeMap} {a b : String}
    (h : depEdge nodes a b) : a ∈ akeys nodes := by
  unfold depEdge depsOf at h
  cases hl : alookup nodes a with
  | none =>
    rw [hl] at h
    simp at h
  | some n => exact (alookup_isSome nodes a).mp (by rw [hl]; rfl)

theorem depEdge_depsOf {nodes : NodeMap} {a b : String}
    (h : depEdge nodes a b) : b ∈ depsOf nodes a := h

/-! ## Edge lower bounds: monotonicity and rule triggers -/

theorem addPhaseOrderEdges_mono (m : NodeMap) (id : String)
    (parsed : ParsedOperationId) (x x2 : String)
    (h : x2 ∈ depsOf m x) :
    x2 ∈ depsOf (addPhaseOrderEdges m id parsed) x := by
  unfold addPhaseOrderEdges
  by_cases h1 : isBuildPhaseStr parsed.phase = true
  · rw [if_pos h1]
    by_cases h2 : 0 < jsIndexOf phaseOrderStrs parsed.phase
    · rw [if_pos h2]
      refine foldl_preserve_mem (fun mm => x2 ∈ depsOf mm x)
        (akeys m) _ ?_ m h
      intro acc c _ hacc
      show x2 ∈ depsOf
        (if (parseOperationId c).distribution = parsed.distribution ∧
            (parseOperationId c).phase = some (phaseOrderStrs.getD
              ((jsIndexOf phaseOrderStrs parsed.phase) - 1).toNat "") then
          addEdge acc id c
        else acc) x
      by_cases hc : (parseOperationId c).distribution =
          parsed.distribution ∧
          (parseOperationId c).phase = some (phaseOrderStrs.getD
            ((jsIndexOf phaseOrderStrs parsed.phase) - 1).toNat "")
      · rw [if_pos hc]
        exact depsOf_addEdge_mono _ _ _ _ _ hacc
      · rw [if_neg hc]
        exact hacc
    · rw [if_neg h2]
      exact h
  · rw [if_neg h1]
    exact h

theorem addReleaseEdges_mono (m : NodeMap) (id : String)
    (parsed : ParsedOperationId) (x x2 : String)
    (h : x2 ∈ depsOf m x) :
    x2 ∈ depsOf (addReleaseEdges m id parsed) x := by
  unfold addReleaseEdges
  by_cases h1 : parsed.phase = some "release"
  · rw [if_pos h1]
    refine foldl_preserve_mem (fun mm => x2 ∈ depsOf mm x)
      (akeys m) _ ?_ m h
    intro acc c _ hacc
    show x2 ∈ depsOf
      (if (parseOperationId c).distribution = parsed.distribution ∧
          isBuildPhaseStr (parseOperationId c).phase = true then
        addEdge acc id c
      else acc) x
    by_cases hc : (parseOperationId c).distribution = parsed.distribution ∧
        isBuildPhaseStr (parseOperationId c).phase = true
    · rw [if_pos hc]
      exact depsOf_addEdge_mono _ _ _ _ _ hacc
    · rw [if_neg hc]
      exact hacc
  · rw [if_neg h1]
    exact h

theorem addDeclaredEdges_mono (m : NodeMap) (id : String)
    (parsed : ParsedOperationId) (node : GraphNode) (x x2 : String)
    (h : x2 ∈ depsOf m x) :
    x2 ∈ depsOf (addDeclaredEdges m id parsed node) x := by
  unfold addDeclaredEdges
  cases hdeps : node.operation.plugin.metadata.dependencies with
  | none => exact h
  | some deps =>
    refine foldl_preserve_mem (fun mm => x2 ∈ depsOf mm x) deps _ ?_ m h
    intro acc dp _ hacc
    show x2 ∈ depsOf
      (if (alookup acc (operationId (optStr parsed.distribution) dp
          (optStr parsed.phase))).isSome = true then
        addEdge acc id (operationId (optStr parsed.distribution) dp
          (optStr parsed.phase))
      else acc) x
    by_cases hg : (alookup acc (operationId (optStr parsed.distribution)
        dp (optStr parsed.phase))).isSome = true
    · rw [if_pos hg]
      exact depsOf_addEdge_mono _ _ _ _ _ hacc
    · rw [if_neg hg]
      exact hacc

theorem addSequentialEdges_mono (plugins : List ResolvedPluginInfo)
    (m : NodeMap) (id : String) (parsed : ParsedOperationId)
    (node : GraphNode) (x x2 : String) (h : x2 ∈ depsOf m x) :
    x2 ∈ depsOf (addSequentialEdges plugins m id parsed node) x := by
  unfold addSequentialEdges
  by_cases hpar : node.operation.plugin.metadata.canParallelize = true
  · rw [if_pos hpar]
    exact h
  · rw [if_neg hpar]
    cases hfi : (samePhasePluginsOf plugins parsed).findIdx?
        (fun p => some p.plugin.metadata.id = parsed.pluginId) with
    | none => exact h
    | some j =>
      cases j with
      | zero => exact h
      | succ myIndex =>
        show x2 ∈ depsOf
          (match (samePhasePluginsOf plugins parsed).get? myIndex with
          | none => m
          | some prevPlugin =>
            if prevPlugin.plugin.metadata.canParallelize = true then m
            else
              if (alookup m (operationId (optStr parsed.distribution)
                  prevPlugin.plugin.metadata.id
                  (optStr parsed.phase))).isSome = true then
                addEdge m id (operationId (optStr parsed.distribution)
                  prevPlugin.plugin.metadata.id (optStr parsed.phase))
              else m) x
        cases hget : (samePhasePluginsOf plugins parsed).get? myIndex with
        | none => exact h
        | some prevPlugin =>
          show x2 ∈ depsOf
            (if prevPlugin.plugin.metadata.canParallelize = true then m
            else
              if (alookup m (operationId (optStr parsed.distribution)
                  prevPlugin.plugin.metadata.id
                  (optStr parsed.phase))).isSome = true then
                addEdge m id (operationId (optStr parsed.distribution)
                  prevPlugin.plugin.metadata.id (optStr parsed.phase))
              else m) x
          by_cases hpp : prevPlugin.plugin.metadata.canParallelize = true
          · rw [if_pos hpp]
            exact h
          · rw [if_neg hpp]
            by_cases hg : (alookup m (operationId
                (optStr parsed.distribution) prevPlugin.plugin.metadata.id
                (optStr parsed.phase))).isSome = true
            · rw [if_pos hg]
              exact depsOf_addEdge_mono _ _ _ _ _ h
            · rw [if_neg hg]
              exact h

theorem processNode_mono (plugins : List ResolvedPluginInfo) (m : NodeMap)
    (c x x2 : String) (h : x2 ∈ depsOf m x) :
    x2 ∈ depsOf (processNode plugins m c) x := by
  unfold processNode
  cases hl : alookup m c with
  | none => exact h
  | some node =>
    exact addSequentialEdges_mono plugins _ c _ node x x2
      (addDeclaredEdges_mono _ c _ node x x2
        (addReleaseEdges_mono _ c _ x x2
          (addPhaseOrderEdges_mono m c _ x x2 h)))

theorem addPhaseOrderEdges_adds (m : NodeMap) (id b : String)
    (parsed : ParsedOperationId)
    (h1 : isBuildPhaseStr parsed.phase = true)
    (h2 : 0 < jsIndexOf phaseOrderStrs parsed.phase)
    (hid : id ∈ akeys m) (hb : b ∈ akeys m)
    (hbd : (parseOperationId b).distribution = parsed.distribution)
    (hbp : (parseOperationId b).phase = some (phaseOrderStrs.getD
      ((jsIndexOf phaseOrderStrs parsed.phase) - 1).toNat "")) :
    b ∈ depsOf (addPhaseOrderEdges m id parsed) id := by
  unfold addPhaseOrderEdges
  rw [if_pos h1, if_pos h2]
  refine foldl_trigger (fun mm => id ∈ akeys mm)
    (fun mm => b ∈ depsOf mm id) (akeys m) _ ?_ ?_ b ?_ m hid hb
  · intro acc c _ hacc
    show id ∈ akeys
      (if (parseOperationId c).distribution = parsed.distribution ∧
          (parseOperationId c).phase = some (phaseOrderStrs.getD
            ((jsIndexOf phaseOrderStrs parsed.phase) - 1).toNat "") then
        addEdge acc id c
      else acc)
    by_cases hc : (parseOperationId c).distribution =
        parsed.distribution ∧
        (parseOperationId c).phase = some (phaseOrderStrs.getD
          ((jsIndexOf phaseOrderStrs parsed.phase) - 1).toNat "")
    · rw [if_pos hc, akeys_addEdge]
      exact hacc
    · rw [if_neg hc]
      exact hacc
  · intro acc c _ hacc
    show b ∈ depsOf
      (if (parseOperationId c).distribution = parsed.distribution ∧
          (parseOperationId c).phase = some (phaseOrderStrs.getD
            ((jsIndexOf phaseOrderStrs parsed.phase) - 1).toNat "") then
        addEdge acc id c
      else acc) id
    by_cases hc : (parseOperationId c).distribution =
        parsed.distribution ∧
        (parseOperationId c).phase = some (phaseOrderStrs.getD
          ((jsIndexOf phaseOrderStrs parsed.phase) - 1).toNat "")
    · rw [if_pos hc]
      exact depsOf_addEdge_mono _ _ _ _ _ hacc
    · rw [if_neg hc]
      exact hacc
  · intro acc hacc
    show b ∈ depsOf
      (if (parseOperationId b).distribution = parsed.distribution ∧
          (parseOperationId b).phase = some (phaseOrderStrs.getD
            ((jsIndexOf phaseOrderStrs parsed.phase) - 1).toNat "") then
        addEdge acc id b
      else acc) id
    rw [if_pos ⟨hbd, hbp⟩, depsOf_addEdge_self _ _ _ hacc]
    exact mem_setAdd_self _ _

theorem addReleaseEdges_adds (m : NodeMap) (id b : String)
    (parsed : ParsedOperationId)
    (h1 : parsed.phase = some "release")
    (hid : id ∈ akeys m) (hb : b ∈ akeys m)
    (hbd : (parseOperationId b).distribution = parsed.distribution)
    (hbp : isBuildPhaseStr (parseOperationId b).phase = true) :
    b ∈ depsOf (addReleaseEdges m id parsed) id := by
  unfold addReleaseEdges
  rw [if_pos h1]
  refine foldl_trigger (fun mm => id ∈ akeys mm)
    (fun mm => b ∈ depsOf mm id) (akeys m) _ ?_ ?_ b ?_ m hid hb
  · intro acc c _ hacc
    show id ∈ akeys
      (if (parseOperationId c).distribution = parsed.distribution ∧
          isBuildPhaseStr (parseOperationId c).phase = true then
        addEdge acc id c
      else acc)
    by_cases hc : (parseOperationId c).distribution =
        parsed.distribution ∧
        isBuildPhaseStr (parseOperationId c).phase = true
    · rw [if_pos hc, akeys_addEdge]
      exact hacc
    · rw [if_neg hc]
      exact hacc
  · intro acc c _ hacc
    show b ∈ depsOf
      (if (parseOperationId c).distribution = parsed.distribution ∧
          isBuildPhaseStr (parseOperationId c).phase = true then
        addEdge acc id c
      else acc) id
    by_cases hc : (parseOperationId c).distribution =
        parsed.distribution ∧
        isBuildPhaseStr (parseOperationId c).phase = true
    · rw [if_pos hc]
      exact depsOf_addEdge_mono _ _ _ _ _ hacc
    · rw [if_neg hc]
      exact hacc
  · intro acc hacc
    show b ∈ depsOf
      (if (parseOperationId b).distribution = parsed.distribution ∧
          isBuildPhaseStr (parseOperationId b).phase = true then
        addEdge acc id b
      else acc) id
    rw [if_pos ⟨hbd, hbp⟩, depsOf_addEdge_self _ _ _ hacc]
    exact mem_setAdd_self _ _

theorem createNodes_EdgesWF_self (plugins : List ResolvedPluginInfo)
    (options : GraphBuildOptions) :
    EdgesWF (createNodes plugins options) (createNodes plugins options) := by
  refine ⟨⟨rfl, fun x => rfl⟩, ?_, ?_, ?_, ?_⟩
  · intro x
    rw [createNodes_depsOf_nil]
    exact fun d hd => absurd hd (List.not_mem_nil d)
  · intro x
    rw [createNodes_depsOf_nil]
    exact List.nodup_nil
  · intro x
    rw [createNodes_dependentsOf_nil]
    exact List.nodup_nil
  · intro a b _ _
    rw [createNodes_depsOf_nil, createNodes_dependentsOf_nil]
    simp

theorem builtNodes_phase_edge (plugins : List ResolvedPluginInfo)
    (options : GraphBuildOptions) (hcf : ColonFreeInfos plugins)
    (info1 info2 : ResolvedPluginInfo) (h1 : info1 ∈ plugins)
    (h2 : info2 ∈ plugins)
    (hdist : info2.distribution = info1.distribution)
    (phA phB : PhaseId)
    (hbuild : isBuildPhaseStr (some phA.toString) = true)
    (hidx : 0 < jsIndexOf phaseOrderStrs (some phA.toString))
    (hprev : phaseOrderStrs.getD
      ((jsIndexOf phaseOrderStrs (some phA.toString)) - 1).toNat "" =
      phB.toString)
    (hphA : phA ∈ getPluginPhases info1.plugin)
    (hphB : phB ∈ getPluginPhases info2.plugin)
    (hincA : (phasesToInclude options).contains phA = true)
    (hincB : (phasesToInclude options).contains phB = true) :
    operationId info1.distribution info2.plugin.metadata.id phB.toString ∈
      depsOf (builtNodes plugins options)
        (operationId info1.distribution info1.plugin.metadata.id
          phA.toString) := by
  obtain ⟨hd1, hp1⟩ := hcf info1 h1
  obtain ⟨hd2, hp2⟩ := hcf info2 h2
  have hkA : operationId info1.distribution info1.plugin.metadata.id
      phA.toString ∈ akeys (createNodes plugins options) :=
    createNodes_key_mem plugins options info1 phA h1 hphA hincA
  have hkB : operationId info1.distribution info2.plugin.metadata.id
      phB.toString ∈ akeys (createNodes plugins options) := by
    have := createNodes_key_mem plugins options info2 phB h2 hphB hincB
    rw [hdist] at this
    exact this
  have hparseA : parseOperationId (operationId info1.distribution
      info1.plugin.metadata.id phA.toString) =
      ⟨some info1.distribution, some info1.plugin.metadata.id,
        some phA.toString⟩ :=
    parseOperationId_operationId hd1 hp1 (colonFree_phase phA)
  have hparseB : parseOperationId (operationId info1.distribution
      info2.plugin.metadata.id phB.toString) =
      ⟨some info1.distribution, some info2.plugin.metadata.id,
        some phB.toString⟩ :=
    parseOperationId_operationId hd1 hp2 (colonFree_phase phB)
  unfold builtNodes addAllEdges
  refine foldl_trigger (EdgesWF (createNodes plugins options))
    (fun mm => operationId info1.distribution info2.plugin.metadata.id
      phB.toString ∈ depsOf mm (operationId info1.distribution
        info1.plugin.metadata.id phA.toString))
    (akeys (createNodes plugins options)) _
    (fun mm c _ h => processNode_preserves plugins _ mm c h)
    (fun mm c _ h => processNode_mono plugins mm c _ _ h)
    (operationId info1.distribution info1.plugin.metadata.id phA.toString)
    ?_ _ (createNodes_EdgesWF_self plugins options) hkA
  intro mm hmm
  have hkeys : akeys mm = akeys (createNodes plugins options) := hmm.1.1
  have hA_mm : operationId info1.distribution info1.plugin.metadata.id
      phA.toString ∈ akeys mm := by
    rw [hkeys]
    exact hkA
  have hB_mm : operationId info1.distribution info2.plugin.metadata.id
      phB.toString ∈ akeys mm := by
    rw [hkeys]
    exact hkB
  obtain ⟨node, hnode⟩ : ∃ n, alookup mm (operationId info1.distribution
      info1.plugin.metadata.id phA.toString) = some n := by
    have := (alookup_isSome mm _).mpr hA_mm
    cases hll : alookup mm (operationId info1.distribution
        info1.plugin.metadata.id phA.toString)
    · rw [hll] at this
      simp at this
    · exact ⟨_, rfl⟩
  unfold processNode
  rw [hnode]
  refine addSequentialEdges_mono plugins _ _ _ node _ _ ?_
  refine addDeclaredEdges_mono _ _ _ node _ _ ?_
  refine addReleaseEdges_mono _ _ _ _ _ ?_
  refine addPhaseOrderEdges_adds mm _ _ (parseOperationId
    (operationId info1.distribution info1.plugin.metadata.id
      phA.toString)) ?_ ?_ hA_mm hB_mm ?_ ?_
  · rw [hparseA]
    exact hbuild
  · rw [hparseA]
    exact hidx
  · rw [hparseA, hparseB]
  · simp only [hparseA, hparseB]
    rw [hprev]

theorem builtNodes_release_edge (plugins : List ResolvedPluginInfo)
    (options : GraphBuildOptions) (hcf : ColonFreeInfos plugins)
    (info1 info2 : ResolvedPluginInfo) (h1 : info1 ∈ plugins)
    (h2 : info2 ∈ plugins)
    (hdist : info2.distribution = info1.distribution)
    (phB : PhaseId)
    (hbuildB : isBuildPhaseStr (some phB.toString) = true)
    (hph1 : PhaseId.release ∈ getPluginPhases info1.plugin)
    (hphB : phB ∈ getPluginPhases info2.plugin)
    (hinc1 : (phasesToInclude options).contains PhaseId.release = true)
    (hincB : (phasesToInclude options).contains phB = true) :
    operationId info1.distribution info2.plugin.metadata.id phB.toString ∈
      depsOf (builtNodes plugins options)
        (operationId info1.distribution info1.plugin.metadata.id
          PhaseId.release.toString) := by
  obtain ⟨hd1, hp1⟩ := hcf info1 h1
  obtain ⟨hd2, hp2⟩ := hcf info2 h2
  have hkA : operationId info1.distribution info1.plugin.metadata.id
      PhaseId.release.toString ∈ akeys (createNodes plugins options) :=
    createNodes_key_mem plugins options info1 PhaseId.release h1 hph1 hinc1
  have hkB : operationId info1.distribution info2.plugin.metadata.id
      phB.toString ∈ akeys (createNodes plugins options) := by
    have := createNodes_key_mem plugins options info2 phB h2 hphB hincB
    rw [hdist] at this
    exact this
  have hparseA : parseOperationId (operationId info1.distribution
      info1.plugin.metadata.id PhaseId.release.toString) =
      ⟨some info1.distribution, some info1.plugin.metadata.id,
        some PhaseId.release.toString⟩ :=
    parseOperationId_operationId hd1 hp1 (colonFree_phase PhaseId.release)
  have hparseB : parseOperationId (operationId info1.distribution
      info2.plugin.metadata.id phB.toString) =
      ⟨some info1.distribution, some info2.plugin.metadata.id,
        some phB.toString⟩ :=
    parseOperationId_operationId hd1 hp2 (colonFree_phase phB)
  unfold builtNodes addAllEdges
  refine foldl_trigger (EdgesWF (createNodes plugins options))
    (fun mm => operationId info1.distribution info2.plugin.metadata.id
      phB.toString ∈ depsOf mm (operationId info1.distribution
        info1.plugin.metadata.id PhaseId.release.toString))
    (akeys (createNodes plugins options)) _
    (fun mm c _ h => processNode_preserves plugins _ mm c h)
    (fun mm c _ h => processNode_mono plugins mm c _ _ h)
    (operationId info1.distribution info1.plugin.metadata.id
      PhaseId.release.toString)
    ?_ _ (createNodes_EdgesWF_self plugins options) hkA
  intro mm hmm
  have hkeys : akeys mm = akeys (createNodes plugins options) := hmm.1.1
  have hA_mm : operationId info1.distribution info1.plugin.metadata.id
      PhaseId.release.toString ∈ akeys mm := by
    rw [hkeys]
    exact hkA
  have hB_mm : operationId info1.distribution info2.plugin.metadata.id
      phB.toString ∈ akeys mm := by
    rw [hkeys]
    exact hkB
  obtain ⟨node, hnode⟩ : ∃ n, alookup mm (operationId info1.distribution
      info1.plugin.metadata.id PhaseId.release.toString) = some n := by
    have := (alookup_isSome mm _).mpr hA_mm
    cases hll : alookup mm (operationId info1.distribution
        info1.plugin.metadata.id PhaseId.release.toString)
    · rw [hll] at this
      simp at this
    · exact ⟨_, rfl⟩
  have hwf1 : EdgesWF (createNodes plugins options)
      (addPhaseOrderEdges mm (operationId info1.distribution
        info1.plugin.metadata.id PhaseId.release.toString)
        (parseOperationId (operationId info1.distribution
          info1.plugin.metadata.id PhaseId.release.toString))) :=
    addPhaseOrderEdges_preserves _ mm _ _ hkA hmm
  unfold processNode
  rw [hnode]
  refine addSequentialEdges_mono plugins _ _ _ node _ _ ?_
  refine addDeclaredEdges_mono _ _ _ node _ _ ?_
  refine addReleaseEdges_adds _ _ _ (parseOperationId
    (operationId info1.distribution info1.plugin.metadata.id
      PhaseId.release.toString)) ?_ ?_ ?_ ?_ ?_
  · rw [hparseA]
    rfl
  · rw [hwf1.1.1]
    exact hkA
  · rw [hwf1.1.1]
    exact hkB
  · rw [hparseA, hparseB]
  · rw [hparseB]
    exact hbuildB

theorem alookup_edges_map (m : NodeMap) (x : String) :
    alookup (m.map (fun e => (e.1, e.2.dependencies))) x =
      (alookup m x).map (fun n => n.dependencies) := by
  induction m with
  | nil => rfl
  | cons hd t ih =>
    obtain ⟨k1, v1⟩ := hd
    by_cases hk : k1 = x
    · subst hk
      simp [alookup]
    · simp [alookup, hk, ih]

theorem edges_lookup_getD (plugins : List ResolvedPluginInfo)
    (options : GraphBuildOptions) (g : ExecutionGraph)
    (hok : buildExecutionGraph plugins options = .ok g) (x : String) :
    (alookup g.edges x).getD [] =
      depsOf (builtNodes plugins options) x := by
  obtain ⟨_, hedges, _, _⟩ := buildExecutionGraph_ok plugins options g hok
  rw [hedges, alookup_edges_map]
  unfold depsOf
  cases alookup (builtNodes plugins options) x <;> rfl

/-! ## Rule-4 support: id injectivity, findIdx, plugin subsets -/

theorem phaseId_toString_inj {a b : PhaseId} (h : a.toString = b.toString) :
    a = b := by
  revert h
  cases a <;> cases b <;> decide

theorem operationId_inj_mid {d p1 p2 ph : String}
    (h : operationId d p1 ph = operationId d p2 ph) : p1 = p2 := by
  have hdata : (operationId d p1 ph).data = (operationId d p2 ph).data := by
    rw [h]
  rw [data_operationId, data_operationId] at hdata
  have h2 := List.append_cancel_left hdata
  have h3 : p1.data ++ ':' :: ph.data = p2.data ++ ':' :: ph.data := by
    injection h2
  have h4 : p1.data = p2.data := List.append_cancel_right h3
  cases p1
  cases p2
  simp_all

theorem rule1_no_self_phase (ph : PhaseId)
    (hbuild : isBuildPhaseStr (some ph.toString) = true)
    (hidx : 0 < jsIndexOf phaseOrderStrs (some ph.toString))
    (heq : some ph.toString = some (phaseOrderStrs.getD
      ((jsIndexOf phaseOrderStrs (some ph.toString)) - 1).toNat "")) :
    False := by
  revert hbuild hidx heq
  cases ph <;> decide

theorem rule2_no_self_phase (ph : PhaseId)
    (hrel : some (PhaseId.toString ph) = some "release")
    (hb : isBuildPhaseStr (some ph.toString) = true) : False := by
  revert hrel hb
  cases ph <;> decide

theorem findIdx_map_nodup {α β : Type} [DecidableEq β] (f : α → β) :
    ∀ (l : List α), (l.map f).Nodup → ∀ (i : Nat) (a : α),
      l.get? i = some a → ∀ (p : α → Bool),
      (∀ x, p x = true ↔ f x = f a) → l.findIdx? p = some i := by
  intro l
  induction l with
  | nil =>
    intro _ i a hi
    simp at hi
  | cons hd t ih =>
    intro hnd i a hi p hp
    rw [List.findIdx?_cons]
    cases i with
    | zero =>
      have ha : hd = a := by simpa using hi
      rw [if_pos ((hp hd).mpr (by rw [ha]))]
    | succ j =>
      have hit : t.get? j = some a := by simpa using hi
      have hmem : a ∈ t := List.getElem?_mem
        (by rw [← List.get?_eq_getElem?]; exact hit)
      have hnd2 : f hd ∉ t.map f ∧ (t.map f).Nodup := by
        rw [List.map_cons] at hnd
        exact List.nodup_cons.mp hnd
      have hph : p hd = false := by
        by_contra hc
        have hpt : p hd = true := by simpa using hc
        have : f hd ∈ t.map f := by
          rw [(hp hd).mp hpt]
          exact List.mem_map_of_mem f hmem
        exact hnd2.1 this
      rw [if_neg (by simp [hph]), List.findIdx?_succ,
        ih hnd2.2 j a hit p hp]
      rfl

theorem get_index_unique {α β : Type} (f : α → β) (l : List α)
    (hnd : (l.map f).Nodup) (i j : Nat) (a b : α)
    (hi : l.get? i = some a) (hj : l.get? j = some b) (hf : f a = f b) :
    i = j := by
  have hi2 : (l.map f)[i]? = some (f a) := by
    rw [List.getElem?_map, ← List.get?_eq_getElem?, hi]
    rfl
  have hj2 : (l.map f)[j]? = some (f b) := by
    rw [List.getElem?_map, ← List.get?_eq_getElem?, hj]
    rfl
  have hlen : i < (l.map f).length := (List.getElem?_eq_some_iff.mp hi2).1
  exact List.getElem?_inj hlen hnd (by rw [hi2, hj2, hf])

theorem nodup_map_inj {α β : Type} {l : List α} {f : α → β}
    (h : (l.map f).Nodup) {a b : α} (ha : a ∈ l) (hb : b ∈ l)
    (hf : f a = f b) : a = b := by
  induction l with
  | nil => simp at ha
  | cons x t ih =>
    simp only [List.map_cons, List.nodup_cons] at h
    rcases List.mem_cons.mp ha with rfl | ha2
    · rcases List.mem_cons.mp hb with rfl | hb2
      · rfl
      · exact absurd (hf ▸ List.mem_map.mpr ⟨b, hb2, rfl⟩) h.1
    · rcases List.mem_cons.mp hb with rfl | hb2
      · exact absurd (hf ▸ List.mem_map.mpr ⟨a, ha2, rfl⟩) h.1
      · exact ih h.2 ha2 hb2

theorem phasesInclude_of_mem {phases : List PhaseId} {ph : PhaseId}
    (h : ph ∈ phases) : phasesInclude phases (some ph.toString) = true := by
  unfold phasesInclude
  exact List.elem_eq_true_of_mem (List.mem_map_of_mem PhaseId.toString h)

theorem mem_of_phasesInclude {phases : List PhaseId} {ph : PhaseId}
    (h : phasesInclude phases (some ph.toString) = true) : ph ∈ phases := by
  unfold phasesInclude at h
  have h2 := List.mem_of_elem_eq_true h
  obtain ⟨ph2, hph2, heq⟩ := List.mem_map.mp h2
  rwa [phaseId_toString_inj heq] at hph2

theorem mem_samePhasePluginsOf_iff (plugins : List ResolvedPluginInfo)
    (d : String) (ph : PhaseId) (p : ResolvedPluginInfo) :
    p ∈ samePhasePluginsOf plugins ⟨some d, none, some ph.toString⟩ ↔
      p ∈ plugins ∧ p.distribution = d ∧ ph ∈ getPluginPhases p.plugin := by
  unfold samePhasePluginsOf
  rw [List.mem_filter, List.mem_filter]
  constructor
  · rintro ⟨⟨hp, h1⟩, h2⟩
    have hd := of_decide_eq_true h1
    exact ⟨hp, Option.some.inj hd, mem_of_phasesInclude h2⟩
  · rintro ⟨hp, hd, hph⟩
    exact ⟨⟨hp, decide_eq_true (by rw [hd])⟩, phasesInclude_of_mem hph⟩

theorem samePhasePluginsOf_pid_irrel (plugins : List ResolvedPluginInfo)
    (pd : Option String) (pid1 pid2 : Option String) (pph : Option String) :
    samePhasePluginsOf plugins ⟨pd, pid1, pph⟩ =
      samePhasePluginsOf plugins ⟨pd, pid2, pph⟩ := rfl

theorem createNodes_op_unique (plugins : List ResolvedPluginInfo)
    (options : GraphBuildOptions) (hcf : ColonFreeInfos plugins)
    (info : ResolvedPluginInfo) (hinfo : info ∈ plugins) (ph : PhaseId)
    (hph : ph ∈ getPluginPhases info.plugin)
    (hinc : (phasesToInclude options).contains ph = true)
    (hnd : ((samePhasePluginsOf plugins
      ⟨some info.distribution, none, some ph.toString⟩).map
      (fun p => p.plugin.metadata.id)).Nodup) :
    opAt (createNodes plugins options)
      (operationId info.distribution info.plugin.metadata.id ph.toString) =
      some { id := operationId info.distribution info.plugin.metadata.id
               ph.toString,
             plugin := info.plugin, phase := ph,
             distribution := info.distribution, config := info.config } := by
  have hk := createNodes_key_mem plugins options info ph hinfo hph hinc
  obtain ⟨n, hn⟩ : ∃ n, alookup (createNodes plugins options)
      (operationId info.distribution info.plugin.metadata.id ph.toString) =
      some n := by
    have hs := (alookup_isSome _ _).mpr hk
    cases hl : alookup (createNodes plugins options)
        (operationId info.distribution info.plugin.metadata.id ph.toString)
    · rw [hl] at hs
      simp at hs
    · exact ⟨_, rfl⟩
  obtain ⟨_, _, info2, hinfo2, ph2, hph2, _, hideq, hopeq⟩ :=
    createNodes_lookup plugins options _ n hn
  obtain ⟨hd1, hp1⟩ := hcf info hinfo
  obtain ⟨hd2, hp2⟩ := hcf info2 hinfo2
  have hpe : (⟨some info.distribution, some info.plugin.metadata.id,
      some ph.toString⟩ : ParsedOperationId) =
      ⟨some info2.distribution, some info2.plugin.metadata.id,
        some ph2.toString⟩ := by
    rw [← parseOperationId_operationId hd1 hp1 (colonFree_phase ph),
      ← parseOperationId_operationId hd2 hp2 (colonFree_phase ph2),
      ← hideq]
  have hdeq : info.distribution = info2.distribution := by
    have := congrArg ParsedOperationId.distribution hpe
    simpa using this
  have hpideq : info.plugin.metadata.id = info2.plugin.metadata.id := by
    have := congrArg ParsedOperationId.pluginId hpe
    simpa using this
  have hpheq : ph = ph2 := phaseId_toString_inj (by
    have := congrArg ParsedOperationId.phase hpe
    simpa using this)
  have hS2 : info2 ∈ samePhasePluginsOf plugins
      ⟨some info.distribution, none, some ph.toString⟩ := by
    rw [mem_samePhasePluginsOf_iff]
    exact ⟨hinfo2, hdeq.symm, by rw [hpheq]; exact hph2⟩
  have hS1 : info ∈ samePhasePluginsOf plugins
      ⟨some info.distribution, none, some ph.toString⟩ := by
    rw [mem_samePhasePluginsOf_iff]
    exact ⟨hinfo, rfl, hph⟩
  have heqi : info2 = info := nodup_map_inj hnd hS2 hS1 hpideq.symm
  subst heqi
  unfold opAt
  rw [hn]
  show some n.operation = _
  rw [hopeq, hpheq]

/-! ## Stability of other nodes under one processed node -/

theorem addPhaseOrderEdges_depsOf_ne (m : NodeMap) (id : String)
    (parsed : ParsedOperationId) (x : String) (hx : x ≠ id) :
    depsOf (addPhaseOrderEdges m id parsed) x = depsOf m x := by
  unfold addPhaseOrderEdges
  by_cases h1 : isBuildPhaseStr parsed.phase = true
  · rw [if_pos h1]
    by_cases h2 : 0 < jsIndexOf phaseOrderStrs parsed.phase
    · rw [if_pos h2]
      refine foldl_preserve_mem (fun mm => depsOf mm x = depsOf m x)
        (akeys m) _ ?_ m rfl
      intro acc c _ hacc
      show depsOf
        (if (parseOperationId c).distribution = parsed.distribution ∧
            (parseOperationId c).phase = some (phaseOrderStrs.getD
              ((jsIndexOf phaseOrderStrs parsed.phase) - 1).toNat "") then
          addEdge acc id c
        else acc) x = depsOf m x
      by_cases hc : (parseOperationId c).distribution =
          parsed.distribution ∧
          (parseOperationId c).phase = some (phaseOrderStrs.getD
            ((jsIndexOf phaseOrderStrs parsed.phase) - 1).toNat "")
      · rw [if_pos hc, depsOf_addEdge_ne _ _ _ _ hx]
        exact hacc
      · rw [if_neg hc]
        exact hacc
    · rw [if_neg h2]
  · rw [if_neg h1]

theorem addReleaseEdges_depsOf_ne (m : NodeMap) (id : String)
    (parsed : ParsedOperationId) (x : String) (hx : x ≠ id) :
    depsOf (addReleaseEdges m id parsed) x = depsOf m x := by
  unfold addReleaseEdges
  by_cases h1 : parsed.phase = some "release"
  · rw [if_pos h1]
    refine foldl_preserve_mem (fun mm => depsOf mm x = depsOf m x)
      (akeys m) _ ?_ m rfl
    intro acc c _ hacc
    show depsOf
      (if (parseOperationId c).distribution = parsed.distribution ∧
          isBuildPhaseStr (parseOperationId c).phase = true then
        addEdge acc id c
      else acc) x = depsOf m x
    by_cases hc : (parseOperationId c).distribution = parsed.distribution ∧
        isBuildPhaseStr (parseOperationId c).phase = true
    · rw [if_pos hc, depsOf_addEdge_ne _ _ _ _ hx]
      exact hacc
    · rw [if_neg hc]
      exact hacc
  · rw [if_neg h1]

theorem addDeclaredEdges_depsOf_ne (m : NodeMap) (id : String)
    (parsed : ParsedOperationId) (node : GraphNode) (x : String)
    (hx : x ≠ id) :
    depsOf (addDeclaredEdges m id parsed node) x = depsOf m x := by
  unfold addDeclaredEdges
  cases hdeps : node.operation.plugin.metadata.dependencies with
  | none => rfl
  | some deps =>
    refine foldl_preserve_mem (fun mm => depsOf mm x = depsOf m x)
      deps _ ?_ m rfl
    intro acc dp _ hacc
    show depsOf
      (if (alookup acc (operationId (optStr parsed.distribution) dp
          (optStr parsed.phase))).isSome = true then
        addEdge acc id (operationId (optStr parsed.distribution) dp
          (optStr parsed.phase))
      else acc) x = depsOf m x
    by_cases hg : (alookup acc (operationId (optStr parsed.distribution)
        dp (optStr parsed.phase))).isSome = true
    · rw [if_pos hg, depsOf_addEdge_ne _ _ _ _ hx]
      exact hacc
    · rw [if_neg hg]
      exact hacc

theorem addSequentialEdges_depsOf_ne (plugins : List ResolvedPluginInfo)
    (m : NodeMap) (id : String) (parsed : ParsedOperationId)
    (node : GraphNode) (x : String) (hx : x ≠ id) :
    depsOf (addSequentialEdges plugins m id parsed node) x = depsOf m x := by
  unfold addSequentialEdges
  by_cases hpar : node.operation.plugin.metadata.canParallelize = true
  · rw [if_pos hpar]
  · rw [if_neg hpar]
    cases hfi : (samePhasePluginsOf plugins parsed).findIdx?
        (fun p => some p.plugin.metadata.id = parsed.pluginId) with
    | none => rfl
    | some j =>
      cases j with
      | zero => rfl
      | succ myIndex =>
        show depsOf
          (match (samePhasePluginsOf plugins parsed).get? myIndex with
          | none => m
          | some prevPlugin =>
            if prevPlugin.plugin.metadata.canParallelize = true then m
            else
              if (alookup m (operationId (optStr parsed.distribution)
                  prevPlugin.plugin.metadata.id
                  (optStr parsed.phase))).isSome = true then
                addEdge m id (operationId (optStr parsed.distribution)
                  prevPlugin.plugin.metadata.id (optStr parsed.phase))
              else m) x = depsOf m x
        cases hget : (samePhasePluginsOf plugins parsed).get? myIndex with
        | none => rfl
        | some prevPlugin =>
          show depsOf
            (if prevPlugin.plugin.metadata.canParallelize = true then m
            else
              if (alookup m (operationId (optStr parsed.distribution)
                  prevPlugin.plugin.metadata.id
                  (optStr parsed.phase))).isSome = true then
                addEdge m id (operationId (optStr parsed.distribution)
                  prevPlugin.plugin.metadata.id (optStr parsed.phase))
              else m) x = depsOf m x
          by_cases hpp : prevPlugin.plugin.metadata.canParallelize = true
          · rw [if_pos hpp]
          · rw [if_neg hpp]
            by_cases hg : (alookup m (operationId
                (optStr parsed.distribution) prevPlugin.plugin.metadata.id
                (optStr parsed.phase))).isSome = true
            · rw [if_pos hg, depsOf_addEdge_ne _ _ _ _ hx]
            · rw [if_neg hg]

theorem processNode_depsOf_ne (plugins : List ResolvedPluginInfo)
    (m : NodeMap) (c x : String) (hx : c ≠ x) :
    depsOf (processNode plugins m c) x = depsOf m x := by
  unfold processNode
  cases hl : alookup m c with
  | none => rfl
  | some node =>
    rw [addSequentialEdges_depsOf_ne plugins _ c _ node x
        (fun h => hx h.symm),
      addDeclaredEdges_depsOf_ne _ c _ node x (fun h => hx h.symm),
      addReleaseEdges_depsOf_ne _ c _ x (fun h => hx h.symm),
      addPhaseOrderEdges_depsOf_ne m c _ x (fun h => hx h.symm)]

/-! ## Isolating the single fold step that edits a node -/

theorem foldl_g_fix {α β : Type} (g : α → β) (step : α → String → α)
    (x : String) (hstable : ∀ a c, c ≠ x → g (step a c) = g a) :
    ∀ (t : List String), (∀ c ∈ t, c ≠ x) → ∀ a,
      g (t.foldl step a) = g a := by
  intro t
  induction t with
  | nil => exact fun _ _ => rfl
  | cons hd t2 ih =>
    intro hnot a
    rw [List.foldl_cons,
      ih (fun c hc => hnot c (List.mem_cons_of_mem _ hc)) (step a hd)]
    exact hstable a hd (hnot hd (List.mem_cons_self _ _))

theorem foldl_isolate {α β : Type} (P : α → Prop) (g : α → β)
    (step : α → String → α) (x : String)
    (hstable : ∀ a c, c ≠ x → g (step a c) = g a) :
    ∀ (l : List String), l.Nodup → x ∈ l →
      (∀ a c, c ∈ l → P a → P (step a c)) →
      ∀ a0, P a0 →
      ∃ a, P a ∧ g a = g a0 ∧ g (l.foldl step a0) = g (step a x) := by
  intro l
  induction l with
  | nil =>
    intro _ hx
    simp at hx
  | cons hd t ih =>
    intro hnd hx hP a0 hP0
    rcases List.mem_cons.mp hx with rfl | hxt
    · refine ⟨a0, hP0, rfl, ?_⟩
      rw [List.foldl_cons]
      exact foldl_g_fix g step x hstable t
        (fun c hc hc2 => (List.nodup_cons.mp hnd).1 (hc2 ▸ hc)) _
    · have hne : hd ≠ x := fun h => (List.nodup_cons.mp hnd).1 (h ▸ hxt)
      obtain ⟨a, hPa, hga, hgf⟩ := ih (List.nodup_cons.mp hnd).2 hxt
        (fun a2 c hc => hP a2 c (List.mem_cons_of_mem _ hc)) (step a0 hd)
        (hP a0 hd (List.mem_cons_self _ _) hP0)
      refine ⟨a, hPa, ?_, by rw [List.foldl_cons]; exact hgf⟩
      rw [hga]
      exact hstable a0 hd hne

theorem builtNodes_depsOf_isolate (plugins : List ResolvedPluginInfo)
    (options : GraphBuildOptions) (x : String)
    (hx : x ∈ akeys (createNodes plugins options)) :
    ∃ m, EdgesWF (createNodes plugins options) m ∧ depsOf m x = [] ∧
      depsOf (builtNodes plugins options) x =
        depsOf (processNode plugins m x) x := by
  unfold builtNodes addAllEdges
  obtain ⟨m, hP, hg, hgf⟩ :=
    foldl_isolate (EdgesWF (createNodes plugins options))
      (fun mm => depsOf mm x) (fun mm c => processNode plugins mm c) x
      (fun a c hc => processNode_depsOf_ne plugins a c x hc)
      (akeys (createNodes plugins options))
      (createNodes_keys_nodup plugins options) hx
      (fun a c _ h => processNode_preserves plugins _ a c h)
      (createNodes plugins options)
      (createNodes_EdgesWF_self plugins options)
  refine ⟨m, hP, ?_, hgf⟩
  rw [hg, createNodes_depsOf_nil]

/-! ## Edge upper bounds: each rule only adds its own targets -/

theorem addPhaseOrderEdges_UB (m : NodeMap) (id : String)
    (parsed : ParsedOperationId) (x x2 : String)
    (h : x2 ∈ depsOf (addPhaseOrderEdges m id parsed) x) :
    x2 ∈ depsOf m x ∨
      (x = id ∧ isBuildPhaseStr parsed.phase = true ∧
        0 < jsIndexOf phaseOrderStrs parsed.phase ∧
        (parseOperationId x2).distribution = parsed.distribution ∧
        (parseOperationId x2).phase = some (phaseOrderStrs.getD
          ((jsIndexOf phaseOrderStrs parsed.phase) - 1).toNat "")) := by
  revert h
  unfold addPhaseOrderEdges
  by_cases h1 : isBuildPhaseStr parsed.phase = true
  · rw [if_pos h1]
    by_cases h2 : 0 < jsIndexOf phaseOrderStrs parsed.phase
    · rw [if_pos h2]
      intro h
      rcases foldl_cases (fun _ => True) (fun mm => x2 ∈ depsOf mm x)
        (fun c2 => x = id ∧ x2 = c2 ∧
          (parseOperationId c2).distribution = parsed.distribution ∧
          (parseOperationId c2).phase = some (phaseOrderStrs.getD
            ((jsIndexOf phaseOrderStrs parsed.phase) - 1).toNat ""))
        (akeys m)
        (fun acc otherId =>
          let other := parseOperationId otherId
          if other.distribution = parsed.distribution ∧
              other.phase = some (phaseOrderStrs.getD
                ((jsIndexOf phaseOrderStrs parsed.phase) - 1).toNat "") then
            addEdge acc id otherId
          else acc)
        (fun _ _ _ _ => trivial)
        (fun acc c _ _ hq => by
          revert hq
          show x2 ∈ depsOf
            (if (parseOperationId c).distribution = parsed.distribution ∧
                (parseOperationId c).phase = some (phaseOrderStrs.getD
                  ((jsIndexOf phaseOrderStrs parsed.phase) - 1).toNat "")
              then addEdge acc id c
            else acc) x → _
          by_cases hc : (parseOperationId c).distribution =
              parsed.distribution ∧
              (parseOperationId c).phase = some (phaseOrderStrs.getD
                ((jsIndexOf phaseOrderStrs parsed.phase) - 1).toNat "")
          · rw [if_pos hc]
            intro hq
            rcases depsOf_addEdge_UB acc id c x x2 hq with hq2 | ⟨hxe, hx2c⟩
            · exact Or.inl hq2
            · exact Or.inr ⟨hxe, hx2c, hc.1, hc.2⟩
          · rw [if_neg hc]
            exact Or.inl)
        m trivial h with hq | ⟨c, _, hxe, hx2c, hcd, hcp⟩
      · exact Or.inl hq
      · subst hx2c
        exact Or.inr ⟨hxe, h1, h2, hcd, hcp⟩
    · rw [if_neg h2]
      exact Or.inl
  · rw [if_neg h1]
    exact Or.inl

theorem addReleaseEdges_UB (m : NodeMap) (id : String)
    (parsed : ParsedOperationId) (x x2 : String)
    (h : x2 ∈ depsOf (addReleaseEdges m id parsed) x) :
    x2 ∈ depsOf m x ∨
      (x = id ∧ parsed.phase = some "release" ∧
        (parseOperationId x2).distribution = parsed.distribution ∧
        isBuildPhaseStr (parseOperationId x2).phase = true) := by
  revert h
  unfold addReleaseEdges
  by_cases h1 : parsed.phase = some "release"
  · rw [if_pos h1]
    intro h
    rcases foldl_cases (fun _ => True) (fun mm => x2 ∈ depsOf mm x)
      (fun c2 => x = id ∧ x2 = c2 ∧
        (parseOperationId c2).distribution = parsed.distribution ∧
        isBuildPhaseStr (parseOperationId c2).phase = true)
      (akeys m)
      (fun acc otherId =>
        let other := parseOperationId otherId
        if other.distribution = parsed.distribution ∧
            isBuildPhaseStr other.phase then
          addEdge acc id otherId
        else acc)
      (fun _ _ _ _ => trivial)
      (fun acc c _ _ hq => by
        revert hq
        show x2 ∈ depsOf
          (if (parseOperationId c).distribution = parsed.distribution ∧
              isBuildPhaseStr (parseOperationId c).phase = true then
            addEdge acc id c
          else acc) x → _
        by_cases hc : (parseOperationId c).distribution =
            parsed.distribution ∧
            isBuildPhaseStr (parseOperationId c).phase = true
        · rw [if_pos hc]
          intro hq
          rcases depsOf_addEdge_UB acc id c x x2 hq with hq2 | ⟨hxe, hx2c⟩
          · exact Or.inl hq2
          · exact Or.inr ⟨hxe, hx2c, hc.1, hc.2⟩
        · rw [if_neg hc]
          exact Or.inl)
      m trivial h with hq | ⟨c, _, hxe, hx2c, hcd, hcp⟩
    · exact Or.inl hq
    · subst hx2c
      exact Or.inr ⟨hxe, h1, hcd, hcp⟩
  · rw [if_neg h1]
    exact Or.inl

theorem addDeclaredEdges_UB (m : NodeMap) (id : String)
    (parsed : ParsedOperationId) (node : GraphNode) (x x2 : String)
    (h : x2 ∈ depsOf (addDeclaredEdges m id parsed node) x) :
    x2 ∈ depsOf m x ∨
      (x = id ∧ ∃ deps, node.operation.plugin.metadata.dependencies =
        some deps ∧ ∃ dp ∈ deps, x2 = operationId
          (optStr parsed.distribution) dp (optStr parsed.phase)) := by
  revert h
  unfold addDeclaredEdges
  cases hdeps : node.operation.plugin.metadata.dependencies with
  | none => exact Or.inl
  | some deps =>
    intro h
    rcases foldl_cases (fun _ => True) (fun mm => x2 ∈ depsOf mm x)
      (fun dp => x = id ∧ x2 = operationId (optStr parsed.distribution) dp
        (optStr parsed.phase))
      deps
      (fun acc depPluginId =>
        let depId := operationId (optStr parsed.distribution) depPluginId
          (optStr parsed.phase)
        if (alookup acc depId).isSome then addEdge acc id depId else acc)
      (fun _ _ _ _ => trivial)
      (fun acc dp _ _ hq => by
        revert hq
        show x2 ∈ depsOf
          (if (alookup acc (operationId (optStr parsed.distribution) dp
              (optStr parsed.phase))).isSome = true then
            addEdge acc id (operationId (optStr parsed.distribution) dp
              (optStr parsed.phase))
          else acc) x → _
        by_cases hg : (alookup acc (operationId
            (optStr parsed.distribution) dp
            (optStr parsed.phase))).isSome = true
        · rw [if_pos hg]
          intro hq
          rcases depsOf_addEdge_UB acc id _ x x2 hq with hq2 | ⟨hxe, hx2c⟩
          · exact Or.inl hq2
          · exact Or.inr ⟨hxe, hx2c⟩
        · rw [if_neg hg]
          exact Or.inl)
      m trivial h with hq | ⟨dp, hdp, hxe, hx2c⟩
    · exact Or.inl hq
    · exact Or.inr ⟨hxe, deps, rfl, dp, hdp, hx2c⟩

theorem addSequentialEdges_UB (plugins : List ResolvedPluginInfo)
    (m : NodeMap) (id : String) (parsed : ParsedOperationId)
    (node : GraphNode) (x x2 : String)
    (h : x2 ∈ depsOf (addSequentialEdges plugins m id parsed node) x) :
    x2 ∈ depsOf m x ∨
      (x = id ∧ node.operation.plugin.metadata.canParallelize = false ∧
        ∃ i prevPlugin,
          (samePhasePluginsOf plugins parsed).findIdx?
            (fun p => some p.plugin.metadata.id = parsed.pluginId) =
            some (i + 1) ∧
          (samePhasePluginsOf plugins parsed).get? i = some prevPlugin ∧
          prevPlugin.plugin.metadata.canParallelize = false ∧
          x2 = operationId (optStr parsed.distribution)
            prevPlugin.plugin.metadata.id (optStr parsed.phase)) := by
  revert h
  unfold addSequentialEdges
  by_cases hpar : node.operation.plugin.metadata.canParallelize = true
  · rw [if_pos hpar]
    exact Or.inl
  · rw [if_neg hpar]
    cases hfi : (samePhasePluginsOf plugins parsed).findIdx?
        (fun p => some p.plugin.metadata.id = parsed.pluginId) with
    | none => exact Or.inl
    | some j =>
      cases j with
      | zero => exact Or.inl
      | succ myIndex =>
        show x2 ∈ depsOf
          (match (samePhasePluginsOf plugins parsed).get? myIndex with
          | none => m
          | some prevPlugin =>
            if prevPlugin.plugin.metadata.canParallelize = true then m
            else
              if (alookup m (operationId (optStr parsed.distribution)
                  prevPlugin.plugin.metadata.id
                  (optStr parsed.phase))).isSome = true then
                addEdge m id (operationId (optStr parsed.distribution)
                  prevPlugin.plugin.metadata.id (optStr parsed.phase))
              else m) x → _
        cases hget : (samePhasePluginsOf plugins parsed).get? myIndex with
        | none => exact Or.inl
        | some prevPlugin =>
          show x2 ∈ depsOf
            (if prevPlugin.plugin.metadata.canParallelize = true then m
            else
              if (alookup m (operationId (optStr parsed.distribution)
                  prevPlugin.plugin.metadata.id
                  (optStr parsed.phase))).isSome = true then
                addEdge m id (operationId (optStr parsed.distribution)
                  prevPlugin.plugin.metadata.id (optStr parsed.phase))
              else m) x → _
          by_cases hpp : prevPlugin.plugin.metadata.canParallelize = true
          · rw [if_pos hpp]
            exact Or.inl
          · rw [if_neg hpp]
            by_cases hg : (alookup m (operationId
                (optStr parsed.distribution) prevPlugin.plugin.metadata.id
                (optStr parsed.phase))).isSome = true
            · rw [if_pos hg]
              intro hq
              rcases depsOf_addEdge_UB m id _ x x2 hq with hq2 | ⟨hxe, hx2c⟩
              · exact Or.inl hq2
              · exact Or.inr ⟨hxe, by simpa using hpar, myIndex,
                  prevPlugin, rfl, hget, by simpa using hpp, hx2c⟩
            · rw [if_neg hg]
              exact Or.inl

theorem processNode_self_UB (plugins : List ResolvedPluginInfo)
    (m : NodeMap) (c x2 : String) (node : GraphNode)
    (hl : alookup m c = some node)
    (hnil : depsOf m c = [])
    (h : x2 ∈ depsOf (processNode plugins m c) c) :
    (isBuildPhaseStr (parseOperationId c).phase = true ∧
      0 < jsIndexOf phaseOrderStrs (parseOperationId c).phase ∧
      (parseOperationId x2).distribution =
        (parseOperationId c).distribution ∧
      (parseOperationId x2).phase = some (phaseOrderStrs.getD
        ((jsIndexOf phaseOrderStrs (parseOperationId c).phase) - 1).toNat
        "")) ∨
    ((parseOperationId c).phase = some "release" ∧
      (parseOperationId x2).distribution =
        (parseOperationId c).distribution ∧
      isBuildPhaseStr (parseOperationId x2).phase = true) ∨
    (∃ deps, node.operation.plugin.metadata.dependencies = some deps ∧
      ∃ dp ∈ deps, x2 = operationId
        (optStr (parseOperationId c).distribution) dp
        (optStr (parseOperationId c).phase)) ∨
    (node.operation.plugin.metadata.canParallelize = false ∧
      ∃ i prevPlugin,
        (samePhasePluginsOf plugins (parseOperationId c)).findIdx?
          (fun p => some p.plugin.metadata.id =
            (parseOperationId c).pluginId) = some (i + 1) ∧
        (samePhasePluginsOf plugins (parseOperationId c)).get? i =
          some prevPlugin ∧
        prevPlugin.plugin.metadata.canParallelize = false ∧
        x2 = operationId (optStr (parseOperationId c).distribution)
          prevPlugin.plugin.metadata.id
          (optStr (parseOperationId c).phase)) := by
  unfold processNode at h
  rw [hl] at h
  rcases addSequentialEdges_UB plugins _ c _ node c x2 h with h3 | ⟨_, hc4⟩
  · rcases addDeclaredEdges_UB _ c _ node c x2 h3 with h2 | ⟨_, hc3⟩
    · rcases addReleaseEdges_UB _ c _ c x2 h2 with hh1 | ⟨_, hc2⟩
      · rcases addPhaseOrderEdges_UB m c _ c x2 hh1 with h0 | ⟨_, hc1⟩
        · rw [hnil] at h0
          simp at h0
        · exact Or.inl hc1
      · exact Or.inr (Or.inl hc2)
    · exact Or.inr (Or.inr (Or.inl hc3))
  · exact Or.inr (Or.inr (Or.inr hc4))

theorem addSequentialEdges_adds (plugins : List ResolvedPluginInfo)
    (m : NodeMap) (id : String) (parsed : ParsedOperationId)
    (node : GraphNode)
    (hnp : node.operation.plugin.metadata.canParallelize = false)
    (i : Nat)
    (hfind : (samePhasePluginsOf plugins parsed).findIdx?
      (fun p => some p.plugin.metadata.id = parsed.pluginId) =
      some (i + 1))
    (prevPlugin : ResolvedPluginInfo)
    (hget : (samePhasePluginsOf plugins parsed).get? i = some prevPlugin)
    (hpp : prevPlugin.plugin.metadata.canParallelize = false)
    (hmem : (alookup m (operationId (optStr parsed.distribution)
      prevPlugin.plugin.metadata.id (optStr parsed.phase))).isSome = true)
    (hid : id ∈ akeys m) :
    operationId (optStr parsed.distribution) prevPlugin.plugin.metadata.id
      (optStr parsed.phase) ∈
      depsOf (addSequentialEdges plugins m id parsed node) id := by
  unfold addSequentialEdges
  rw [if_neg (by simp [hnp]), hfind]
  show _ ∈ depsOf
    (match (samePhasePluginsOf plugins parsed).get? i with
    | none => m
    | some prevPlugin =>
      if prevPlugin.plugin.metadata.canParallelize = true then m
      else
        if (alookup m (operationId (optStr parsed.distribution)
            prevPlugin.plugin.metadata.id
            (optStr parsed.phase))).isSome = true then
          addEdge m id (operationId (optStr parsed.distribution)
            prevPlugin.plugin.metadata.id (optStr parsed.phase))
        else m) id
  rw [hget]
  show _ ∈ depsOf
    (if prevPlugin.plugin.metadata.canParallelize = true then m
    else
      if (alookup m (operationId (optStr parsed.distribution)
          prevPlugin.plugin.metadata.id
          (optStr parsed.phase))).isSome = true then
        addEdge m id (operationId (optStr parsed.distribution)
          prevPlugin.plugin.metadata.id (optStr parsed.phase))
      else m) id
  rw [if_neg (by simp [hpp]), if_pos hmem, depsOf_addEdge_self _ _ _ hid]
  exact mem_setAdd_self _ _

/-! ## Rule-4 edges in the finished node map -/

theorem builtNodes_seq_edge (plugins : List ResolvedPluginInfo)
    (options : GraphBuildOptions) (opA : String) (i : Nat)
    (prevPlugin : ResolvedPluginInfo) (opLit : ExecutionOperation)
    (hopA : opA ∈ akeys (createNodes plugins options))
    (hopAt : opAt (createNodes plugins options) opA = some opLit)
    (hnp : opLit.plugin.metadata.canParallelize = false)
    (hfind : (samePhasePluginsOf plugins (parseOperationId opA)).findIdx?
      (fun p => some p.plugin.metadata.id =
        (parseOperationId opA).pluginId) = some (i + 1))
    (hget : (samePhasePluginsOf plugins (parseOperationId opA)).get? i =
      some prevPlugin)
    (hpp : prevPlugin.plugin.metadata.canParallelize = false)
    (hprev : operationId (optStr (parseOperationId opA).distribution)
      prevPlugin.plugin.metadata.id
      (optStr (parseOperationId opA).phase) ∈
      akeys (createNodes plugins options)) :
    operationId (optStr (parseOperationId opA).distribution)
      prevPlugin.plugin.metadata.id
      (optStr (parseOperationId opA).phase) ∈
      depsOf (builtNodes plugins options) opA := by
  unfold builtNodes addAllEdges
  refine foldl_trigger (EdgesWF (createNodes plugins options))
    (fun mm => operationId (optStr (parseOperationId opA).distribution)
      prevPlugin.plugin.metadata.id
      (optStr (parseOperationId opA).phase) ∈ depsOf mm opA)
    (akeys (createNodes plugins options)) _
    (fun mm c _ h => processNode_preserves plugins _ mm c h)
    (fun mm c _ h => processNode_mono plugins mm c _ _ h)
    opA ?_ _ (createNodes_EdgesWF_self plugins options) hopA
  intro mm hmm
  have hkeys : akeys mm = akeys (createNodes plugins options) := hmm.1.1
  have hA_mm : opA ∈ akeys mm := by
    rw [hkeys]
    exact hopA
  obtain ⟨node, hnode⟩ : ∃ n, alookup mm opA = some n := by
    have hs := (alookup_isSome _ _).mpr hA_mm
    cases hl : alookup mm opA
    · rw [hl] at hs
      simp at hs
    · exact ⟨_, rfl⟩
  have hnodeop : node.operation = opLit := by
    have hsh := hmm.1.2 opA
    rw [hopAt] at hsh
    unfold opAt at hsh
    rw [hnode] at hsh
    simpa using hsh
  have hwf1 := addPhaseOrderEdges_preserves _ mm opA (parseOperationId opA)
    hopA hmm
  have hwf2 := addReleaseEdges_preserves _ _ opA (parseOperationId opA)
    hopA hwf1
  have hwf3 := addDeclaredEdges_preserves _ _ opA (parseOperationId opA)
    node hopA hwf2
  unfold processNode
  rw [hnode]
  refine addSequentialEdges_adds plugins _ opA (parseOperationId opA) node
    ?_ i hfind prevPlugin hget hpp ?_ ?_
  · rw [hnodeop]
    exact hnp
  · exact (alookup_isSome _ _).mpr (by rw [hwf3.1.1]; exact hprev)
  · rw [hwf3.1.1]
    exact hopA

theorem builtNodes_seq_edge_UB (plugins : List ResolvedPluginInfo)
    (options : GraphBuildOptions) (hcf : ColonFreeInfos plugins)
    (ph : PhaseId) (d : String)
    (hinc : (phasesToInclude options).contains ph = true)
    (hnd : ((samePhasePluginsOf plugins
      ⟨some d, none, some ph.toString⟩).map
      (fun p => p.plugin.metadata.id)).Nodup)
    (iA iT : Nat) (infoA infoT : ResolvedPluginInfo)
    (hgetA : (samePhasePluginsOf plugins
      ⟨some d, none, some ph.toString⟩).get? iA = some infoA)
    (hgetT : (samePhasePluginsOf plugins
      ⟨some d, none, some ph.toString⟩).get? iT = some infoT)
    (hnodecl : ∀ deps, infoA.plugin.metadata.dependencies = some deps →
      infoT.plugin.metadata.id ∉ deps)
    (hmem : operationId d infoT.plugin.metadata.id ph.toString ∈
      depsOf (builtNodes plugins options)
        (operationId d infoA.plugin.metadata.id ph.toString)) :
    iA = iT + 1 ∧ infoA.plugin.metadata.canParallelize = false ∧
      infoT.plugin.metadata.canParallelize = false := by
  have hSA : infoA ∈ samePhasePluginsOf plugins
      ⟨some d, none, some ph.toString⟩ :=
    List.getElem?_mem (by rw [← List.get?_eq_getElem?]; exact hgetA)
  have hST : infoT ∈ samePhasePluginsOf plugins
      ⟨some d, none, some ph.toString⟩ :=
    List.getElem?_mem (by rw [← List.get?_eq_getElem?]; exact hgetT)
  obtain ⟨hApl, hAd, hAph⟩ :=
    (mem_samePhasePluginsOf_iff plugins d ph infoA).mp hSA
  obtain ⟨hTpl, hTd, hTph⟩ :=
    (mem_samePhasePluginsOf_iff plugins d ph infoT).mp hST
  obtain ⟨hdA, hpA⟩ := hcf infoA hApl
  obtain ⟨hdT, hpT⟩ := hcf infoT hTpl
  have hdcf : ColonFree d := by
    rw [← hAd]
    exact hdA
  have hparseA : parseOperationId (operationId d
      infoA.plugin.metadata.id ph.toString) =
      ⟨some d, some infoA.plugin.metadata.id, some ph.toString⟩ :=
    parseOperationId_operationId hdcf hpA (colonFree_phase ph)
  have hparseT : parseOperationId (operationId d
      infoT.plugin.metadata.id ph.toString) =
      ⟨some d, some infoT.plugin.metadata.id, some ph.toString⟩ :=
    parseOperationId_operationId hdcf hpT (colonFree_phase ph)
  have hkA : operationId d infoA.plugin.metadata.id ph.toString ∈
      akeys (createNodes plugins options) := by
    have := createNodes_key_mem plugins options infoA ph hApl hAph hinc
    rw [hAd] at this
    exact this
  have hndA : ((samePhasePluginsOf plugins
      ⟨some infoA.distribution, none, some ph.toString⟩).map
      (fun p => p.plugin.metadata.id)).Nodup := by
    rw [hAd]
    exact hnd
  have hopU := createNodes_op_unique plugins options hcf infoA hApl ph
    hAph hinc hndA
  rw [hAd] at hopU
  obtain ⟨m, hwfm, hnilm, hdepseq⟩ :=
    builtNodes_depsOf_isolate plugins options _ hkA
  rw [hdepseq] at hmem
  obtain ⟨node, hnode⟩ : ∃ n, alookup m (operationId d
      infoA.plugin.metadata.id ph.toString) = some n := by
    have hs := (alookup_isSome _ _).mpr (by rw [hwfm.1.1]; exact hkA)
    cases hl : alookup m (operationId d infoA.plugin.metadata.id
        ph.toString)
    · rw [hl] at hs
      simp at hs
    · exact ⟨_, rfl⟩
  have hnodeop : node.operation =
      { id := operationId d infoA.plugin.metadata.id ph.toString,
        plugin := infoA.plugin, phase := ph, distribution := d,
        config := infoA.config } := by
    have hsh := hwfm.1.2 (operationId d infoA.plugin.metadata.id
      ph.toString)
    rw [hopU] at hsh
    unfold opAt at hsh
    rw [hnode] at hsh
    simpa using hsh
  have hub := processNode_self_UB plugins m _ _ node hnode hnilm hmem
  rw [hparseA, hparseT] at hub
  have hSeq : samePhasePluginsOf plugins
      ⟨some d, some infoA.plugin.metadata.id, some ph.toString⟩ =
      samePhasePluginsOf plugins ⟨some d, none, some ph.toString⟩ :=
    samePhasePluginsOf_pid_irrel plugins (some d)
      (some infoA.plugin.metadata.id) none (some ph.toString)
  rcases hub with ⟨hb1, hb2, _, hb4⟩ | ⟨hb1, _, hb3⟩ |
    ⟨deps, hdeps, dp, hdp, hx2⟩ |
    ⟨hnpA, i2, prev, hfind2, hget2, hppf, hx2⟩
  · exact (rule1_no_self_phase ph hb1 hb2 hb4).elim
  · exact (rule2_no_self_phase ph hb1 hb3).elim
  · have hdeps2 : infoA.plugin.metadata.dependencies = some deps := by
      rw [hnodeop] at hdeps
      exact hdeps
    have hx2e : operationId d infoT.plugin.metadata.id ph.toString =
        operationId d dp ph.toString := hx2
    have hdpe : infoT.plugin.metadata.id = dp := operationId_inj_mid hx2e
    exact ((hnodecl deps hdeps2) (by rw [hdpe]; exact hdp)).elim
  · have hnpA2 : infoA.plugin.metadata.canParallelize = false := by
      rw [hnodeop] at hnpA
      exact hnpA
    have hcomp : (samePhasePluginsOf plugins
        ⟨some d, some infoA.plugin.metadata.id, some ph.toString⟩).findIdx?
        (fun p => some p.plugin.metadata.id =
          (⟨some d, some infoA.plugin.metadata.id, some ph.toString⟩ :
            ParsedOperationId).pluginId) = some iA := by
      rw [hSeq]
      refine findIdx_map_nodup (fun p => p.plugin.metadata.id) _ hnd iA
        infoA hgetA _ ?_
      intro x
      constructor
      · intro hx
        exact Option.some.inj (of_decide_eq_true hx)
      · intro hx
        exact decide_eq_true (congrArg some hx)
    have hidx : i2 + 1 = iA := Option.some.inj (hfind2.symm.trans hcomp)
    rw [hSeq] at hget2
    have hx2e : operationId d infoT.plugin.metadata.id ph.toString =
        operationId d prev.plugin.metadata.id ph.toString := hx2
    have hpid : infoT.plugin.metadata.id = prev.plugin.metadata.id :=
      operationId_inj_mid hx2e
    have hieq : i2 = iT := get_index_unique (fun p => p.plugin.metadata.id)
      _ hnd i2 iT prev infoT hget2 hgetT hpid.symm
    have hprevT : prev = infoT := by
      rw [hieq, hgetT] at hget2
      exact (Option.some.inj hget2).symm
    refine ⟨by rw [← hidx, hieq], hnpA2, ?_⟩
    rw [← hprevT]
    exact hppf

/-! ## Executor lemmas -/

theorem runOp_fst (acc : List (String × PluginPhaseResult) × List String)
    (op : ExecutionOperation) :
    (runOp acc op).1 = aset acc.1 op.id (opResult op) := by
  unfold runOp opResult
  cases executeOperation op <;> rfl

theorem runOp_snd (acc : List (String × PluginPhaseResult) × List String)
    (op : ExecutionOperation) :
    (runOp acc op).2 =
      if (opResult op).success then acc.2 else acc.2 ++ [op.id] := by
  unfold runOp opResult
  cases h : executeOperation op with
  | ok r => rfl
  | error e => rfl

theorem foldl_runOp_lookup_of_not_mem
    (ops : List ExecutionOperation)
    (st : List (String × PluginPhaseResult) × List String) (k : String)
    (h : ∀ op ∈ ops, op.id ≠ k) :
    alookup (ops.foldl runOp st).1 k = alookup st.1 k := by
  induction ops generalizing st with
  | nil => rfl
  | cons op t ih =>
    rw [List.foldl_cons, ih _ (fun o ho => h o (List.mem_cons_of_mem _ ho)),
      runOp_fst, alookup_aset_ne _ _ _ _ (h op (List.mem_cons_self _ _))]

theorem foldl_runOp_lookup (ops : List ExecutionOperation)
    (st : List (String × PluginPhaseResult) × List String)
    (op : ExecutionOperation)
    (hnd : (ops.map (fun o => o.id)).Nodup) (hop : op ∈ ops) :
    alookup (ops.foldl runOp st).1 op.id = some (opResult op) := by
  induction ops generalizing st with
  | nil => simp at hop
  | cons hd t ih =>
    simp only [List.map_cons, List.nodup_cons] at hnd
    rcases List.mem_cons.mp hop with rfl | hmem
    · rw [List.foldl_cons,
        foldl_runOp_lookup_of_not_mem _ _ _
          (fun o ho hne => hnd.1 (List.mem_map.mpr ⟨o, ho, hne⟩)),
        runOp_fst, alookup_aset_self]
    · exact ih _ hnd.2 hmem

theorem foldl_runOp_failed (ops : List ExecutionOperation)
    (st : List (String × PluginPhaseResult) × List String) :
    (ops.foldl runOp st).2 =
      st.2 ++
        (ops.filter (fun op => !(opResult op).success)).map
          (fun op => op.id) := by
  induction ops generalizing st with
  | nil => simp
  | cons hd t ih =>
    rw [List.foldl_cons, ih]
    by_cases h : (opResult hd).success
    · simp [runOp_snd, h, List.filter_cons]
    · simp only [Bool.not_eq_true] at h
      simp [runOp_snd, h, List.filter_cons]

theorem waves_fold_eq (waves : List ExecutionWave)
    (st : List (String × PluginPhaseResult) × List String) :
    waves.foldl (fun acc wave => wave.operations.foldl runOp acc) st =
      (waves.foldr (fun w acc => w.operations ++ acc) []).foldl runOp st := by
  induction waves generalizing st with
  | nil => rfl
  | cons w ws ih =>
    rw [List.foldl_cons, ih, List.foldr_cons, List.foldl_append]

theorem executeGraph_results (g : ExecutionGraph) :
    (executeGraph g).results = ((allOps g).foldl runOp ([], [])).1 := by
  unfold executeGraph allOps
  rw [waves_fold_eq]

theorem executeGraph_failed (g : ExecutionGraph) :
    (executeGraph g).failed = ((allOps g).foldl runOp ([], [])).2 := by
  unfold executeGraph allOps
  rw [waves_fold_eq]

theorem executeGraph_success (g : ExecutionGraph) :
    (executeGraph g).success = (executeGraph g).failed.isEmpty := by
  unfold executeGraph
  rfl

theorem executeGraph_failed_eq (g : ExecutionGraph) :
    (executeGraph g).failed =
      ((allOps g).filter (fun op => !(opResult op).success)).map
        (fun op => op.id) := by
  rw [executeGraph_failed, foldl_runOp_failed]
  rfl

theorem mem_failed_iff (g : ExecutionGraph)
    (hnd : ((allOps g).map (fun op => op.id)).Nodup)
    (op : ExecutionOperation) (hop : op ∈ allOps g) :
    op.id ∈ (executeGraph g).failed ↔ (opResult op).success = false := by
  rw [executeGraph_failed_eq]
  constructor
  · intro h
    obtain ⟨op2, hop2, hid⟩ := List.mem_map.mp h
    obtain ⟨hmem2, hns⟩ := List.mem_filter.mp hop2
    have : op2 = op := nodup_map_inj hnd hmem2 hop hid
    subst this
    simpa using hns
  · intro h
    exact List.mem_map.mpr
      ⟨op, List.mem_filter.mpr ⟨hop, by simp [h]⟩, rfl⟩

/-- **C5.**  For every graph with distinct operation ids, `executeGraph`
records a result for every operation of every wave (so a failure never
prevents a later wave's operations from being dispatched, and no exception
escapes); an operation whose handler throws is recorded as a failure
result carrying the thrown error text; an operation id is in the failed
list exactly when its recorded result is unsuccessful; and overall success
holds exactly when the failed list is empty. -/
theorem executeGraph_error_handling (g : ExecutionGraph)
    (hnd : ((allOps g).map (fun op => op.id)).Nodup) :
    (∀ op ∈ allOps g,
        alookup (executeGraph g).results op.id = some (opResult op) ∧
        (∀ msg, op.plugin.handler op.phase = some (.throws msg) →
          opResult op =
            { success := false, error := some msg }) ∧
        (op.id ∈ (executeGraph g).failed ↔
          (opResult op).success = false)) ∧
    ((executeGraph g).success = true ↔ (executeGraph g).failed = []) := by
  refine ⟨fun op hop => ⟨?_, ?_, ?_⟩, ?_⟩
  · rw [executeGraph_results]
    exact foldl_runOp_lookup _ _ _ hnd hop
  · intro msg hmsg
    unfold opResult executeOperation
    rw [hmsg]
  · exact mem_failed_iff g hnd op hop
  · rw [executeGraph_success]
    cases h : (executeGraph g).failed <;> simp

/-- **C5 witness.** -/
theorem executeGraph_error_handling_witness :
    (((allOps mixedGraph).map (fun op => op.id)).Nodup) ∧
    ((∀ op ∈ allOps mixedGraph,
        alookup (executeGraph mixedGraph).results op.id =
          some (opResult op) ∧
        (∀ msg, op.plugin.handler op.phase = some (.throws msg) →
          opResult op =
            { success := false, error := some msg }) ∧
        (op.id ∈ (executeGraph mixedGraph).failed ↔
          (opResult op).success = false)) ∧
      ((executeGraph mixedGraph).success = true ↔
        (executeGraph mixedGraph).failed = [])) :=
  ⟨by decide, executeGraph_error_handling mixedGraph (by decide)⟩

/-- **C9.**  An operation whose plugin has no handler for the scheduled
phase produces a successful result carrying a missing-handler warning, and
its id can never appear in the failed list. -/
theorem missing_handler_success (g : ExecutionGraph)
    (hnd : ((allOps g).map (fun op => op.id)).Nodup)
    (op : ExecutionOperation) (hop : op ∈ allOps g)
    (hmiss : op.plugin.handler op.phase = none) :
    executeOperation op =
      .ok { success := true,
            warnings := some ["Plugin " ++ op.plugin.metadata.id ++
              " has no " ++ op.phase.toString ++ " handler"] } ∧
    op.id ∉ (executeGraph g).failed := by
  have hexec : executeOperation op =
      .ok { success := true,
            warnings := some ["Plugin " ++ op.plugin.metadata.id ++
              " has no " ++ op.phase.toString ++ " handler"] } := by
    unfold executeOperation
    rw [hmiss]
  refine ⟨hexec, fun hmem => ?_⟩
  have hres : (opResult op).success = false :=
    (mem_failed_iff g hnd op hop).mp hmem
  unfold opResult at hres
  rw [hexec] at hres
  simp at hres

/-- **C9 witness.** -/
theorem missing_handler_success_witness :
    (((allOps missingHandlerGraph).map (fun op => op.id)).Nodup ∧
      (let op := { id := "m:c:transform", plugin := handlerlessPlugin,
                   phase := .transform, distribution := "m",
                   config := { id := "c" } : ExecutionOperation };
        op ∈ allOps missingHandlerGraph ∧
        op.plugin.handler op.phase = none)) ∧
    (let op := { id := "m:c:transform", plugin := handlerlessPlugin,
                 phase := .transform, distribution := "m",
                 config := { id := "c" } : ExecutionOperation };
      executeOperation op =
        .ok { success := true,
              warnings := some ["Plugin " ++ op.plugin.metadata.id ++
                " has no " ++ op.phase.toString ++ " handler"] } ∧
      op.id ∉ (executeGraph missingHandlerGraph).failed) :=
  ⟨⟨by decide, by decide, by decide⟩,
    missing_handler_success missingHandlerGraph (by decide) _ (by decide)
      (by decide)⟩

/-! ## Plugin loader proofs -/

/-- **C10.**  When the underlying load of a plugin id fails, `loadPlugin`
returns the loader state unchanged — in particular the in-flight promise
cached for that id has been removed again before the error is rethrown —
so a subsequent call with the same id performs the load again (and, when
that retry succeeds, registers the plugin); and in general a registry
entry can only ever be created by a load that returned successfully. -/
theorem loadPlugin_failure_cache (st : LoaderState)
    (doLoad doLoad2 : String → Except PluginError JsVal) (id : String)
    (e : PluginError) (p : JsVal)
    (hreg : alookup st.registry id = none)
    (hcache : alookup st.loadPromises id = none)
    (herr : doLoad id = .error e)
    (hok : doLoad2 id = .ok p) :
    loadPlugin st doLoad id = (st, .error e) ∧
    loadPlugin (loadPlugin st doLoad id).1 doLoad2 id =
      ({ registry := aset st.registry id p,
         loadPromises := aset st.loadPromises id (.ok p) }, .ok p) ∧
    (∀ st2 dl i k v,
        alookup (loadPlugin st2 dl i).1.registry k = some v →
        alookup st2.registry k = some v ∨
          (loadPlugin st2 dl i).2 = .ok v) := by
  obtain ⟨reg, lp⟩ := st
  simp only at hreg hcache
  have hfail : loadPlugin ⟨reg, lp⟩ doLoad id = (⟨reg, lp⟩, .error e) := by
    unfold loadPlugin
    rw [hreg, hcache, herr]
    simp only
    rw [aerase_aset_of_not_mem _ _ _ ((alookup_eq_none _ _).mp hcache)]
  refine ⟨hfail, ?_, ?_⟩
  · rw [hfail]
    unfold loadPlugin
    rw [hreg, hcache, hok]
  · intro st2 dl i k v hv
    unfold loadPlugin at hv ⊢
    cases hr : alookup st2.registry i with
    | some r =>
      rw [hr] at hv
      exact Or.inl hv
    | none =>
      rw [hr] at hv
      cases hc : alookup st2.loadPromises i with
      | some pr =>
        rw [hc] at hv
        exact Or.inl hv
      | none =>
        rw [hc] at hv
        cases hl : dl i with
        | ok plugin =>
          rw [hl] at hv
          have hv2 : alookup (aset st2.registry i plugin) k = some v := hv
          by_cases hk : i = k
          · subst hk
            rw [alookup_aset_self] at hv2
            exact Or.inr (by rw [Option.some.injEq] at hv2; rw [hv2])
          · rw [alookup_aset_ne _ _ _ _ hk] at hv2
            exact Or.inl hv2
        | error err =>
          rw [hl] at hv
          exact Or.inl hv

/-- **C10 witness.** -/
theorem loadPlugin_failure_cache_witness :
    (alookup (LoaderState.registry ⟨[], []⟩) "x" = none ∧
      alookup (LoaderState.loadPromises ⟨[], []⟩) "x" = none ∧
      (fun _ => (.error ⟨"nope", "x"⟩ : Except PluginError JsVal)) "x" =
        .error ⟨"nope", "x"⟩ ∧
      (fun _ => (.ok (.vobj []) : Except PluginError JsVal)) "x" =
        .ok (.vobj [])) ∧
    (loadPlugin ⟨[], []⟩
        (fun _ => .error ⟨"nope", "x"⟩) "x" =
          (⟨[], []⟩, .error ⟨"nope", "x"⟩) ∧
      loadPlugin
          (loadPlugin ⟨[], []⟩ (fun _ => .error ⟨"nope", "x"⟩) "x").1
          (fun _ => .ok (.vobj [])) "x" =
        ({ registry := aset [] "x" (.vobj []),
           loadPromises := aset [] "x" (.ok (.vobj [])) }, .ok (.vobj [])) ∧
      (∀ st2 dl i k v,
          alookup (loadPlugin st2 dl i).1.registry k = some v →
          alookup st2.registry k = some v ∨
            (loadPlugin st2 dl i).2 = .ok v)) :=
  ⟨⟨rfl, rfl, rfl, rfl⟩,
    loadPlugin_failure_cache ⟨[], []⟩ _ _ "x" ⟨"nope", "x"⟩ (.vobj [])
      rfl rfl rfl rfl⟩

/-- **C6 counterexample.**  The loader accepts an external module whose
plugin object has an empty `name` and a non-callable `setup` field: the
claimed failure ("non-empty id, name and version" and "every present
phase field must be callable") does not occur — validation only requires
`id` to be non-empty and only inspects the three build-phase fields. -/
theorem doLoadPlugin_accepts_invalid :
    jsHas invalidNamePlugin "setup" = true ∧
    jsIsFunction (jsGet invalidNamePlugin "setup") = false ∧
    jsGet (jsGet invalidNamePlugin "metadata") "name" = .vstr "" ∧
    isValidPlugin invalidNamePlugin = true ∧
    doLoadPlugin (fun _ => none) (fun _ => .ok invalidNamePlugin)
      "ext-plugin" = .ok invalidNamePlugin :=
  ⟨rfl, rfl, rfl, rfl, rfl⟩

/-- **C6 (amended).**  For a plugin id resolved through the external
module loader, the loaded object is accepted exactly when it is an object
whose `metadata.id` is a non-empty string, whose `metadata.name` and
`metadata.version` are strings (possibly empty), and whose *build-phase*
fields (`preprocess`, `transform`, `postprocess`), where present, are
callable; an object failing this validation makes `doLoadPlugin` fail
with a `PluginError` carrying the offending plugin id. -/
theorem doLoadPlugin_validation (builtins : String → Option JsVal)
    (importFn : String → Except String JsVal) (id : String) (m : JsVal)
    (hnb : (if isBuiltinPlugin id then builtins id else none) = none)
    (him : importFn id = .ok m) :
    (isValidPlugin (moduleDefault m) = true →
      doLoadPlugin builtins importFn id = .ok (moduleDefault m)) ∧
    (isValidPlugin (moduleDefault m) = false →
      ∃ err, doLoadPlugin builtins importFn id = .error err ∧
        err.pluginId = id) ∧
    (∀ v, isValidPlugin v = true ↔
      ((∃ fields, v = .vobj fields) ∧
        (∃ s, jsGet (jsGet v "metadata") "id" = .vstr s ∧ s.length > 0) ∧
        (∃ s, jsGet (jsGet v "metadata") "name" = .vstr s) ∧
        (∃ s, jsGet (jsGet v "metadata") "version" = .vstr s) ∧
        (∀ ph ∈ ["preprocess", "transform", "postprocess"],
          jsHas v ph = true → jsIsFunction (jsGet v ph) = true))) := by
  refine ⟨?_, ?_, ?_⟩
  · intro hvalid
    unfold doLoadPlugin
    rw [hnb, him]
    simp only [hvalid, if_true]
  · intro hinvalid
    unfold doLoadPlugin
    rw [hnb, him]
    simp only [hinvalid]
    exact ⟨_, rfl, rfl⟩
  · intro v
    constructor
    · intro hv
      unfold isValidPlugin at hv
      by_cases h1 : !(jsTruthy v) || !(jsTypeofObject v)
      · rw [if_pos h1] at hv
        exact absurd hv (by simp)
      · rw [if_neg h1] at hv
        simp at h1
        obtain ⟨fields, hvf⟩ : ∃ fields, v = .vobj fields := by
          cases v <;> simp [jsTruthy, jsTypeofObject] at h1 <;>
            exact ⟨_, rfl⟩
        by_cases h2 : validatePluginMetadata (jsGet v "metadata")
        · rw [if_neg (by simp [h2])] at hv
          unfold validatePluginMetadata at h2
          by_cases h3 : !(jsTruthy (jsGet v "metadata")) ||
              !(jsTypeofObject (jsGet v "metadata"))
          · rw [if_pos h3] at h2
            simp at h2
          · rw [if_neg h3] at h2
            simp only [Bool.and_eq_true] at h2
            obtain ⟨⟨⟨hid1, hid2⟩, hname⟩, hversion⟩ := h2
            refine ⟨⟨fields, hvf⟩, ?_, ?_, ?_, ?_⟩
            · cases hmid : jsGet (jsGet v "metadata") "id" <;>
                rw [hmid] at hid1 hid2 <;>
                simp [jsIsString] at hid1
              rename_i s
              exact ⟨s, rfl, by simpa using hid2⟩
            · cases hmn : jsGet (jsGet v "metadata") "name" <;>
                rw [hmn] at hname <;> simp [jsIsString] at hname
              exact ⟨_, rfl⟩
            · cases hmv : jsGet (jsGet v "metadata") "version" <;>
                rw [hmv] at hversion <;> simp [jsIsString] at hversion
              exact ⟨_, rfl⟩
            · intro ph hph hhas
              have := List.all_eq_true.mp hv ph hph
              simpa [hhas] using this
        · rw [if_pos (by simp [h2])] at hv
          exact absurd hv (by simp)
    · rintro ⟨⟨fields, rfl⟩, ⟨sid, hsid, hsidlen⟩, ⟨sn, hsn⟩,
        ⟨sv, hsv⟩, hphases⟩
      unfold isValidPlugin
      rw [if_neg (by simp [jsTruthy, jsTypeofObject])]
      have hmeta : validatePluginMetadata
          (jsGet (JsVal.vobj fields) "metadata") = true := by
        obtain ⟨mf, hmf⟩ : ∃ mf,
            jsGet (JsVal.vobj fields) "metadata" = .vobj mf := by
          cases hm : jsGet (JsVal.vobj fields) "metadata" <;>
            rw [hm] at hsid <;> simp [jsGet] at hsid <;> exact ⟨_, rfl⟩
        unfold validatePluginMetadata
        rw [hmf]
        rw [hmf] at hsid hsn hsv
        rw [if_neg (by simp [jsTruthy, jsTypeofObject])]
        simp [hsid, hsn, hsv, jsIsString, hsidlen]
      rw [if_neg (by simp [hmeta])]
      refine List.all_eq_true.mpr (fun ph hph => ?_)
      by_cases hhas : jsHas (JsVal.vobj fields) ph
      · simpa [hhas] using hphases ph hph hhas
      · simp [Bool.eq_false_iff.mpr hhas]

/-! ## Result-folding lemmas -/

theorem foldl_add_getD (l : List (Option PluginPhaseResult)) (a : Nat) :
    l.foldl (fun sum r => sum + (r.bind (fun x => x.durationMs)).getD 0) a =
      a + (l.map (fun r => (r.bind (fun x => x.durationMs)).getD 0)).sum := by
  induction l generalizing a with
  | nil => simp
  | cons hd t ih =>
    rw [List.foldl_cons, ih]
    simp [Nat.add_assoc]

theorem find?_map_some (p : Option PluginPhaseResult → Bool)
    (l : List PluginPhaseResult) :
    (l.map some).find? p = (l.find? (fun x => p (some x))).map some := by
  induction l with
  | nil => rfl
  | cons hd t ih =>
    by_cases h : p (some hd)
    · simp [List.find?_cons, h]
    · simp only [Bool.not_eq_true] at h
      simp [List.find?_cons, h, ih]

theorem flatMap_map_getD (f : PluginPhaseResult → Option (List String))
    (l : List PluginPhaseResult) :
    ((l.map some).flatMap (fun r => (r.bind f).getD [])) =
      l.flatMap (fun x => (f x).getD []) := by
  induction l with
  | nil => rfl
  | cons hd t ih =>
    rw [List.map_cons, List.flatMap_cons, List.flatMap_cons, ih]
    rfl

theorem all_map_optSuccess (l : List PluginPhaseResult) :
    (l.map some).all optSuccess = l.all (fun r => r.success) := by
  induction l with
  | nil => rfl
  | cons hd t ih =>
    rw [List.map_cons, List.all_cons, List.all_cons, ih]
    rfl

theorem aggregatePhase_spec (graph : ExecutionGraph)
    (gres : GraphExecutionResult) (distName : String) (phase : PhaseId)
    (rs : List PluginPhaseResult)
    (hne : phaseOpsOf graph distName phase ≠ [])
    (hrs : (phaseOpsOf graph distName phase).map
        (fun op => alookup gres.results op.id) = rs.map some) :
    aggregatePhase graph gres distName phase = some
      { success := rs.all (fun r => r.success),
        warnings :=
          if (rs.flatMap (fun r => r.warnings.getD [])).length > 0 then
            some (rs.flatMap (fun r => r.warnings.getD [])) else none,
        affectedFiles :=
          if (rs.flatMap (fun r => r.affectedFiles.getD [])).length > 0 then
            some (rs.flatMap (fun r => r.affectedFiles.getD [])) else none,
        durationMs :=
          some ((rs.map (fun r => r.durationMs.getD 0)).sum),
        error := (rs.find? (fun r => !r.success)).bind
          (fun r => r.error) } := by
  unfold aggregatePhase
  rw [if_neg (by simpa using hne), hrs]
  have h1 : (rs.map some).all optSuccess = rs.all (fun r => r.success) :=
    all_map_optSuccess rs
  have h2 : ((rs.map some).find? (fun r => !optSuccess r)).bind
      (fun r => r.bind (fun x => x.error)) =
      (rs.find? (fun r => !r.success)).bind (fun r => r.error) := by
    rw [find?_map_some]
    show ((rs.find? (fun x => !x.success)).map some).bind
      (fun r => r.bind (fun x => x.error)) = _
    cases rs.find? (fun x => !x.success) <;> rfl
  have h3 : ((rs.map some).flatMap
      (fun r => (r.bind (fun x => x.warnings)).getD [])) =
      rs.flatMap (fun r => r.warnings.getD []) :=
    flatMap_map_getD (fun x => x.warnings) rs
  have h4 : ((rs.map some).flatMap
      (fun r => (r.bind (fun x => x.affectedFiles)).getD [])) =
      rs.flatMap (fun r => r.affectedFiles.getD []) :=
    flatMap_map_getD (fun x => x.affectedFiles) rs
  have h5 : (rs.map some).foldl
      (fun sum r => sum + (r.bind (fun x => x.durationMs)).getD 0) 0 =
      (rs.map (fun r => r.durationMs.getD 0)).sum := by
    rw [foldl_add_getD, List.map_map]
    simp [Function.comp_def]
  simp only [h1, h2, h3, h4, h5]

theorem aggregateDistribution_fold (graph : ExecutionGraph)
    (gres : GraphExecutionResult) (distName : String)
    (l : List PhaseId)
    (acc : List (PhaseId × PluginPhaseResult)) (b : Bool) (n : Nat) :
    (l.foldl
      (fun (st : List (PhaseId × PluginPhaseResult) × Bool × Nat) phase =>
        match aggregatePhase graph gres distName phase with
        | none => st
        | some pr =>
          (st.1 ++ [(phase, pr)], (st.2.1 && pr.success),
           st.2.2 + pr.durationMs.getD 0))
      (acc, b, n)).1 =
      acc ++ l.filterMap
        (fun ph => (aggregatePhase graph gres distName ph).map
          (fun pr => (ph, pr))) := by
  induction l generalizing acc b n with
  | nil => simp
  | cons hd t ih =>
    rw [List.foldl_cons, List.filterMap_cons]
    cases hagg : aggregatePhase graph gres distName hd with
    | none => simpa using ih acc b n
    | some pr => simpa using ih (acc ++ [(hd, pr)]) _ _

theorem aggregateDistribution_phases (graph : ExecutionGraph)
    (gres : GraphExecutionResult) (distName : String) :
    (aggregateDistribution graph gres distName).phases =
      foldPhaseOrder.filterMap
        (fun ph => (aggregatePhase graph gres distName ph).map
          (fun pr => (ph, pr))) := by
  unfold aggregateDistribution
  exact aggregateDistribution_fold graph gres distName foldPhaseOrder [] true 0

theorem mem_aggregateDistribution_phases (graph : ExecutionGraph)
    (gres : GraphExecutionResult) (distName : String) (phase : PhaseId)
    (res : PluginPhaseResult) :
    (phase, res) ∈ (aggregateDistribution graph gres distName).phases ↔
      aggregatePhase graph gres distName phase = some res := by
  rw [aggregateDistribution_phases]
  rw [List.mem_filterMap]
  constructor
  · rintro ⟨ph, hmem, hmap⟩
    cases hagg : aggregatePhase graph gres distName ph <;>
      rw [hagg] at hmap <;> simp at hmap
    obtain ⟨h1, h2⟩ := hmap
    subst h1
    rw [hagg, h2]
  · intro hagg
    exact ⟨phase, by cases phase <;> decide, by rw [hagg]; rfl⟩

theorem alookup_map_self {α : Type} (l : List String) (f : String → α)
    (k : String) (hmem : k ∈ l) (hnd : l.Nodup) :
    alookup (l.map (fun d => (d, f d))) k = some (f k) := by
  induction l with
  | nil => simp at hmem
  | cons hd t ih =>
    rw [List.map_cons]
    rcases List.mem_cons.mp hmem with rfl | hmem2
    · simp [alookup]
    · rw [List.nodup_cons] at hnd
      have : hd ≠ k := fun h => hnd.1 (h ▸ hmem2)
      simp only [alookup, if_neg this]
      exact ih hmem2 hnd.2

/-- **C8.**  The folding stage of `runPipelineGraph` produces, for each
distribution and each phase with at least one operation whose results are
all present, a phase entry whose success is the conjunction of the
operation successes, whose duration is the sum of the operation durations,
whose warnings and affected-files lists are the concatenations over the
operations (with an empty concatenation stored as an absent field), and
whose error is the error message of the first failing operation's
result. -/
theorem runPipelineGraph_fold (graph : ExecutionGraph)
    (gres : GraphExecutionResult) (distNames : List String)
    (distName : String) (phase : PhaseId) (rs : List PluginPhaseResult)
    (hmem : distName ∈ distNames) (hnd : distNames.Nodup)
    (hne : phaseOpsOf graph distName phase ≠ [])
    (hrs : (phaseOpsOf graph distName phase).map
        (fun op => alookup gres.results op.id) = rs.map some) :
    alookup (foldGraphResults graph gres distNames) distName =
      some (aggregateDistribution graph gres distName) ∧
    (phase,
      { success := rs.all (fun r => r.success),
        error := (rs.find? (fun r => !r.success)).bind (fun r => r.error),
        warnings :=
          if (rs.flatMap (fun r => r.warnings.getD [])).length > 0 then
            some (rs.flatMap (fun r => r.warnings.getD [])) else none,
        affectedFiles :=
          if (rs.flatMap (fun r => r.affectedFiles.getD [])).length > 0 then
            some (rs.flatMap (fun r => r.affectedFiles.getD [])) else none,
        durationMs :=
          some ((rs.map (fun r => r.durationMs.getD 0)).sum)
        : PluginPhaseResult }) ∈
      (aggregateDistribution graph gres distName).phases :=
  ⟨alookup_map_self distNames _ distName hmem hnd,
    (mem_aggregateDistribution_phases graph gres distName phase _).mpr
      (aggregatePhase_spec graph gres distName phase rs hne hrs)⟩

/-- **C8 witness.** -/
theorem runPipelineGraph_fold_witness :
    (("n" : String) ∈ ["n"] ∧ (["n"] : List String).Nodup ∧
      phaseOpsOf mixedGraph "n" PhaseId.transform ≠ [] ∧
      (phaseOpsOf mixedGraph "n" PhaseId.transform).map
          (fun op => alookup (executeGraph mixedGraph).results op.id) =
        ([ { success := false, error := some "boom" },
           { success := true, durationMs := some 5 },
           { success := true,
             warnings := some ["Plugin c has no transform handler"] } ]
          : List PluginPhaseResult).map some) ∧
    (alookup
        (foldGraphResults mixedGraph (executeGraph mixedGraph) ["n"])
        "n" =
      some (aggregateDistribution mixedGraph (executeGraph mixedGraph)
        "n") ∧
      (PhaseId.transform,
        { success :=
            ([ { success := false, error := some "boom" },
               { success := true, durationMs := some 5 },
               { success := true,
                 warnings := some ["Plugin c has no transform handler"] } ]
              : List PluginPhaseResult).all (fun r => r.success),
          error :=
            (([ { success := false, error := some "boom" },
                { success := true, durationMs := some 5 },
                { success := true,
                  warnings := some ["Plugin c has no transform handler"] } ]
               : List PluginPhaseResult).find?
                (fun r => !r.success)).bind (fun r => r.error),
          warnings :=
            if (([ { success := false, error := some "boom" },
                   { success := true, durationMs := some 5 },
                   { success := true,
                     warnings :=
                       some ["Plugin c has no transform handler"] } ]
                  : List PluginPhaseResult).flatMap
                    (fun r => r.warnings.getD [])).length > 0 then
              some (([ { success := false, error := some "boom" },
                       { success := true, durationMs := some 5 },
                       { success := true,
                         warnings :=
                           some ["Plugin c has no transform handler"] } ]
                      : List PluginPhaseResult).flatMap
                        (fun r => r.warnings.getD [])) else none,
          affectedFiles :=
            if (([ { success := false, error := some "boom" },
                   { success := true, durationMs := some 5 },
                   { success := true,
                     warnings :=
                       some ["Plugin c has no transform handler"] } ]
                  : List PluginPhaseResult).flatMap
                    (fun r => r.affectedFiles.getD [])).length > 0 then
              some (([ { success := false, error := some "boom" },
                       { success := true, durationMs := some 5 },
                       { success := true,
                         warnings :=
                           some ["Plugin c has no transform handler"] } ]
                      : List PluginPhaseResult).flatMap
                        (fun r => r.affectedFiles.getD [])) else none,
          durationMs :=
            some ((([ { success := false, error := some "boom" },
                      { success := true, durationMs := some 5 },
                      { success := true,
                        warnings :=
                          some ["Plugin c has no transform handler"] } ]
                     : List PluginPhaseResult).map
                       (fun r => r.durationMs.getD 0)).sum)
          : PluginPhaseResult }) ∈
        (aggregateDistribution mixedGraph (executeGraph mixedGraph)
          "n").phases) :=
  ⟨⟨by decide, by decide, by decide, by decide⟩,
    runPipelineGraph_fold mixedGraph (executeGraph mixedGraph) ["n"] "n"
      PhaseId.transform _ (by decide) (by decide) (by decide) (by decide)⟩

/-- **C6 witness** (for the amended theorem). -/
theorem doLoadPlugin_validation_witness :
    ((if isBuiltinPlugin "bad" then (fun _ => none : String → Option JsVal)
        "bad" else none) = none ∧
      (fun _ => (.ok noMetadataModule : Except String JsVal)) "bad" =
        .ok noMetadataModule) ∧
    ((isValidPlugin (moduleDefault noMetadataModule) = true →
        doLoadPlugin (fun _ => none)
          (fun _ => .ok noMetadataModule) "bad" =
            .ok (moduleDefault noMetadataModule)) ∧
      (isValidPlugin (moduleDefault noMetadataModule) = false →
        ∃ err, doLoadPlugin (fun _ => none)
            (fun _ => .ok noMetadataModule) "bad" = .error err ∧
          err.pluginId = "bad") ∧
      (∀ v, isValidPlugin v = true ↔
        ((∃ fields, v = .vobj fields) ∧
          (∃ s, jsGet (jsGet v "metadata") "id" = .vstr s ∧
            s.length > 0) ∧
          (∃ s, jsGet (jsGet v "metadata") "name" = .vstr s) ∧
          (∃ s, jsGet (jsGet v "metadata") "version" = .vstr s) ∧
          (∀ ph ∈ ["preprocess", "transform", "postprocess"],
            jsHas v ph = true → jsIsFunction (jsGet v ph) = true)))) :=
  ⟨⟨rfl, rfl⟩, doLoadPlugin_validation _ _ "bad" noMetadataModule rfl rfl⟩

/-! ## Graph-builder claims -/

/-- **C1.**  In every graph returned by `buildExecutionGraph`, the waves
partition the operation set — the flattened wave ids are duplicate-free
and coincide with the node set recorded in the edge map — and for every
dependency edge (`a` depends on `b`), the wave index of `b` is strictly
smaller than the wave index of `a` (wave indices equal wave positions,
counted from zero). -/
theorem graph_waves_partition (plugins : List ResolvedPluginInfo)
    (options : GraphBuildOptions) (g : ExecutionGraph)
    (hok : buildExecutionGraph plugins options = .ok g) :
    (waveIds g.waves).Nodup ∧
    (∀ a ∈ g.edges.map Prod.fst, a ∈ waveIds g.waves) ∧
    (∀ a ∈ waveIds g.waves, a ∈ g.edges.map Prod.fst) ∧
    (∀ p ∈ g.edges, ∀ b ∈ p.2,
      waveIdxOf g.waves b < waveIdxOf g.waves p.1) ∧
    (∀ k, k < g.waves.length → (g.waves.getD k ⟨0, []⟩).index = k) := by
  obtain ⟨hcw, hedges, _, _⟩ := buildExecutionGraph_ok plugins options g hok
  have hwf := builtNodes_WF plugins options
  obtain ⟨h1, h2, h3, h4, h5⟩ :=
    computeWaves_spec (builtNodes plugins options) hwf g.waves hcw
  refine ⟨h1, ?_, ?_, ?_, h5⟩
  · intro a ha
    rw [hedges, map_fst_pair] at ha
    exact (h2 a).mpr ha
  · intro a ha
    rw [hedges, map_fst_pair]
    exact (h2 a).mp ha
  · intro p hp b hb
    rw [hedges] at hp
    obtain ⟨e, he, hpe⟩ := List.mem_map.mp hp
    have hlook : alookup (builtNodes plugins options) e.1 = some e.2 :=
      mem_alookup_of_nodup hwf.keys_nodup he
    have hdeps : depsOf (builtNodes plugins options) e.1 =
        e.2.dependencies := by
      unfold depsOf
      rw [hlook]
    have hbdeps : b ∈ depsOf (builtNodes plugins options) e.1 := by
      rw [hdeps]
      rw [← hpe] at hb
      exact hb
    have hamem : e.1 ∈ akeys (builtNodes plugins options) :=
      (alookup_isSome _ _).mp (by rw [hlook]; rfl)
    have hbmem : b ∈ akeys (builtNodes plugins options) :=
      hwf.deps_sub e.1 hbdeps
    have := h4 e.1 b hamem hbdeps hbmem
    rw [← hpe]
    exact this

/-- **C1 witness.** -/
theorem graph_waves_partition_witness :
    (buildExecutionGraph partitionPlugins nodeOpts = .ok partitionGraph) ∧
    ((waveIds partitionGraph.waves).Nodup ∧
      (∀ a ∈ partitionGraph.edges.map Prod.fst,
        a ∈ waveIds partitionGraph.waves) ∧
      (∀ a ∈ waveIds partitionGraph.waves,
        a ∈ partitionGraph.edges.map Prod.fst) ∧
      (∀ p ∈ partitionGraph.edges, ∀ b ∈ p.2,
        waveIdxOf partitionGraph.waves b <
          waveIdxOf partitionGraph.waves p.1) ∧
      (∀ k, k < partitionGraph.waves.length →
        (partitionGraph.waves.getD k ⟨0, []⟩).index = k)) :=
  ⟨by rfl,
    graph_waves_partition partitionPlugins nodeOpts partitionGraph
      (by rfl)⟩

/-- **C2.**  If the dependency graph assembled by the builder contains a
cycle, `buildExecutionGraph` throws a `GraphError` and returns no partial
graph (the result is an `error`, never an `ok` graph); and every graph it
does return has `hasCycles = false`. -/
theorem build_cycle_error (plugins : List ResolvedPluginInfo)
    (options : GraphBuildOptions) :
    (hasDepCycle (builtNodes plugins options) →
      ∃ e : GraphError, buildExecutionGraph plugins options = .error e) ∧
    (∀ g, buildExecutionGraph plugins options = .ok g →
      g.hasCycles = false) := by
  constructor
  · rintro ⟨x, htc⟩
    cases hres : buildExecutionGraph plugins options with
    | error e => exact ⟨e, rfl⟩
    | ok g =>
      exfalso
      obtain ⟨hcw, _, _, _⟩ :=
        buildExecutionGraph_ok plugins options g hres
      have hwf := builtNodes_WF plugins options
      obtain ⟨_, _, _, h4, _⟩ :=
        computeWaves_spec (builtNodes plugins options) hwf g.waves hcw
      have hdec : ∀ a b : String,
          Relation.TransGen (depEdge (builtNodes plugins options)) a b →
          waveIdxOf g.waves b < waveIdxOf g.waves a := by
        intro a b htg
        induction htg with
        | single h =>
          exact h4 _ _ (depEdge_mem_keys h) h
            (hwf.deps_sub _ h)
        | tail hab hbc ih =>
          exact lt_trans
            (h4 _ _ (depEdge_mem_keys hbc) hbc (hwf.deps_sub _ hbc)) ih
      exact lt_irrefl _ (hdec x x htc)
  · intro g hok
    exact (buildExecutionGraph_ok plugins options g hok).2.2.1

/-- **C2 witness.**  Two plugins of the same phase and distribution each
declaring a dependency on the other form a cycle, and the build fails. -/
theorem build_cycle_error_witness :
    hasDepCycle (builtNodes mutualDepPlugins nodeOpts) ∧
    (∃ e : GraphError,
      buildExecutionGraph mutualDepPlugins nodeOpts = .error e) := by
  have hcyc : hasDepCycle (builtNodes mutualDepPlugins nodeOpts) :=
    ⟨"node:b:transform",
      Relation.TransGen.tail
        (Relation.TransGen.single
          (show depEdge (builtNodes mutualDepPlugins nodeOpts)
            "node:b:transform" "node:c:transform" by decide))
        (show depEdge (builtNodes mutualDepPlugins nodeOpts)
          "node:c:transform" "node:b:transform" by decide)⟩
  exact ⟨hcyc, (build_cycle_error mutualDepPlugins nodeOpts).1 hcyc⟩

/-- **C3.**  In every graph returned by `buildExecutionGraph`, within each
distribution every transform operation carries a dependency edge on every
preprocess operation of that distribution (across all plugins), and every
postprocess operation on every transform operation.  Plugin ids and
distribution names are assumed colon-free so that operation ids parse back
to their components, and both phases must be requested by the build
options (otherwise the operations do not exist). -/
theorem phase_barrier_edges (plugins : List ResolvedPluginInfo)
    (options : GraphBuildOptions) (g : ExecutionGraph)
    (hok : buildExecutionGraph plugins options = .ok g)
    (hcf : ColonFreeInfos plugins)
    (info1 info2 : ResolvedPluginInfo) (h1 : info1 ∈ plugins)
    (h2 : info2 ∈ plugins)
    (hdist : info2.distribution = info1.distribution)
    (phA phB : PhaseId)
    (hpair : (phA = PhaseId.transform ∧ phB = PhaseId.preprocess) ∨
      (phA = PhaseId.postprocess ∧ phB = PhaseId.transform))
    (hphA : phA ∈ getPluginPhases info1.plugin)
    (hphB : phB ∈ getPluginPhases info2.plugin)
    (hincA : (phasesToInclude options).contains phA = true)
    (hincB : (phasesToInclude options).contains phB = true) :
    operationId info1.distribution info2.plugin.metadata.id phB.toString ∈
      (alookup g.edges (operationId info1.distribution
        info1.plugin.metadata.id phA.toString)).getD [] := by
  rcases hpair with ⟨rfl, rfl⟩ | ⟨rfl, rfl⟩
  · rw [edges_lookup_getD plugins options g hok]
    exact builtNodes_phase_edge plugins options hcf info1 info2 h1 h2 hdist
      PhaseId.transform PhaseId.preprocess (by decide) (by decide)
      (by decide) hphA hphB hincA hincB
  · rw [edges_lookup_getD plugins options g hok]
    exact builtNodes_phase_edge plugins options hcf info1 info2 h1 h2 hdist
      PhaseId.postprocess PhaseId.transform (by decide) (by decide)
      (by decide) hphA hphB hincA hincB

/-- **C3 witness.** -/
theorem phase_barrier_edges_witness :
    operationId "node" "a" "preprocess" ∈
      (alookup partitionGraph.edges
        (operationId "node" "a" "transform")).getD [] :=
  phase_barrier_edges partitionPlugins nodeOpts partitionGraph (by rfl)
    (by decide)
    { plugin := twoPhasePlugin, config := { id := "a" },
      distribution := "node" }
    { plugin := twoPhasePlugin, config := { id := "a" },
      distribution := "node" }
    (List.mem_singleton.mpr rfl) (List.mem_singleton.mpr rfl) rfl
    PhaseId.transform PhaseId.preprocess (Or.inl ⟨rfl, rfl⟩)
    (by decide) (by decide) (by decide) (by decide)

/-- **C4.**  In every graph returned by `buildExecutionGraph`, every
release operation of a distribution carries a dependency edge on every
build-phase operation of the same distribution present in the graph
(colon-free names; both phases requested by the options). -/
theorem release_depends_on_build (plugins : List ResolvedPluginInfo)
    (options : GraphBuildOptions) (g : ExecutionGraph)
    (hok : buildExecutionGraph plugins options = .ok g)
    (hcf : ColonFreeInfos plugins)
    (info1 info2 : ResolvedPluginInfo) (h1 : info1 ∈ plugins)
    (h2 : info2 ∈ plugins)
    (hdist : info2.distribution = info1.distribution)
    (phB : PhaseId) (hB : phB ∈ BUILD_PHASE_IDS)
    (hph1 : PhaseId.release ∈ getPluginPhases info1.plugin)
    (hphB : phB ∈ getPluginPhases info2.plugin)
    (hinc1 : (phasesToInclude options).contains PhaseId.release = true)
    (hincB : (phasesToInclude options).contains phB = true) :
    operationId info1.distribution info2.plugin.metadata.id phB.toString ∈
      (alookup g.edges (operationId info1.distribution
        info1.plugin.metadata.id PhaseId.release.toString)).getD [] := by
  rw [edges_lookup_getD plugins options g hok]
  refine builtNodes_release_edge plugins options hcf info1 info2 h1 h2 hdist
    phB ?_ hph1 hphB hinc1 hincB
  simp only [BUILD_PHASE_IDS, List.mem_cons, List.not_mem_nil,
    or_false] at hB
  rcases hB with rfl | rfl | rfl <;> decide

/-- **C4 witness.** -/
theorem release_depends_on_build_witness :
    operationId "node" "r" "transform" ∈
      (alookup releaseGraph.edges
        (operationId "node" "r" "release")).getD [] :=
  release_depends_on_build releasePlugins nodeOpts releaseGraph (by rfl)
    (by decide)
    { plugin := releasePlugin, config := { id := "r" },
      distribution := "node" }
    { plugin := releasePlugin, config := { id := "r" },
      distribution := "node" }
    (List.mem_singleton.mpr rfl) (List.mem_singleton.mpr rfl) rfl
    PhaseId.transform (by decide) (by decide) (by decide) (by decide)
    (by decide)

/-- **C7.**  Within the ordered subset of plugins implementing the same
phase for the same distribution, a non-parallelizable plugin's operation
gains a dependency edge on its immediate predecessor's operation exactly
when that predecessor is itself non-parallelizable (absent an explicitly
declared dependency between the two); and when a parallelizable plugin
sits between two non-parallelizable ones, no ordering edge in either
direction connects the two outer operations.  Names are assumed
colon-free, the requested phase included, and plugin ids unique within
the subset. -/
theorem canParallelize_chaining (plugins : List ResolvedPluginInfo)
    (options : GraphBuildOptions) (g : ExecutionGraph)
    (hok : buildExecutionGraph plugins options = .ok g)
    (hcf : ColonFreeInfos plugins)
    (ph : PhaseId) (d : String)
    (hinc : (phasesToInclude options).contains ph = true)
    (hnd : ((samePhasePluginsOf plugins
      ⟨some d, none, some ph.toString⟩).map
      (fun p => p.plugin.metadata.id)).Nodup) :
    (∀ i infoB infoA,
      (samePhasePluginsOf plugins ⟨some d, none, some ph.toString⟩).get?
        i = some infoB →
      (samePhasePluginsOf plugins ⟨some d, none, some ph.toString⟩).get?
        (i + 1) = some infoA →
      infoA.plugin.metadata.canParallelize = false →
      (∀ deps, infoA.plugin.metadata.dependencies = some deps →
        infoB.plugin.metadata.id ∉ deps) →
      (operationId d infoB.plugin.metadata.id ph.toString ∈
        (alookup g.edges (operationId d infoA.plugin.metadata.id
          ph.toString)).getD [] ↔
        infoB.plugin.metadata.canParallelize = false)) ∧
    (∀ i infoC infoB infoA,
      (samePhasePluginsOf plugins ⟨some d, none, some ph.toString⟩).get?
        i = some infoC →
      (samePhasePluginsOf plugins ⟨some d, none, some ph.toString⟩).get?
        (i + 1) = some infoB →
      (samePhasePluginsOf plugins ⟨some d, none, some ph.toString⟩).get?
        (i + 2) = some infoA →
      infoC.plugin.metadata.canParallelize = false →
      infoB.plugin.metadata.canParallelize = true →
      infoA.plugin.metadata.canParallelize = false →
      (∀ deps, infoA.plugin.metadata.dependencies = some deps →
        infoC.plugin.metadata.id ∉ deps) →
      (∀ deps, infoC.plugin.metadata.dependencies = some deps →
        infoA.plugin.metadata.id ∉ deps) →
      operationId d infoC.plugin.metadata.id ph.toString ∉
        (alookup g.edges (operationId d infoA.plugin.metadata.id
          ph.toString)).getD [] ∧
      operationId d infoA.plugin.metadata.id ph.toString ∉
        (alookup g.edges (operationId d infoC.plugin.metadata.id
          ph.toString)).getD []) := by
  constructor
  · intro i infoB infoA hgetB hgetA hAnp hnodecl
    constructor
    · intro hedge
      rw [edges_lookup_getD plugins options g hok] at hedge
      exact (builtNodes_seq_edge_UB plugins options hcf ph d hinc hnd
        (i + 1) i infoA infoB hgetA hgetB hnodecl hedge).2.2
    · intro hBnp
      rw [edges_lookup_getD plugins options g hok]
      have hSA : infoA ∈ samePhasePluginsOf plugins
          ⟨some d, none, some ph.toString⟩ :=
        List.getElem?_mem (by rw [← List.get?_eq_getElem?]; exact hgetA)
      have hSB : infoB ∈ samePhasePluginsOf plugins
          ⟨some d, none, some ph.toString⟩ :=
        List.getElem?_mem (by rw [← List.get?_eq_getElem?]; exact hgetB)
      obtain ⟨hApl, hAd, hAph⟩ :=
        (mem_samePhasePluginsOf_iff plugins d ph infoA).mp hSA
      obtain ⟨hBpl, hBd, hBph⟩ :=
        (mem_samePhasePluginsOf_iff plugins d ph infoB).mp hSB
      obtain ⟨hdA, hpA⟩ := hcf infoA hApl
      have hdcf : ColonFree d := by
        rw [← hAd]
        exact hdA
      have hparseA : parseOperationId (operationId d
          infoA.plugin.metadata.id ph.toString) =
          ⟨some d, some infoA.plugin.metadata.id, some ph.toString⟩ :=
        parseOperationId_operationId hdcf hpA (colonFree_phase ph)
      have hSeq : samePhasePluginsOf plugins
          ⟨some d, some infoA.plugin.metadata.id, some ph.toString⟩ =
          samePhasePluginsOf plugins ⟨some d, none, some ph.toString⟩ :=
        samePhasePluginsOf_pid_irrel plugins (some d)
          (some infoA.plugin.metadata.id) none (some ph.toString)
      have hkA : operationId d infoA.plugin.metadata.id ph.toString ∈
          akeys (createNodes plugins options) := by
        have := createNodes_key_mem plugins options infoA ph hApl hAph hinc
        rw [hAd] at this
        exact this
      have hndA : ((samePhasePluginsOf plugins
          ⟨some infoA.distribution, none, some ph.toString⟩).map
          (fun p => p.plugin.metadata.id)).Nodup := by
        rw [hAd]
        exact hnd
      have hopU := createNodes_op_unique plugins options hcf infoA hApl ph
        hAph hinc hndA
      rw [hAd] at hopU
      have hkB : operationId d infoB.plugin.metadata.id ph.toString ∈
          akeys (createNodes plugins options) := by
        have := createNodes_key_mem plugins options infoB ph hBpl hBph hinc
        rw [hBd] at this
        exact this
      have hfindA : (samePhasePluginsOf plugins (parseOperationId
          (operationId d infoA.plugin.metadata.id
            ph.toString))).findIdx?
          (fun p => some p.plugin.metadata.id = (parseOperationId
            (operationId d infoA.plugin.metadata.id
              ph.toString)).pluginId) = some (i + 1) := by
        rw [hparseA, hSeq]
        refine findIdx_map_nodup (fun p => p.plugin.metadata.id) _ hnd
          (i + 1) infoA hgetA _ ?_
        intro x
        constructor
        · intro hx
          exact Option.some.inj (of_decide_eq_true hx)
        · intro hx
          exact decide_eq_true (congrArg some hx)
      have hgetB2 : (samePhasePluginsOf plugins (parseOperationId
          (operationId d infoA.plugin.metadata.id ph.toString))).get? i =
          some infoB := by
        rw [hparseA, hSeq]
        exact hgetB
      have hmain := builtNodes_seq_edge plugins options
        (operationId d infoA.plugin.metadata.id ph.toString) i infoB
        { id := operationId d infoA.plugin.metadata.id ph.toString,
          plugin := infoA.plugin, phase := ph, distribution := d,
          config := infoA.config }
        hkA hopU hAnp hfindA hgetB2 hBnp
        (by rw [hparseA]; exact hkB)
      rw [hparseA] at hmain
      exact hmain
  · intro i infoC infoB infoA hgetC hgetB hgetA _hCnp _hBpar _hAnp hnoAC
      hnoCA
    constructor
    · intro hedge
      rw [edges_lookup_getD plugins options g hok] at hedge
      have := (builtNodes_seq_edge_UB plugins options hcf ph d hinc hnd
        (i + 2) i infoA infoC hgetA hgetC hnoAC hedge).1
      omega
    · intro hedge
      rw [edges_lookup_getD plugins options g hok] at hedge
      have := (builtNodes_seq_edge_UB plugins options hcf ph d hinc hnd
        i (i + 2) infoC infoA hgetC hgetA hnoCA hedge).1
      omega

/-- **C7 witness.**  In the four-plugin chain a←b, c parallelizable,
d non-parallelizable: b gains the edge on a, and no ordering edge in
either direction connects b and d across the parallelizable c. -/
theorem canParallelize_chaining_witness :
    (operationId "node" "a" "transform" ∈
      (alookup chainGraph.edges
        (operationId "node" "b" "transform")).getD []) ∧
    (operationId "node" "b" "transform" ∉
      (alookup chainGraph.edges
        (operationId "node" "d" "transform")).getD []) ∧
    (operationId "node" "d" "transform" ∉
      (alookup chainGraph.edges
        (operationId "node" "b" "transform")).getD []) := by
  have h := canParallelize_chaining chainPlugins nodeOpts chainGraph
    (by rfl) (by decide) PhaseId.transform "node" (by decide) (by decide)
  refine ⟨?_, ?_, ?_⟩
  · exact (h.1 0
      { plugin := chainPlugin "a" false, config := { id := "a" },
        distribution := "node" }
      { plugin := chainPlugin "b" false, config := { id := "b" },
        distribution := "node" }
      (by rfl) (by rfl) (by rfl)
      (fun deps hd => Option.noConfusion hd)).mpr (by rfl)
  · exact ((h.2 1
      { plugin := chainPlugin "b" false, config := { id := "b" },
        distribution := "node" }
      { plugin := chainPlugin "c" true, config := { id := "c" },
        distribution := "node" }
      { plugin := chainPlugin "d" false, config := { id := "d" },
        distribution := "node" }
      (by rfl) (by rfl) (by rfl) (by rfl) (by rfl) (by rfl)
      (fun deps hd => Option.noConfusion hd)
      (fun deps hd => Option.noConfusion hd)).1)
  · exact ((h.2 1
      { plugin := chainPlugin "b" false, config := { id := "b" },
        distribution := "node" }
      { plugin := chainPlugin "c" true, config := { id := "c" },
        distribution := "node" }
      { plugin := chainPlugin "d" false, config := { id := "d" },
        distribution := "node" }
      (by rfl) (by rfl) (by rfl) (by rfl) (by rfl) (by rfl)
      (fun deps hd => Option.noConfusion hd)
      (fun deps hd => Option.noConfusion hd)).2)

end DenoDist

